import Mathlib

/-!
# Verification of the Library-Service mutation engine

A shallow embedding, in Lean 4, of the core of the markdown library
service (path validation, markdown section editing, task ledger,
digest scoring and rollup, schema bootstrapping, onboarding state,
and the mutation pipeline of validate / apply / commit / journal),
translated from the Python sources under `app/`, together with proofs
and refutations of the specification's claims about them.

Python strings are modelled as Lean `String`s (sequences of unicode
scalar values).  Machine-level concerns (UTF-8 byte decoding, fsync)
are outside the model: every file content is a text string.
-/

namespace LibSvc

/-! ## Python string primitives

Faithful models of the Python `str` operations the sources rely on:
`str.replace` for single characters, `str.splitlines` (with and
without `keepends`), `str.strip` / `lstrip` / `rstrip`, and
`str.startswith` / `endswith`.
-/

/-- Python's set of line-break characters for `str.splitlines`. -/
def isLineBreak (c : Char) : Bool :=
  c = '\n' || c = '\r' || c = '\x0b' || c = '\x0c' ||
  c = '\x1c' || c = '\x1d' || c = '\x1e' || c = '\u0085' ||
  c = ' ' || c = ' '

/-- `str.splitlines(keepends=True)` on a character list: split after every
line-break character, treating the two-character sequence of carriage
return and line feed as a single break.  Every returned chunk keeps its
terminator; the final chunk may lack one. -/
def splitlinesK : List Char → List (List Char)
  | [] => []
  | c :: rest =>
    if isLineBreak c then
      if c = '\r' && rest.head? = some '\n' then
        ['\r', '\n'] :: (splitlinesK rest).tail
      else [c] :: splitlinesK rest
    else
      match splitlinesK rest with
      | [] => [[c]]
      | line :: lines => (c :: line) :: lines

/-- Concatenation of character-list chunks (Python `"".join`). -/
def joinChunks (ls : List (List Char)) : List Char := ls.flatten

/-- Whitespace characters for Python's default `str.strip` family
(the ASCII whitespace range plus the line-break set; sufficient for the
text handled by this service). -/
def isPyWs (c : Char) : Bool :=
  c = ' ' || c = '\t' || isLineBreak c

/-- Python `str.lstrip()` on a character list. -/
def pyLstripL (l : List Char) : List Char := l.dropWhile isPyWs

/-- Python `str.rstrip()` on a character list. -/
def pyRstripL (l : List Char) : List Char := (l.reverse.dropWhile isPyWs).reverse

/-- Python `str.strip()` on a character list. -/
def pyStripL (l : List Char) : List Char := pyRstripL (pyLstripL l)

/-- Python `str.strip()` on strings. -/
def pyStrip (s : String) : String := ⟨pyStripL s.data⟩

/-- Python `str.lstrip()` on strings. -/
def pyLstrip (s : String) : String := ⟨pyLstripL s.data⟩

/-- Python `str.rstrip()` on strings. -/
def pyRstrip (s : String) : String := ⟨pyRstripL s.data⟩

/-- Python `str.rstrip` with the two-character argument of carriage
return and line feed: drop those trailing characters. -/
def pyRstripCrLf (s : String) : String :=
  ⟨(s.data.reverse.dropWhile (fun c => c = '\r' || c = '\n')).reverse⟩

/-- Remove one trailing line terminator (a carriage-return/line-feed
pair or a single break character) from a chunk. -/
def dropEol (l : List Char) : List Char :=
  match l.reverse with
  | '\n' :: '\r' :: rest => rest.reverse
  | c :: rest => if isLineBreak c then rest.reverse else l
  | [] => l

/-- `str.splitlines(keepends=True)` on strings. -/
def pySplitlinesK (s : String) : List String :=
  (splitlinesK s.data).map (fun l => ⟨l⟩)

/-- `str.splitlines()` (without keepends): each chunk with its
terminator removed. -/
def pySplitlines (s : String) : List String :=
  (splitlinesK s.data).map (fun l => ⟨dropEol l⟩)

/-- Python truthiness of a string (`bool(s)`). -/
def pyTruthy (s : String) : Bool := s != ""

/-- `str.startswith` (character-list based, so that concrete instances
evaluate by `decide`). -/
def strStartsWith (s pre : String) : Bool := pre.data.isPrefixOf s.data

/-- `str.endswith`. -/
def strEndsWith (s suf : String) : Bool := suf.data.isSuffixOf s.data

/-- `str.lower()` (the service's strings are ASCII). -/
def lowerStr (s : String) : String := ⟨s.data.map Char.toLower⟩

/-- Drop the first `n` characters. -/
def strDrop (s : String) (n : Nat) : String := ⟨s.data.drop n⟩

/-- Drop the last `n` characters. -/
def strDropRight (s : String) (n : Nat) : String := ⟨s.data.take (s.data.length - n)⟩

/-- `str.split(sep)` for a one-character separator, on character
lists. -/
def splitOnCharL (sep : Char) : List Char → List (List Char)
  | [] => [[]]
  | c :: rest =>
    if c = sep then [] :: splitOnCharL sep rest
    else
      match splitOnCharL sep rest with
      | [] => [[c]]
      | g :: gs => (c :: g) :: gs

/-- `str.split(sep)` for a one-character separator. -/
def splitOnChar (sep : Char) (s : String) : List String :=
  (splitOnCharL sep s.data).map (fun l => ⟨l⟩)

/-- Python `sep.join(parts)`. -/
def joinWith (sep : String) : List String → String
  | [] => ""
  | [x] => x
  | x :: rest => x ++ sep ++ joinWith sep rest

/-- Python `"".join(parts)` on strings. -/
def joinAll (ls : List String) : String := ls.foldr (· ++ ·) ""

/-! ## Path validator (`app/paths.py`)

`validate_path` receives the tenant library root and a caller-supplied
value.  Paths are modelled as lists of POSIX components; the library
root is an abstract absolute path, also a component list.  The
filesystem enters only through the symlink oracle `sym`, which answers
whether the path `root ++ prefix` is currently a symbolic link —
`Path.is_symlink` is false for paths that do not exist, so the oracle
subsumes nonexistence.  Target existence is never consulted anywhere
else, matching the source, which never stats the final path.
-/

/-- A caller-supplied Python value for the `path` argument: either a
string or a non-string (its type name kept for the error details). -/
inductive PyVal where
  | str (s : String)
  | nonStr (tyName : String)
deriving DecidableEq, Repr

/-- Error codes raised by `validate_path`. -/
inductive PathErr where
  | INVALID_TYPE
  | ABSOLUTE_PATH
  | PATH_TRAVERSAL
  | PATH_SYMLINK
deriving DecidableEq, Repr

/-- The backslash-to-forward-slash normalisation applied first. -/
def normalizeSlashes (s : String) : String :=
  ⟨s.data.map (fun c => if c = '\\' then '/' else c)⟩

/-- `PurePosixPath(s).parts` for a relative path: split on `/`, dropping
empty components and single-dot components (as `pathlib` does). -/
def posixParts (s : String) : List String :=
  (splitOnChar '/' s).filter (fun p => p != "" && p != ".")

/-- `PurePosixPath(s).is_absolute()`: the path has a root, i.e. begins
with a slash. -/
def posixIsAbsolute (s : String) : Bool :=
  strStartsWith s "/"

/-- `_contains_symlink`: walk the components, asking the symlink oracle
about every cumulative prefix of the candidate below the root. -/
def containsSymlink (sym : List String → Bool) : List String → List String → Bool
  | _, [] => false
  | pre, seg :: rest =>
    let cur := pre ++ [seg]
    if sym cur then true else containsSymlink sym cur rest

/-- `validate_path(library_root, raw_path)`: returns the resolved
component path `root ++ parts` or the structured error. -/
def validate_path (sym : List String → Bool) (root : List String) (rawPath : PyVal) :
    Except PathErr (List String) :=
  match rawPath with
  | .nonStr _ => .error .INVALID_TYPE
  | .str raw =>
    let normalized := normalizeSlashes raw
    if posixIsAbsolute normalized then
      .error .ABSOLUTE_PATH
    else
      let parts := posixParts normalized
      if parts.contains ".." then
        .error .PATH_TRAVERSAL
      else if containsSymlink sym [] parts then
        .error .PATH_SYMLINK
      else
        .ok (root ++ parts)

/-! ## Error codes

The structured `McpError` codes raised by the embedded operations
(`app/errors.py` carries them as strings; an enumeration keeps the
model total). -/

inductive ErrCode where
  | INVALID_TARGET
  | SECTION_NOT_FOUND
  | INVALID_OPERATION
  | MISSING_TARGET
  | NOT_MARKDOWN
  | FILE_NOT_FOUND
  | INVALID_PATH
  | GIT_ERROR
  | LOG_ERROR
  | MISSING_TITLE
  | TASK_NOT_FOUND
  | INVALID_TYPE
  | ABSOLUTE_PATH
  | PATH_TRAVERSAL
  | PATH_SYMLINK
deriving DecidableEq, Repr

/-! ## Markdown section editor (`app/mcp_operations.py`, `app/mcp_utils.py`) -/

/-- `_join_with_newline(left, right)`. -/
def join_with_newline (left right : String) : String :=
  if !pyTruthy left || !pyTruthy right then left ++ right
  else if strEndsWith left "\n" || strStartsWith right "\n" then left ++ right
  else left ++ "\n" ++ right

/-- `_heading_level(line)`: the length of the leading run of `#` after
left-stripping, or `none` when the stripped line does not start with `#`. -/
def heading_level (line : String) : Option Nat :=
  let stripped := pyLstrip line
  if !strStartsWith stripped "#" then none
  else some (stripped.data.length - (stripped.data.dropWhile (· = '#')).length)

/-- Inner loop of `_find_section_bounds`: the first index at or after `k`
whose line (right-stripped of carriage returns and line feeds) is a
heading of level at most `level`. -/
def findBoundaryAux (level : Nat) : List String → Nat → Option Nat
  | [], _ => none
  | l :: rest, k =>
    match heading_level (pyRstripCrLf l) with
    | some nl => if nl ≤ level then some k else findBoundaryAux level rest (k + 1)
    | none => findBoundaryAux level rest (k + 1)

/-- Outer loop of `_find_section_bounds`: scan for the first line whose
stripped form equals the stripped target and is a heading; return its
index paired with the end of its section. -/
def findSectionAux (total : Nat) (targetLine : String) :
    List String → Nat → Except ErrCode (Nat × Nat)
  | [], _ => .error .SECTION_NOT_FOUND
  | l :: rest, idx =>
    if pyStrip l = targetLine then
      match heading_level (pyStrip l) with
      | none => findSectionAux total targetLine rest (idx + 1)
      | some level =>
        match findBoundaryAux level rest (idx + 1) with
        | some k => .ok (idx, k)
        | none => .ok (idx, total)
    else
      findSectionAux total targetLine rest (idx + 1)

/-- `_find_section_bounds(lines, target)`. -/
def find_section_bounds (lines : List String) (target : String) :
    Except ErrCode (Nat × Nat) :=
  let targetLine := pyStrip target
  if targetLine = "" then .error .INVALID_TARGET
  else
    match heading_level targetLine with
    | none => .error .INVALID_TARGET
    | some _ => findSectionAux lines.length targetLine lines 0

/-- `_apply_section_operation(content, op_type, target, op_content)`:
locate the section bounds and splice.  The final branch of the source
(neither `replace_section` nor `insert_before`) is `insert_after`. -/
def apply_section_operation (content opType target opContent : String) :
    Except ErrCode String :=
  let lines := pySplitlinesK content
  match find_section_bounds lines target with
  | .error e => .error e
  | .ok (start, stop) =>
    if opType = "replace_section" then
      .ok (joinAll (lines.take start ++ pySplitlinesK opContent ++ lines.drop stop))
    else if opType = "insert_before" then
      .ok (joinAll (lines.take start ++ pySplitlinesK opContent ++ lines.drop start))
    else
      .ok (joinAll (lines.take stop ++ pySplitlinesK opContent ++ lines.drop stop))

/-- An operation payload after `_validate_operation_payload` has checked
its shape: a type, a content string, and an optional target. -/
structure OpPayload where
  opType : String
  opContent : String
  target : Option String
deriving DecidableEq, Repr

/-- `_apply_write_operation(content, operation)` (the payload's shape has
already been validated): only `append` and `prepend` are write
operations. -/
def apply_write_operation (content : String) (op : OpPayload) :
    Except ErrCode String :=
  if !(op.opType = "append" || op.opType = "prepend") then
    .error .INVALID_OPERATION
  else if op.opType = "append" then
    .ok (join_with_newline content op.opContent)
  else
    .ok (join_with_newline op.opContent content)

/-- `_format_activity_summary(operation, payload)` specialised to the
write/edit tools: `"<op_type> (<target>)"` when a target is present. -/
def format_activity_summary (op : OpPayload) : String :=
  match op.target with
  | some t => if t ≠ "" then op.opType ++ " (" ++ t ++ ")" else op.opType
  | none => op.opType

/-! ## Digest task scoring (`app/mcp_digest.py`)

`_score_task` reads a task dictionary.  Tasks are modelled with exactly
the fields the function consults; `due` models the outcome of
`datetime.fromisoformat(str(due))` on the stored value (`none` when the
field is missing or falsy, `malformed` when parsing raises,
`at t` for an instant `t` in seconds); `now` is likewise an instant in
seconds, and the day difference of `timedelta.days` floors, as in
Python. -/

inductive DueVal where
  | malformed
  | at (secs : Int)
deriving DecidableEq, Repr

structure ScoreTask where
  priority : Option String
  project : Option String
  tags : List String
  due : Option DueVal
deriving DecidableEq, Repr

/-- The priority table inside `_score_task`. -/
def priorityMapGet (p : String) : Int :=
  if p = "p0" then 100
  else if p = "p1" then 70
  else if p = "p2" then 40
  else if p = "p3" then 20
  else 10

/-- `task.get("priority") or "p2"`: missing or falsy collapses to `"p2"`. -/
def effectivePriority (p : Option String) : String :=
  match p with
  | none => "p2"
  | some s => if s = "" then "p2" else s

/-- `_score_task(task, focus_project, now)`: score and reason list. -/
def score_task (task : ScoreTask) (focusProject : Option String) (now : Int) :
    Int × List String :=
  let priority := effectivePriority task.priority
  let priorityScore := priorityMapGet priority
  let score0 : Int := priorityScore
  let reasons0 : List String := ["priority:" ++ priority]
  let focusHit :=
    match focusProject with
    | some f => pyTruthy f && task.project = some f
    | none => false
  let score1 := if focusHit then score0 + 10 else score0
  let reasons1 := if focusHit then reasons0 ++ ["focus_project"] else reasons0
  let blocked := task.tags.contains "blocked"
  let score2 := if blocked then score1 - 100 else score1
  let reasons2 := if blocked then reasons1 ++ ["blocked"] else reasons1
  match task.due with
  | none => (score2, reasons2)
  | some .malformed => (score2, reasons2 ++ ["due_invalid"])
  | some (.at dueSecs) =>
    let deltaDays := Int.fdiv (dueSecs - now) 86400
    if deltaDays ≤ 0 then (score2 + 30, reasons2 ++ ["due_overdue"])
    else if deltaDays ≤ 1 then (score2 + 25, reasons2 ++ ["due_1d"])
    else if deltaDays ≤ 3 then (score2 + 20, reasons2 ++ ["due_3d"])
    else if deltaDays ≤ 7 then (score2 + 10, reasons2 ++ ["due_7d"])
    else (score2, reasons2)

/-- One element of the ranking returned by `score_digest_tasks`,
annotated with its original position (Python's `list.sort` is stable, so
sorting by score descending coincides with sorting by the lexicographic
key of score descending then original index ascending). -/
structure ScoredEntry where
  idx : Nat
  task : ScoreTask
  score : Int
  reasons : List String
deriving DecidableEq, Repr

/-- Stable insertion for descending-score order: an element passes over
exactly the strictly higher scores, landing before the first score less
than or equal to its own — later-indexed equal scores stay behind it. -/
def insertByScoreDesc (e : ScoredEntry) : List ScoredEntry → List ScoredEntry
  | [] => [e]
  | x :: xs => if x.score > e.score then x :: insertByScoreDesc e xs else e :: x :: xs

/-- `scored.sort(key=lambda item: item["score"], reverse=True)` as a
stable sort. -/
def sortByScoreDesc (l : List ScoredEntry) : List ScoredEntry :=
  l.foldr insertByScoreDesc []

/-- Annotate a list with positions starting at `n` (the original order
bookkeeping that makes the stable sort explicit). -/
def withIdx : List α → Nat → List (Nat × α)
  | [], _ => []
  | x :: xs, n => (n, x) :: withIdx xs (n + 1)

/-- `score_digest_tasks` on an already-typed task list: score each task
(annotating original positions) and stable-sort descending. -/
def score_digest_tasks (tasks : List ScoreTask) (focusProject : Option String)
    (now : Int) : List ScoredEntry :=
  sortByScoreDesc <|
    (withIdx tasks 0).map fun ti =>
      let sr := score_task ti.2 focusProject now
      ⟨ti.1, ti.2, sr.1, sr.2⟩

/-! ## Task ledger (`app/mcp_tasks.py`): scope normalisation helpers -/

/-- Python truthiness of an optional string (`None` and `""` are falsy). -/
def optTruthy (o : Option String) : Bool :=
  match o with
  | none => false
  | some s => s != ""

/-- `part.split(":", 1)[1]`: everything after the first colon (callers
guard on a colon-bearing prefix, so a colon is always present). -/
def afterFirstColon (s : String) : String :=
  match s.data.dropWhile (· ≠ ':') with
  | [] => ""
  | _ :: rest => ⟨rest⟩

/-- Strip a character class from both ends (Python `str.strip(chars)`). -/
def stripBy (p : Char → Bool) (s : String) : String :=
  ⟨((s.data.dropWhile p).reverse.dropWhile p).reverse⟩

/-- Replace every maximal run of characters matching `p` by the single
character `rep` (the `re.sub(r"X+", rep, s)` pattern; a run of length
one is also replaced, which coincides with `re.sub(r"X{2,}", ...)` when
`rep` itself matches `p`). -/
def collapseRunsAux (p : Char → Bool) (rep : Char) : Bool → List Char → List Char
  | _, [] => []
  | inRun, c :: rest =>
    if p c then
      if inRun then collapseRunsAux p rep true rest
      else rep :: collapseRunsAux p rep true rest
    else c :: collapseRunsAux p rep false rest

/-- Entry point of the run-collapsing rewrite. -/
def collapseRuns (p : Char → Bool) (rep : Char) (l : List Char) : List Char :=
  collapseRunsAux p rep false l

/-- Membership of a character (Python `c in s`). -/
def strHasChar (c : Char) (s : String) : Bool := s.data.contains c

/-- Substring containment (Python `needle in hay`). -/
def listHasSub (needle : List Char) : List Char → Bool
  | [] => needle.isEmpty
  | c :: rest => needle.isPrefixOf (c :: rest) || listHasSub needle rest

/-- Python `needle in hay` on strings. -/
def strHasSub (needle hay : String) : Bool := listHasSub needle.data hay.data

/-- Whitespace-or-underscore class of `re.sub(r"[\s_]+", "-", ...)`. -/
def isWsU (c : Char) : Bool := isPyWs c || c = '_'

/-- `_normalize_scope_key(value)`: canonical dashed key of the last path
component. -/
def normalize_scope_key (value : Option String) : Option String :=
  match value with
  | none => none
  | some v =>
    let normalized := normalizeSlashes (pyStrip v)
    if normalized = "" then none
    else
      let normalized :=
        if strHasChar ':' normalized && !strHasChar '/' normalized then
          afterFirstColon normalized
        else normalized
      let normalized := stripBy (· = '/') normalized
      if normalized = "" then none
      else
        let tail := pyStrip ((splitOnChar '/' normalized).getLastD "")
        if tail = "" then none
        else
          let tail : String := ⟨collapseRuns isWsU '-' (lowerStr tail).data⟩
          let tail := stripBy (· = '-') ⟨collapseRuns (· = '-') '-' tail.data⟩
          if tail = "" then none else some tail

/-- Tail of `_normalize_scope_path` once no rewritable prefix remains:
interpret the first component and canonicalise. -/
def normScopePathMain (normalized : String) : Option String :=
  let normalized := stripBy (· = '/') normalized
  if normalized = "" then none
  else
    let parts := (((splitOnChar '/' normalized)).map pyStrip).filter (· != "")
    match parts with
    | [] => none
    | headPart :: tailParts =>
      let headL := lowerStr headPart
      if headL = "life" then
        match tailParts with
        | [] => none
        | p1 :: _ => some ("life/" ++ lowerStr p1)
      else if headL = "project" then
        match tailParts with
        | [] => none
        | p1 :: _ => some ("projects/active/" ++ lowerStr p1)
      else if headL = "projects" then
        match tailParts with
        | [] => none
        | p1 :: rest =>
          if lowerStr p1 = "active" then
            match rest with
            | [] => none
            | p2 :: _ => some ("projects/active/" ++ lowerStr p2)
          else some ("projects/" ++ lowerStr p1)
      else none

/-- `_normalize_scope_path(value)`, with fuel standing in for Python's
recursion: every `scope:`/`path:` rewrite strictly shortens the string
and the `life:`/`project:` rewrites lead to a non-rewritable head, so a
fuel of the length plus three is never exhausted. -/
def normScopePathAux : Nat → Option String → Option String
  | 0, _ => none
  | fuel + 1, value =>
    match value with
    | none => none
    | some v =>
      let n0 := normalizeSlashes (pyStrip v)
      if n0 = "" then none
      else
        let n1 : String := ⟨collapseRuns (· = '/') '/' n0.data⟩
        let lowered := lowerStr n1
        if strStartsWith lowered "scope:" || strStartsWith lowered "path:" then
          normScopePathAux fuel (some (afterFirstColon n1))
        else if strStartsWith lowered "life:" then
          normScopePathAux fuel (some ("life/" ++ afterFirstColon n1))
        else if strStartsWith lowered "project:" || strStartsWith lowered "projects:" then
          normScopePathAux fuel (some ("projects/active/" ++ afterFirstColon n1))
        else
          normScopePathMain n1

/-- `_normalize_scope_path(value)`. -/
def normalize_scope_path (value : Option String) : Option String :=
  normScopePathAux ((match value with | some s => s.length | none => 0) + 3) value

/-- `_scope_parts(scope_path)`: the `(root, name)` pair of a canonical
scope path. -/
def scope_parts (scopePath : Option String) : Option String × Option String :=
  match normalize_scope_path scopePath with
  | none => (none, none)
  | some normalized =>
    match splitOnChar '/' normalized with
    | "life" :: p1 :: _ => (some "life", some p1)
    | "projects" :: "active" :: p2 :: _ => (some "projects", some p2)
    | "projects" :: p1 :: _ => (some "projects", some p1)
    | _ => (none, none)

/-! ## Task ledger: parsing, formatting, scope lookup -/

/-- A parsed task dictionary (`_parse_tasks` assembles exactly these
keys; `path` and `scope` keys never occur in stored task dicts, so
`task.get("path")` and `task.get("scope")` read as `None`). -/
structure Task where
  id : Nat
  status : String
  title : String
  priority : Option String := none
  owner : Option String := none
  tags : List String := []
  project : Option String := none
  due : Option String := none
  scopePath : Option String := none
  scopeRoot : Option String := none
  scopeType : Option String := none
  scopeName : Option String := none
  raw : String := ""
  sourcePath : Option String := none
deriving DecidableEq, Repr

/-- Digits of a natural, zero-padded to width three (`f"{id:03d}"`). -/
def pad3 (n : Nat) : String :=
  let s := toString n
  if s.length ≥ 3 then s else ⟨List.replicate (3 - s.length) '0'⟩ ++ s

/-- Value of a digit run. -/
def digitsToNat (ds : List Char) : Nat :=
  ds.foldl (fun n c => n * 10 + (c.toNat - '0'.toNat)) 0

/-- `TASK_LINE_PATTERN.match(line.strip())`: status character, id digits
and the remainder after the first pipe. -/
def matchTaskLine (stripped : String) : Option (Char × Nat × String) :=
  match stripped.data with
  | '-' :: ' ' :: '[' :: c :: ']' :: ' ' :: 'T' :: '-' :: rest =>
    if c = ' ' || c = 'x' || c = 'X' then
      let ds := rest.takeWhile (·.isDigit)
      if ds.isEmpty then none
      else
        let afterDigits := rest.dropWhile (·.isDigit)
        match afterDigits.dropWhile isPyWs with
        | '|' :: afterPipe => some (c, digitsToNat ds, ⟨afterPipe.dropWhile isPyWs⟩)
        | _ => none
    else none
  | _ => none

/-- The priority-literal set recognised inside `_parse_tasks`. -/
def isPriorityLiteral (s : String) : Bool :=
  s = "p0" || s = "p1" || s = "p2" || s = "p3" ||
  s = "high" || s = "medium" || s = "low"

/-- Classification of one pipe-delimited meta part inside `_parse_tasks`:
update the task in place or add to the title accumulator. -/
def classifyTaskPart (acc : Task × List String) (part : String) : Task × List String :=
  let (task, titleParts) := acc
  let partLower := lowerStr part
  if isPriorityLiteral partLower then
    ({ task with priority := some partLower }, titleParts)
  else if strStartsWith partLower "owner:" then
    ({ task with owner := some (pyStrip (afterFirstColon part)) }, titleParts)
  else if strStartsWith partLower "tags:" then
    let tagsValue := pyStrip (afterFirstColon part)
    ({ task with tags := (((splitOnChar ',' tagsValue)).map pyStrip).filter (· != "") },
     titleParts)
  else if strStartsWith partLower "scope:" || strStartsWith partLower "path:" then
    ({ task with scopePath := some (pyStrip (afterFirstColon part)) }, titleParts)
  else if strStartsWith partLower "life:" then
    ({ task with scopePath := some ("life/" ++ pyStrip (afterFirstColon part)) },
     titleParts)
  else if strStartsWith partLower "project:" then
    ({ task with project := some (pyStrip (afterFirstColon part)) }, titleParts)
  else if strStartsWith partLower "due:" then
    ({ task with due := some (pyStrip (afterFirstColon part)) }, titleParts)
  else
    (task, titleParts ++ [part])

/-- `_parse_tasks(content)`: the parsed tasks and the full line list. -/
def parse_tasks (content : String) : List Task × List String :=
  (pySplitlines content).foldl
    (fun (acc : List Task × List String) line =>
      let (tasks, lines) := acc
      match matchTaskLine (pyStrip line) with
      | none => (tasks, lines ++ [line])
      | some (statusChar, taskId, rest) =>
        let parts := (((splitOnChar '|' rest).map pyStrip).filter (· != ""))
        let task0 : Task :=
          { id := taskId
            status := if statusChar = 'x' || statusChar = 'X' then "x" else " "
            title := ""
            raw := line }
        let (task1, titleParts) := parts.foldl classifyTaskPart (task0, [])
        let task2 := { task1 with title := pyStrip (joinWith " | " titleParts) }
        (tasks ++ [task2], lines ++ [line]))
    ([], [])

/-- First-match association lookup (Python `dict.get`). -/
def alGet (l : List (String × String)) (k : String) : Option String :=
  (l.find? (fun kv => kv.1 = k)).map (·.2)

/-- `dict.setdefault`: keep the first binding of a key. -/
def alSetdefault (l : List (String × String)) (k v : String) :
    List (String × String) :=
  if (alGet l k).isSome then l else l ++ [(k, v)]

/-- Stable insertion against a strict comparator. -/
def insSortedBy {α : Type} (lt : α → α → Bool) (e : α) : List α → List α
  | [] => [e]
  | x :: xs => if lt x e then x :: insSortedBy lt e xs else e :: x :: xs

/-- Stable insertion sort against a strict comparator (models Python's
stable `sorted`/`list.sort`). -/
def insertionSortBy {α : Type} (lt : α → α → Bool) (l : List α) : List α :=
  l.foldr (insSortedBy lt) []

/-- The child-directory names of `base` in enumeration order, sorted by
lower-cased name (the `sorted(root.iterdir(), key=...name.lower())`
pattern; the model's directory list holds plain directories, so the
symlink and is-dir filters are identities). -/
def childDirNames (dirs : List String) (base : String) : List String :=
  let pre := base ++ "/"
  let names := dirs.filterMap (fun d =>
    if strStartsWith d pre then
      let rest := strDrop d pre.length
      if rest != "" && !strHasChar '/' rest then some rest else none
    else none)
  insertionSortBy (fun a b => decide (lowerStr a < lowerStr b)) names

/-- The `{"life": {...}, "projects": {...}}` lookup of
`_build_scope_lookup`. -/
structure ScopeLookup where
  life : List (String × String)
  projects : List (String × String)
deriving DecidableEq, Repr

/-- `_build_scope_lookup(library_root)` over the directory list. -/
def build_scope_lookup (dirs : List String) : ScopeLookup :=
  let lifeMap :=
    if dirs.contains "life" then
      (childDirNames dirs "life").foldl
        (fun acc name =>
          match normalize_scope_key (some name),
                normalize_scope_path (some ("life/" ++ name)) with
          | some key, some sp => alSetdefault acc key sp
          | _, _ => acc)
        []
    else []
  let projMap :=
    ["projects/active", "projects"].foldl
      (fun acc base =>
        if dirs.contains base then
          (childDirNames dirs base).foldl
            (fun acc name =>
              if base = "projects" && lowerStr name = "active" then acc
              else
                match normalize_scope_key (some name),
                      normalize_scope_path (some (base ++ "/" ++ name)) with
                | some key, some sp => alSetdefault acc key sp
                | _, _ => acc)
            acc
        else acc)
      []
  ⟨lifeMap, projMap⟩

/-- `_resolve_scope_path(value, lookup)`. -/
def resolve_scope_path (value : Option String) (lookup : ScopeLookup) :
    Option String :=
  match value with
  | none => none
  | some v0 =>
    let rawValue := pyStrip v0
    if rawValue = "" then none
    else
      let lowered := lowerStr rawValue
      let preference : Option String :=
        if strStartsWith lowered "life:" || strStartsWith lowered "life/" then some "life"
        else if strStartsWith lowered "project:" || strStartsWith lowered "project/" then
          some "projects"
        else if strStartsWith lowered "projects:" || strStartsWith lowered "projects/" then
          some "projects"
        else none
      match normalize_scope_path (some rawValue) with
      | some normalizedPath =>
        let rn := scope_parts (some normalizedPath)
        let scopeKey := normalize_scope_key rn.2
        if rn.1 = some "life" && optTruthy scopeKey then
          let key := scopeKey.getD ""
          match alGet lookup.life key with
          | some lifePath => some lifePath
          | none =>
            match alGet lookup.projects key with
            | some projectPath => some projectPath
            | none => some normalizedPath
        else if rn.1 = some "projects" && optTruthy scopeKey then
          let key := scopeKey.getD ""
          match alGet lookup.projects key with
          | some projectPath => some projectPath
          | none =>
            match alGet lookup.life key with
            | some lifePath => some lifePath
            | none => some normalizedPath
        else some normalizedPath
      | none =>
        match normalize_scope_key (some rawValue) with
        | none => none
        | some scopeKey =>
          let lifePath := alGet lookup.life scopeKey
          let projectPath := alGet lookup.projects scopeKey
          if preference = some "life" && lifePath.isSome then lifePath
          else if preference = some "projects" && projectPath.isSome then projectPath
          else if lifePath.isSome then lifePath
          else if projectPath.isSome then projectPath
          else none

/-- Insert while preserving first occurrences (set-accumulation order). -/
def listInsertDedup (l : List String) (x : String) : List String :=
  if l.contains x then l else l ++ [x]

/-- `_task_tag_keys(task)` as an insertion-ordered set. -/
def task_tag_keys (task : Task) : List String :=
  task.tags.foldl
    (fun acc tag =>
      match normalize_scope_key (some tag) with
      | some key => listInsertDedup acc key
      | none => acc)
    []

/-- `_enrich_task_scope(task, lookup)` as a functional update. -/
def enrich_task_scope (task : Task) (lookup : ScopeLookup) : Task :=
  let sp0 := resolve_scope_path task.scopePath lookup
  let sp1 := if !optTruthy sp0 then resolve_scope_path none lookup else sp0
  let sp2 := if !optTruthy sp1 then resolve_scope_path none lookup else sp1
  let sp3 := if !optTruthy sp2 then resolve_scope_path task.project lookup else sp2
  let spFinal :=
    if !optTruthy sp3 then
      let fromTags := (task_tag_keys task).foldl
        (fun acc tagKey =>
          let acc :=
            match alGet lookup.life tagKey with
            | some p => listInsertDedup acc p
            | none => acc
          match alGet lookup.projects tagKey with
          | some p => listInsertDedup acc p
          | none => acc)
        []
      match fromTags with
      | [single] => some single
      | _ => sp3
    else sp3
  let task := { task with scopePath := spFinal }
  if !optTruthy spFinal then
    { task with scopeRoot := none, scopeType := none, scopeName := none }
  else
    let rn := scope_parts spFinal
    let task :=
      { task with
        scopeRoot := rn.1
        scopeType := if rn.1 = some "life" then some "life" else some "project"
        scopeName := rn.2 }
    match task.project with
    | none => { task with project := rn.2 }
    | some existingProject =>
      if pyStrip existingProject = "" || strHasChar '/' existingProject ||
          strHasChar ':' existingProject then
        { task with project := rn.2 }
      else task

/-- `_enrich_tasks_scope(tasks, lookup)`. -/
def enrich_tasks_scope (tasks : List Task) (lookup : ScopeLookup) : List Task :=
  tasks.map (enrich_task_scope · lookup)

/-- Does an optional key occur in a string list (`None in {...}` is
false in Python)? -/
def optMem (o : Option String) (l : List String) : Bool :=
  match o with
  | some k => l.contains k
  | none => false

/-- `_apply_dominant_scope(tasks, lookup)`. -/
def apply_dominant_scope (tasks : List Task) (lookup : ScopeLookup) : List Task :=
  let scopedPaths := tasks.filterMap (fun t =>
    match t.scopePath with
    | some p => if p != "" then some p else none
    | none => none)
  let distinct := scopedPaths.foldl listInsertDedup []
  if scopedPaths.isEmpty then tasks
  else if distinct.length ≠ 1 then tasks
  else
    let dominantScope := distinct.headD ""
    let rnDom := scope_parts (some dominantScope)
    let dominantNameKey := normalize_scope_key rnDom.2
    let knownScopeKeys :=
      (lookup.projects.foldl (fun acc kv => listInsertDedup acc kv.1)
        (lookup.life.foldl (fun acc kv => listInsertDedup acc kv.1) []))
    tasks.map fun task =>
      if optTruthy task.scopePath then task
      else
        let projectKey := normalize_scope_key task.project
        if optTruthy projectKey && optTruthy dominantNameKey &&
            projectKey ≠ dominantNameKey then task
        else
          let tagKeys := task_tag_keys task
          let skip :=
            if !tagKeys.isEmpty && !optMem dominantNameKey tagKeys then
              if !knownScopeKeys.isEmpty &&
                  tagKeys.any (fun key =>
                    knownScopeKeys.contains key && some key ≠ dominantNameKey) then
                true
              else if knownScopeKeys.isEmpty then true
              else false
            else false
          if skip then task
          else
            let rn := scope_parts (some dominantScope)
            let task :=
              { task with
                scopePath := some dominantScope
                scopeRoot := rn.1
                scopeType := if rn.1 = some "life" then some "life" else some "project"
                scopeName := rn.2 }
            if !optTruthy task.project then { task with project := rn.2 } else task

/-! ## System state and the mutation pipeline

The per-tenant on-disk world as the mutating tools see it: text files
and directories (paths relative to the tenant root), the commit store
modelled as an append-only object list with an explicit resolved HEAD,
and the activity journal as an entry list.  The outcome of
`porcelain.commit` for one call is injected as `GitCtx`: either the
commit raises (`gitFails`) or it succeeds and produces the
content-addressed id `newSha`; `logFails` injects a failure of the
journal append.  `_atomic_write` is a whole-file replacement, so file
writes are single assignments in the model. -/

structure GitCommit where
  sha : String
  message : String
deriving DecidableEq, Repr

structure ActEntry where
  timestamp : String
  operation : String
  path : String
  summary : String
  commitSha : String
deriving DecidableEq, Repr

structure SysState where
  dirs : List String
  files : List (String × String)
  commits : List GitCommit
  head : Option String
  journal : List ActEntry
deriving DecidableEq, Repr

/-- Failure injection and external inputs for one mutating call. -/
structure GitCtx where
  gitFails : Bool := false
  logFails : Bool := false
  newSha : String := ""
  nowIso : String := ""
deriving DecidableEq, Repr

/-- Content of a file, if present. -/
def getFile (st : SysState) (p : String) : Option String := alGet st.files p

/-- Replace the first binding of a path (or append a new one): the model
of `_atomic_write`. -/
def setFileL : List (String × String) → String → String → List (String × String)
  | [], p, v => [(p, v)]
  | (k, w) :: rest, p, v =>
    if k = p then (k, v) :: rest else (k, w) :: setFileL rest p v

/-- Write a file. -/
def setFile (st : SysState) (p v : String) : SysState :=
  { st with files := setFileL st.files p v }

/-- `mkdir(exist_ok=True)` for a single directory. -/
def addDir (st : SysState) (p : String) : SysState :=
  if st.dirs.contains p then st else { st with dirs := st.dirs ++ [p] }

/-- All slash-prefixes of a path, shortest first. -/
def pathAncestors (p : String) : List String :=
  let parts := splitOnChar '/' p
  (List.range parts.length).map (fun i => joinWith "/" (parts.take (i + 1)))

/-- `mkdir(parents=True, exist_ok=True)`. -/
def mkdirParents (st : SysState) (p : String) : SysState :=
  (pathAncestors p).foldl addDir st

/-- `PurePath.suffix` of the final component, as CPython computes it. -/
def pathSuffix (p : String) : String :=
  let name := ((splitOnChar '/' p)).getLastD ""
  match name.data.reverse.findIdx? (· = '.') with
  | none => ""
  | some j =>
    let i := name.length - 1 - j
    if 0 < i ∧ i < name.length - 1 then ⟨name.data.drop i⟩ else ""

/-- `ALLOWED_MARKDOWN_EXTENSIONS` membership after `.lower()`. -/
def allowedMarkdownExt (p : String) : Bool :=
  lowerStr (pathSuffix p) = ".md" || lowerStr (pathSuffix p) = ".markdown"

/-- The `ErrCode` of a `validate_path` failure. -/
def pathErrCode : PathErr → ErrCode
  | .INVALID_TYPE => .INVALID_TYPE
  | .ABSOLUTE_PATH => .ABSOLUTE_PATH
  | .PATH_TRAVERSAL => .PATH_TRAVERSAL
  | .PATH_SYMLINK => .PATH_SYMLINK

/-- `write_markdown` (`app/mcp_markdown.py`): the payload's dictionary
shape has already been checked (`_validate_operation_payload` raises
before any state is touched), so the embedding starts at path
validation; the tenant root is the empty component list and file keys
are root-relative joined parts. -/
def write_markdown (st : SysState) (sym : List String → Bool) (rawPath : PyVal)
    (op : OpPayload) (ctx : GitCtx) : SysState × Except ErrCode String :=
  match validate_path sym [] rawPath with
  | .error e => (st, .error (pathErrCode e))
  | .ok parts =>
    let rel := joinWith "/" parts
    if !allowedMarkdownExt rel then (st, .error .NOT_MARKDOWN)
    else
      match getFile st rel with
      | none =>
        if st.dirs.contains rel then (st, .error .INVALID_PATH)
        else (st, .error .FILE_NOT_FOUND)
      | some current =>
        match apply_write_operation current op with
        | .error e => (st, .error e)
        | .ok updated =>
          let headState := st.head
          let summary := format_activity_summary op
          let st1 := setFile st rel updated
          if ctx.gitFails then
            (setFile st1 rel current, .error .GIT_ERROR)
          else
            let st2 :=
              { st1 with
                commits := st1.commits ++ [⟨ctx.newSha, "write_markdown: " ++ rel⟩]
                head := some ctx.newSha }
            if ctx.logFails then
              ({ setFile st2 rel current with head := headState }, .error .LOG_ERROR)
            else
              ({ st2 with
                 journal := st2.journal ++
                   [⟨ctx.nowIso, "write_markdown", rel, summary, ctx.newSha⟩] },
               .ok ctx.newSha)

/-! ## Task ledger: the mutating tools -/

/-- `_format_task_line(task)`. -/
def format_task_line (task : Task) : String :=
  let parts : List String :=
    if optTruthy task.priority then [task.priority.getD ""] else []
  let parts :=
    if optTruthy task.owner then parts ++ ["owner:" ++ task.owner.getD ""] else parts
  let parts :=
    if !task.tags.isEmpty then parts ++ ["tags:" ++ joinWith "," task.tags] else parts
  let scopePath := normalize_scope_path task.scopePath
  let parts :=
    match scopePath with
    | some sp => parts ++ ["scope:" ++ sp]
    | none => parts
  let project :=
    if !optTruthy task.project && scopePath.isSome then (scope_parts scopePath).2
    else task.project
  let parts :=
    if optTruthy project then parts ++ ["project:" ++ project.getD ""] else parts
  let parts :=
    if optTruthy task.due then parts ++ ["due:" ++ task.due.getD ""] else parts
  let parts := parts ++ [task.title]
  let meta := joinWith " | " parts
  pyRstrip ("- [" ++ task.status ++ "] T-" ++ pad3 task.id ++ " | " ++ meta)

/-- `completed_root.glob("*.md")`: every file directly under
`pulse/completed/` with the markdown suffix, in enumeration order. -/
def globCompletedFiles (st : SysState) : List String :=
  st.files.filterMap (fun kv =>
    if strStartsWith kv.1 "pulse/completed/" && strEndsWith kv.1 ".md" &&
        !strHasChar '/' (strDrop kv.1 "pulse/completed/".length) then
      some kv.1
    else none)

/-- `_load_tasks(library_root, status_filter)`. -/
def load_tasks (st : SysState) (statusFilter : String) : List Task :=
  let lookup := build_scope_lookup st.dirs
  let enrichAll := fun (tasks : List Task) =>
    apply_dominant_scope (enrich_tasks_scope tasks lookup) lookup
  let openTasks :=
    if statusFilter = "open" || statusFilter = "all" then
      match getFile st "pulse/index.md" with
      | some content =>
        (enrichAll (parse_tasks content).1).map
          (fun t => { t with sourcePath := some "pulse/index.md" })
      | none => []
    else []
  let completedTasks :=
    if statusFilter = "completed" || statusFilter = "all" then
      let fromMonthly :=
        if st.dirs.contains "pulse/completed" then
          (globCompletedFiles st).foldl
            (fun acc p =>
              match getFile st p with
              | some content =>
                acc ++ (enrichAll (parse_tasks content).1).map
                  (fun t => { t with sourcePath := some p })
              | none => acc)
            []
        else []
      let fromArchive :=
        match getFile st "pulse/archive.md" with
        | some content =>
          (enrichAll (parse_tasks content).1).map
            (fun t => { t with sourcePath := some "pulse/archive.md" })
        | none => []
      fromMonthly ++ fromArchive
    else []
  openTasks ++ completedTasks

/-- `_next_task_id(library_root)`. -/
def next_task_id (st : SysState) : Nat :=
  let tasks := load_tasks st "all"
  if tasks.isEmpty then 1
  else ((tasks.map (·.id)).foldl max 0) + 1

/-- `_find_task_line_index(lines, task_id)`: the first line containing
the zero-padded pattern as a substring. -/
def find_task_line_index (lines : List String) (taskId : Nat) : Option Nat :=
  lines.findIdx? (fun line => strHasSub ("T-" ++ pad3 taskId) line)

/-- `_pop_task(tasks, lines, task_id)`: the matching task, and the line
list with the first pattern-bearing line removed. -/
def pop_task (tasks : List Task) (lines : List String) (taskId : Nat) :
    Option Task × List String :=
  match tasks.find? (fun t => t.id = taskId) with
  | none => (none, lines)
  | some t =>
    match find_task_line_index lines taskId with
    | some i => (some t, lines.eraseIdx i)
    | none => (some t, lines)

/-- `_infer_default_scope_for_new_task(library_root, lookup)`. -/
def infer_default_scope_for_new_task (st : SysState) (lookup : ScopeLookup) :
    Option String :=
  match getFile st "pulse/index.md" with
  | none => none
  | some content =>
    let tasks :=
      apply_dominant_scope (enrich_tasks_scope (parse_tasks content).1 lookup) lookup
    let scopedPaths := tasks.foldl
      (fun acc t =>
        match t.scopePath with
        | some p => if p != "" then listInsertDedup acc p else acc
        | none => acc)
      []
    match scopedPaths with
    | [single] => some single
    | _ => none

/-- The `create_task` request payload after shape validation. -/
structure CreatePayload where
  title : Option String := none
  owner : Option String := none
  priority : Option String := none
  tags : Option (List String) := none
  project : Option String := none
  scope : Option String := none
  path : Option String := none
  due : Option String := none
deriving DecidableEq, Repr

/-- `_build_task_from_payload(payload, task_id, scope_lookup,
default_scope_path)`. -/
def build_task_from_payload (payload : CreatePayload) (taskId : Nat)
    (lookup : ScopeLookup) (defaultScopePath : Option String) : Task :=
  let tags :=
    match payload.tags with
    | some raw => ((raw.map pyStrip).filter (· != ""))
    | none => []
  let scopeValue0 :=
    if optTruthy payload.scope then payload.scope else payload.path
  let projectValue := payload.project
  let scopeValue :=
    if scopeValue0 = none then
      match projectValue with
      | some pv =>
        if strHasChar '/' pv || strStartsWith (lowerStr pv) "life:" ||
            strStartsWith (lowerStr pv) "project:" || strStartsWith (lowerStr pv) "projects:" then
          projectValue
        else scopeValue0
      | none => scopeValue0
    else scopeValue0
  let task : Task :=
    { id := taskId
      status := " "
      title := payload.title.getD ""
      priority := some (match payload.priority with
        | some p => if p != "" then p else "p2"
        | none => "p2")
      owner := payload.owner
      tags := tags
      project := projectValue
      due := payload.due
      scopePath := scopeValue }
  let task := enrich_task_scope task lookup
  if !optTruthy task.scopePath && optTruthy defaultScopePath then
    enrich_task_scope { task with scopePath := defaultScopePath } lookup
  else task

/-- `create_task` (`app/mcp_tasks.py`): note that the journal append at
the end is not guarded — a journal failure propagates with the new
index content and the advanced HEAD left in place. -/
def create_task (st : SysState) (payload : CreatePayload) (ctx : GitCtx) :
    SysState × Except ErrCode (Task × String) :=
  match payload.title with
  | none => (st, .error .MISSING_TITLE)
  | some _ =>
    let lookup := build_scope_lookup st.dirs
    let defaultScope := infer_default_scope_for_new_task st lookup
    let task := build_task_from_payload payload (next_task_id st) lookup defaultScope
    let st0 := mkdirParents st "pulse"
    let existing := (getFile st0 "pulse/index.md").getD ""
    let updated := join_with_newline existing (format_task_line task)
    let st1 := setFile st0 "pulse/index.md" updated
    if ctx.gitFails then
      (setFile st1 "pulse/index.md" existing, .error .GIT_ERROR)
    else
      let st2 :=
        { st1 with
          commits := st1.commits ++ [⟨ctx.newSha, "create_task: pulse/index.md"⟩]
          head := some ctx.newSha }
      if ctx.logFails then
        (st2, .error .LOG_ERROR)
      else
        ({ st2 with
           journal := st2.journal ++
             [⟨ctx.nowIso, "create_task", "pulse/index.md", "create task",
               ctx.newSha⟩] },
         .ok (task, ctx.newSha))

/-- `complete_task` (`app/mcp_tasks.py`), with the current UTC month
injected as `month`; on a commit failure only the index file is
restored, as in the source. -/
def complete_task (st : SysState) (taskId : Nat) (month : String) (ctx : GitCtx) :
    SysState × Except ErrCode (Task × String) :=
  match getFile st "pulse/index.md" with
  | none => (st, .error .FILE_NOT_FOUND)
  | some content =>
    let lookup := build_scope_lookup st.dirs
    let parsed := parse_tasks content
    let tasks := apply_dominant_scope (enrich_tasks_scope parsed.1 lookup) lookup
    match pop_task tasks parsed.2 taskId with
    | (none, _) => (st, .error .TASK_NOT_FOUND)
    | (some poppedTask, linesAfter) =>
      let task := enrich_task_scope { poppedTask with status := "x" } lookup
      let completedPath := "pulse/completed/" ++ month ++ ".md"
      let st0 := mkdirParents st "pulse/completed"
      let completedContent := (getFile st0 completedPath).getD ""
      let updatedCompleted := join_with_newline completedContent (format_task_line task)
      let st1 := setFile st0 "pulse/index.md" (pyRstrip (joinWith "\n" linesAfter) ++ "\n")
      let st2 := setFile st1 completedPath updatedCompleted
      if ctx.gitFails then
        (setFile st2 "pulse/index.md" content, .error .GIT_ERROR)
      else
        let st3 :=
          { st2 with
            commits := st2.commits ++ [⟨ctx.newSha, "complete_task: " ++ completedPath⟩]
            head := some ctx.newSha }
        if ctx.logFails then (st3, .error .LOG_ERROR)
        else
          ({ st3 with
             journal := st3.journal ++
               [⟨ctx.nowIso, "complete_task", completedPath, "complete task",
                 ctx.newSha⟩] },
           .ok (task, ctx.newSha))

/-- `reopen_task` (`app/mcp_tasks.py`); on a commit failure only the
completed file is restored, as in the source. -/
def reopen_task (st : SysState) (taskId : Nat) (month : String) (ctx : GitCtx) :
    SysState × Except ErrCode (Task × String) :=
  let completedPath := "pulse/completed/" ++ month ++ ".md"
  match getFile st completedPath with
  | none => (st, .error .FILE_NOT_FOUND)
  | some completedContent =>
    let lookup := build_scope_lookup st.dirs
    let parsed := parse_tasks completedContent
    let tasks := apply_dominant_scope (enrich_tasks_scope parsed.1 lookup) lookup
    match pop_task tasks parsed.2 taskId with
    | (none, _) => (st, .error .TASK_NOT_FOUND)
    | (some poppedTask, linesAfter) =>
      let task := enrich_task_scope { poppedTask with status := " " } lookup
      let st0 := mkdirParents st "pulse"
      let indexContent := (getFile st0 "pulse/index.md").getD ""
      let updatedIndex := join_with_newline indexContent (format_task_line task)
      let st1 := setFile st0 completedPath (pyRstrip (joinWith "\n" linesAfter) ++ "\n")
      let st2 := setFile st1 "pulse/index.md" updatedIndex
      if ctx.gitFails then
        (setFile st2 completedPath completedContent, .error .GIT_ERROR)
      else
        let st3 :=
          { st2 with
            commits := st2.commits ++ [⟨ctx.newSha, "reopen_task: pulse/index.md"⟩]
            head := some ctx.newSha }
        if ctx.logFails then (st3, .error .LOG_ERROR)
        else
          ({ st3 with
             journal := st3.journal ++
               [⟨ctx.nowIso, "reopen_task", "pulse/index.md", "reopen task",
                 ctx.newSha⟩] },
           .ok (task, ctx.newSha))

/-! ## Dates and the ISO calendar (`datetime.date`)

Calendar dates as year/month/day triples with the proleptic Gregorian
ordinal, and `date.isocalendar()` as CPython computes it. -/

structure PyDate where
  year : Nat
  month : Nat
  day : Nat
deriving DecidableEq, Repr

def isLeapYear (y : Nat) : Bool :=
  y % 4 = 0 && (y % 100 ≠ 0 || y % 400 = 0)

def daysInMonth (y m : Nat) : Nat :=
  if m = 2 then (if isLeapYear y then 29 else 28)
  else if m = 4 || m = 6 || m = 9 || m = 11 then 30
  else 31

/-- Days in the months strictly before `m` of year `y`. -/
def daysBeforeMonth (y m : Nat) : Nat :=
  ((List.range (m - 1)).map (fun i => daysInMonth y (i + 1))).sum

/-- `date.toordinal()`: day number with the first of January of year one
as day one. -/
def toOrdinal (d : PyDate) : Nat :=
  365 * (d.year - 1) + (d.year - 1) / 4 - (d.year - 1) / 100 + (d.year - 1) / 400 +
    daysBeforeMonth d.year d.month + d.day

/-- The ordinal of the Monday starting ISO week one of `year`
(CPython's `_isoweek1monday`). -/
def isoweek1monday (year : Nat) : Int :=
  let firstday : Int := toOrdinal ⟨year, 1, 1⟩
  let firstweekday := (firstday + 6) % 7
  let week1monday := firstday - firstweekday
  if firstweekday > 3 then week1monday + 7 else week1monday

/-- `date.isocalendar()`: ISO year, week and weekday. -/
def isocalendar (d : PyDate) : Nat × Nat × Nat :=
  let today : Int := toOrdinal d
  let week := Int.fdiv (today - isoweek1monday d.year) 7
  let day := Int.emod (today - isoweek1monday d.year) 7
  if week < 0 then
    let week := Int.fdiv (today - isoweek1monday (d.year - 1)) 7
    let day := Int.emod (today - isoweek1monday (d.year - 1)) 7
    (d.year - 1, (week + 1).toNat, (day + 1).toNat)
  else if week ≥ 52 && today ≥ isoweek1monday (d.year + 1) then
    (d.year + 1, 1, (day + 1).toNat)
  else
    (d.year, (week + 1).toNat, (day + 1).toNat)

/-- Zero-padded rendering (`f"{n:02d}"`). -/
def pad2 (n : Nat) : String :=
  let s := toString n
  if s.length ≥ 2 then s else "0" ++ s

/-- Zero-padded rendering (`f"{n:04d}"`). -/
def pad4 (n : Nat) : String :=
  let s := toString n
  if s.length ≥ 4 then s else ⟨List.replicate (4 - s.length) '0'⟩ ++ s

/-- `date.isoformat()`. -/
def dateIsoformat (d : PyDate) : String :=
  pad4 d.year ++ "-" ++ pad2 d.month ++ "-" ++ pad2 d.day

/-- `date.fromisoformat` on the canonical dashed digest stems
(`YYYY-MM-DD` with calendar validity); other spellings the CPython
parser tolerates do not occur as digest stems and are rejected. -/
def parseIsoDate (s : String) : Option PyDate :=
  match s.data with
  | [y1, y2, y3, y4, '-', m1, m2, '-', d1, d2] =>
    if [y1, y2, y3, y4, m1, m2, d1, d2].all (·.isDigit) then
      let y := digitsToNat [y1, y2, y3, y4]
      let m := digitsToNat [m1, m2]
      let d := digitsToNat [d1, d2]
      if 1 ≤ y && 1 ≤ m && m ≤ 12 && 1 ≤ d && d ≤ daysInMonth y m then
        some ⟨y, m, d⟩
      else none
    else none
  | _ => none

/-- Strict date comparison (`date < date`). -/
def dateLt (a b : PyDate) : Bool :=
  a.year < b.year ||
  (a.year = b.year && (a.month < b.month ||
    (a.month = b.month && a.day < b.day)))

/-- `Path` ordering: tuples of parts compared left to right. -/
def pathPartsLt (a b : String) : Bool :=
  go (splitOnChar '/' a) (splitOnChar '/' b)
where
  go : List String → List String → Bool
    | [], [] => false
    | [], _ :: _ => true
    | _ :: _, [] => false
    | x :: xs, y :: ys =>
      if x = y then go xs ys else decide (x < y)

/-! ## Digest rollup (`app/mcp_digest.py`) -/

structure RollupState where
  version : Int
  lastDailyIngest : Option String
  lastWeeklyRollup : Option String
  lastMonthlyRollup : Option String
  lastYearlyRollup : Option String
deriving DecidableEq, Repr

/-- A JSON scalar as rendered by `json.dumps` (the strings stored here
are timestamps and dates, which need no escaping). -/
def jsonNullOrStr : Option String → String
  | none => "null"
  | some s => "\"" ++ s ++ "\""

/-- `json.dumps(state, indent=2)` for the fixed five-key rollup state. -/
def renderRollupState (r : RollupState) : String :=
  "\x7b\n  \"version\": " ++ toString r.version ++
  ",\n  \"last_daily_ingest\": " ++ jsonNullOrStr r.lastDailyIngest ++
  ",\n  \"last_weekly_rollup\": " ++ jsonNullOrStr r.lastWeeklyRollup ++
  ",\n  \"last_monthly_rollup\": " ++ jsonNullOrStr r.lastMonthlyRollup ++
  ",\n  \"last_yearly_rollup\": " ++ jsonNullOrStr r.lastYearlyRollup ++
  "\n\x7d"

/-- Inverse of `jsonNullOrStr`. -/
def parseNullOrStr (v : String) : Option (Option String) :=
  if v = "null" then some none
  else if strStartsWith v "\"" && strEndsWith v "\"" && v.length ≥ 2 then
    some (some (strDropRight (strDrop v 1) 1))
  else none

/-- One `"key": value` line of the canonical rendering. -/
def parseRollupField (line key : String) : Option String :=
  let t := pyStrip line
  let t := if strEndsWith t "," then strDropRight t 1 else t
  let pre := "\"" ++ key ++ "\": "
  if strStartsWith t pre then some (strDrop t pre.length) else none

/-- Parse the canonical rollup-state rendering; any other content reads
as `none` (the source falls back to the default state on malformed
JSON; JSON spellings other than the canonical one do not occur, since
every write of this file goes through `json.dumps(..., indent=2)`). -/
def parseRollupState (content : String) : Option RollupState :=
  match pySplitlines content with
  | ["\x7b", l1, l2, l3, l4, l5, "\x7d"] =>
    match parseRollupField l1 "version", parseRollupField l2 "last_daily_ingest",
          parseRollupField l3 "last_weekly_rollup",
          parseRollupField l4 "last_monthly_rollup",
          parseRollupField l5 "last_yearly_rollup" with
    | some vVer, some vIngest, some vWeek, some vMonth, some vYear =>
      if vVer.data.all (·.isDigit) && !vVer.isEmpty then
        match parseNullOrStr vIngest, parseNullOrStr vWeek,
              parseNullOrStr vMonth, parseNullOrStr vYear with
        | some ingest, some week, some monthV, some yearV =>
          some ⟨digitsToNat vVer.data, ingest, week, monthV, yearV⟩
        | _, _, _, _ => none
      else none
    | _, _, _, _, _ => none
  | _ => none

/-- `_read_rollup_state(state_path)`. -/
def read_rollup_state (st : SysState) (statePath : String) : RollupState :=
  match getFile st statePath with
  | none => ⟨1, none, none, none, none⟩
  | some content =>
    match parseRollupState content with
    | some r => r
    | none => ⟨1, none, none, none, none⟩

/-- `PurePath.stem` of the final component. -/
def pathStem (p : String) : String :=
  let name := ((splitOnChar '/' p)).getLastD ""
  let suffix := pathSuffix p
  if suffix = "" then name else strDropRight name suffix.length

/-- The parent path. -/
def parentDir (p : String) : String :=
  joinWith "/" ((splitOnChar '/' p).dropLast)

/-- `_collect_daily_entries(library_root)`: every markdown file under
`digest/daily/` whose stem parses as a date, path-sorted and then
date-sorted ascending. -/
def collect_daily_entries (st : SysState) : List (PyDate × String × String) :=
  if !st.dirs.contains "digest/daily" then []
  else
    let paths := st.files.filterMap (fun kv =>
      if strStartsWith kv.1 "digest/daily/" && strEndsWith kv.1 ".md" then some kv.1
      else none)
    let sortedPaths := insertionSortBy pathPartsLt paths
    let entries := sortedPaths.filterMap (fun p =>
      match parseIsoDate (pathStem p) with
      | none => none
      | some d => (getFile st p).map (fun c => (d, p, c)))
    insertionSortBy (fun a b => dateLt a.1 b.1) entries

/-- `_filter_period_entries(entries, period, target_date)`. -/
def filter_period_entries (entries : List (PyDate × String × String))
    (period : String) (target : PyDate) : List (PyDate × String × String) :=
  if period = "week" then
    let t := isocalendar target
    entries.filter (fun e =>
      let c := isocalendar e.1
      c.1 = t.1 && c.2.1 = t.2.1)
  else if period = "month" then
    entries.filter (fun e => e.1.year = target.year && e.1.month = target.month)
  else
    entries.filter (fun e => e.1.year = target.year)

/-- `_period_output_path(library_root, period, target_date)` as a
root-relative path and label. -/
def period_output_path (period : String) (target : PyDate) : String × String :=
  if period = "week" then
    let c := isocalendar target
    let label := pad4 c.1 ++ "-W" ++ pad2 c.2.1
    ("digest/weekly/" ++ pad4 c.1 ++ "/" ++ label ++ ".md", label)
  else if period = "month" then
    let label := pad4 target.year ++ "-" ++ pad2 target.month
    ("digest/monthly/" ++ pad4 target.year ++ "/" ++ label ++ ".md", label)
  else
    let label := pad4 target.year
    ("digest/yearly/" ++ label ++ ".md", label)

/-- `_render_rollup_content(period, label, entries, library_root)`. -/
def render_rollup_content (period label : String)
    (entries : List (PyDate × String × String)) : String :=
  let header :=
    if period = "week" then "Weekly"
    else if period = "month" then "Monthly"
    else "Yearly"
  let lines := ["# " ++ header ++ " Digest " ++ label, "", "## Source Daily Entries"]
  if entries.isEmpty then
    pyRstrip (joinWith "\n" (lines ++ ["", "- (none)", ""])) ++ "\n"
  else
    let lines := entries.foldl
      (fun acc e =>
        let acc := acc ++ ["", "### " ++ dateIsoformat e.1 ++ " (" ++ e.2.1 ++ ")", ""]
        let body := pyStrip e.2.2
        if body = "" then acc ++ ["_empty_"] else acc ++ [body])
      lines
    pyRstrip (joinWith "\n" lines) ++ "\n"

/-- The successful result of `_rollup_digest_period`. -/
structure RollupResult where
  period : String
  label : String
  path : String
  dailyCount : Nat
  changed : Bool
  commitSha : Option String
deriving DecidableEq, Repr

/-- `_rollup_digest_period(library_root, period, target_date)`: write
the rendered rollup and the updated state marker first, then commit and
journal once if anything changed.  Neither a commit failure nor a
journal failure restores the already-written files (the source has no
rollback here); the commit failure surfaces `GIT_ERROR` and a journal
failure propagates (modelled as `LOG_ERROR`). -/
def rollup_digest_period (st : SysState) (period : String) (targetDate : PyDate)
    (ctx : GitCtx) : SysState × Except ErrCode RollupResult :=
  let entries := collect_daily_entries st
  let periodEntries := filter_period_entries entries period targetDate
  let outLab := period_output_path period targetDate
  let outputPath := outLab.1
  let label := outLab.2
  let st := mkdirParents st (parentDir outputPath)
  let rendered := render_rollup_content period label periodEntries
  let previous := getFile st outputPath
  let afterOut :=
    if previous ≠ some rendered then
      (setFile st outputPath rendered, [outputPath])
    else (st, ([] : List String))
  let st := afterOut.1
  let statePath := "digest/_meta/rollup-state.json"
  let st := mkdirParents st "digest/_meta"
  let state := read_rollup_state st statePath
  let state :=
    if period = "week" then { state with lastWeeklyRollup := some ctx.nowIso }
    else if period = "month" then { state with lastMonthlyRollup := some ctx.nowIso }
    else { state with lastYearlyRollup := some ctx.nowIso }
  let state :=
    match periodEntries.getLast? with
    | some lastEntry => { state with lastDailyIngest := some (dateIsoformat lastEntry.1) }
    | none => state
  let stateBefore := getFile st statePath
  let stateAfter := renderRollupState state ++ "\n"
  let afterState :=
    if stateBefore ≠ some stateAfter then
      (setFile st statePath stateAfter, afterOut.2 ++ [statePath])
    else (st, afterOut.2)
  let st := afterState.1
  let changedPaths := afterState.2
  if changedPaths.isEmpty then
    (st, .ok ⟨period, label, outputPath, periodEntries.length, false, none⟩)
  else if ctx.gitFails then
    (st, .error .GIT_ERROR)
  else
    let st :=
      { st with
        commits := st.commits ++ [⟨ctx.newSha, "rollup_digest_period: " ++ outputPath⟩]
        head := some ctx.newSha }
    if ctx.logFails then (st, .error .LOG_ERROR)
    else
      ({ st with
         journal := st.journal ++
           [⟨ctx.nowIso, "rollup_digest_period", outputPath,
             "rollup digest " ++ period, ctx.newSha⟩] },
       .ok ⟨period, label, outputPath, periodEntries.length, true, some ctx.newSha⟩)

/-! ## Onboarding state (`app/library_schema.py`, `app/mcp_onboarding.py`)

The onboarding state file is canonical JSON; the model stores it as a
typed value (`FileContent.onbJson`), since every write goes through
`json.dumps` of the normalised dictionary and the 2-space-indent
rendering is injective on values.  The normalisation in
`read_onboarding_state` / `persist_onboarding_state` is translated on
these typed values; branches that reject ill-typed JSON (wrong runtime
types, unknown topic slugs) collapse to the file-level fallback
`FileContent.text`, which reads as the default state. -/

inductive Topic where
  | finances | fitness | relationships | career | whyfinder
deriving DecidableEq, Repr

def TOPIC_ORDER : List Topic :=
  [.finances, .fitness, .relationships, .career, .whyfinder]

def topicSlug : Topic → String
  | .finances => "finances"
  | .fitness => "fitness"
  | .relationships => "relationships"
  | .career => "career"
  | .whyfinder => "whyfinder"

def topicTitle : Topic → String
  | .finances => "Finances"
  | .fitness => "Fitness"
  | .relationships => "Relationships"
  | .career => "Career"
  | .whyfinder => "WhyFinder"

inductive TStatus where
  | not_started | in_progress | complete
deriving DecidableEq, Repr

inductive TPhase where
  | not_started | opening | goals_tasks | followup | complete
deriving DecidableEq, Repr

def phaseSlug : TPhase → String
  | .not_started => "not_started"
  | .opening => "opening"
  | .goals_tasks => "goals_tasks"
  | .followup => "followup"
  | .complete => "complete"

/-- A total map over the five topics. -/
structure TopicMap (α : Type) where
  finances : α
  fitness : α
  relationships : α
  career : α
  whyfinder : α
deriving DecidableEq, Repr

def TopicMap.get (m : TopicMap α) : Topic → α
  | .finances => m.finances
  | .fitness => m.fitness
  | .relationships => m.relationships
  | .career => m.career
  | .whyfinder => m.whyfinder

def TopicMap.set (m : TopicMap α) : Topic → α → TopicMap α
  | .finances, a => { m with finances := a }
  | .fitness, a => { m with fitness := a }
  | .relationships, a => { m with relationships := a }
  | .career, a => { m with career := a }
  | .whyfinder, a => { m with whyfinder := a }

def TopicMap.const (a : α) : TopicMap α := ⟨a, a, a, a, a⟩

def mapTopics (f : Topic → α) : TopicMap α :=
  ⟨f .finances, f .fitness, f .relationships, f .career, f .whyfinder⟩

/-- The per-topic progress record of `topic_progress`. -/
structure TopicProgress where
  status : TStatus
  phase : TPhase
  startedAt : Option String
  lastInterviewAt : Option String
  completedAt : Option String
  nextFollowupDueAt : Option String
  questionTotal : Nat
  questionIndex : Nat
  followupCycles : Nat
  futureInterviewTopics : List Topic
  lastUpdatedAt : String
deriving DecidableEq, Repr

/-- One `topic_history` entry. -/
structure HistEntry where
  event : String
  topic : Topic
  atUtc : String
  fromStatus : Option TStatus := none
  toStatus : Option TStatus := none
  detail : Option String := none
deriving DecidableEq, Repr

/-- The onboarding state dictionary. -/
structure OnbState where
  version : Int
  starterTopics : TopicMap TStatus
  completedAt : TopicMap (Option String)
  createdAt : String
  updatedAt : String
  activeTopic : Option Topic
  topicQueue : List Topic
  recommendedNextTopic : Option Topic
  topicProgress : TopicMap TopicProgress
  topicHistory : List HistEntry
deriving DecidableEq, Repr

/-- `_normalize_timestamp`: strip, empty collapses to `None`. -/
def normTimestampOpt : Option String → Option String
  | none => none
  | some s => let t := pyStrip s; if t = "" then none else some t

/-- Order-preserving topic dedup. -/
def dedupTopics (l : List Topic) : List Topic :=
  l.foldl (fun acc t => if acc.contains t then acc else acc ++ [t]) []

/-- The last `n` elements (`l[-n:]`). -/
def lastN (n : Nat) (l : List α) : List α := l.drop (l.length - n)

/-- `_default_topic_progress` for one topic. -/
def defaultProgress (ts : String) : TopicProgress :=
  ⟨.not_started, .not_started, none, none, none, none, 0, 0, 0, [], ts⟩

/-- `default_onboarding_state()`, with the call instant injected. -/
def defaultOnbState (now : String) : OnbState :=
  { version := 2
    starterTopics := .const .not_started
    completedAt := .const none
    createdAt := now
    updatedAt := now
    activeTopic := none
    topicQueue := TOPIC_ORDER
    recommendedNextTopic := some .finances
    topicProgress := .const (defaultProgress now)
    topicHistory := [] }

/-- `next_incomplete_topic(state)`. -/
def nextIncompleteTopic (state : OnbState) : Option Topic :=
  TOPIC_ORDER.find? (fun t => state.starterTopics.get t ≠ .complete)

/-- The per-entry validity filter of the history normalisation. -/
def normHistEntry (e : HistEntry) : Option HistEntry :=
  if pyStrip e.event = "" then none
  else
    match normTimestampOpt (some e.atUtc) with
    | none => none
    | some ts =>
      some { event := pyStrip e.event
             topic := e.topic
             atUtc := ts
             fromStatus := e.fromStatus
             toStatus := e.toStatus
             detail := match e.detail with
               | some d => if pyStrip d ≠ "" then some (pyStrip d) else none
               | none => none }

/-- The per-topic progress merge of `read_onboarding_state` (raw values
written over the freshly defaulted record). -/
def mergeReadProgress (raw : TopicProgress) (now : String) : TopicProgress :=
  { status := raw.status
    phase := raw.phase
    startedAt := normTimestampOpt raw.startedAt
    lastInterviewAt := normTimestampOpt raw.lastInterviewAt
    completedAt := normTimestampOpt raw.completedAt
    nextFollowupDueAt := normTimestampOpt raw.nextFollowupDueAt
    questionTotal := raw.questionTotal
    questionIndex := raw.questionIndex
    followupCycles := raw.followupCycles
    futureInterviewTopics := dedupTopics raw.futureInterviewTopics
    lastUpdatedAt := (normTimestampOpt (some raw.lastUpdatedAt)).getD now }

/-- One topic of the `starter_topics` / `completed_at` consistency pass
of read (fill a missing stamp from the progress record, pop
non-complete topics). -/
def readSyncStep (st : OnbState) (t : Topic) : OnbState :=
  if st.starterTopics.get t = .complete then
    if (st.completedAt.get t).isNone then
      match (st.topicProgress.get t).completedAt with
      | some stamp =>
        if stamp ≠ "" then { st with completedAt := st.completedAt.set t (some stamp) }
        else st
      | none => st
    else st
  else { st with completedAt := st.completedAt.set t none }

/-- The `starter_topics` / `completed_at` consistency pass of read. -/
def readSyncCompleted (state : OnbState) : OnbState :=
  TOPIC_ORDER.foldl readSyncStep state

/-- The field-wise normalisation block of `read_onboarding_state` (raw
values merged over a fresh default). -/
def normalizeOnbReadBase (raw : OnbState) (now : String) : OnbState :=
  let dflt := defaultOnbState now
  { version := raw.version
    starterTopics := mapTopics (fun t => (raw.topicProgress.get t).status)
    completedAt := raw.completedAt
    createdAt := (normTimestampOpt (some raw.createdAt)).getD dflt.createdAt
    updatedAt := (normTimestampOpt (some raw.updatedAt)).getD dflt.updatedAt
    activeTopic := raw.activeTopic
    topicQueue :=
      (let q := dedupTopics raw.topicQueue
       if q.isEmpty then dflt.topicQueue else q)
    recommendedNextTopic :=
      (match raw.recommendedNextTopic with
       | some t => some t
       | none => dflt.recommendedNextTopic)
    topicProgress := mapTopics (fun t => mergeReadProgress (raw.topicProgress.get t) now)
    topicHistory := lastN 200 (raw.topicHistory.filterMap normHistEntry) }

/-- `read_onboarding_state` normalisation on a typed raw state. -/
def normalizeOnbRead (raw : OnbState) (now : String) : OnbState :=
  let st := readSyncCompleted (normalizeOnbReadBase raw now)
  let st :=
    match st.recommendedNextTopic with
    | some _ => st
    | none => { st with recommendedNextTopic := nextIncompleteTopic st }
  if st.topicQueue.isEmpty then { st with topicQueue := TOPIC_ORDER } else st

/-- Parsed content of a file in the bootstrap model: plain text, the
schema-version JSON object, or the onboarding-state JSON object.  A
JSON file that fails to parse as its expected shape is `text`. -/
inductive FileContent where
  | text (s : String)
  | schemaJson (v : String)
  | onbJson (st : OnbState)
deriving DecidableEq, Repr

/-- The filesystem as the bootstrapper sees it. -/
structure BootFS where
  dirs : List String
  files : List (String × FileContent)
deriving DecidableEq, Repr

def bGetFile (fs : BootFS) (p : String) : Option FileContent :=
  (fs.files.find? (fun kv => kv.1 = p)).map (·.2)

def bSetFileL : List (String × FileContent) → String → FileContent →
    List (String × FileContent)
  | [], p, v => [(p, v)]
  | (k, w) :: rest, p, v =>
    if k = p then (k, v) :: rest else (k, w) :: bSetFileL rest p v

def bSetFile (fs : BootFS) (p : String) (v : FileContent) : BootFS :=
  { fs with files := bSetFileL fs.files p v }

def bAddDir (fs : BootFS) (p : String) : BootFS :=
  if fs.dirs.contains p then fs else { fs with dirs := fs.dirs ++ [p] }

def bMkdirParents (fs : BootFS) (p : String) : BootFS :=
  (pathAncestors p).foldl bAddDir fs

/-- Does a path exist (as file or directory)? -/
def bExists (fs : BootFS) (p : String) : Bool :=
  (bGetFile fs p).isSome || fs.dirs.contains p

/-- The onboarding state file path. -/
def onbStatePath : String := ".braindrive/onboarding_state.json"

/-- `read_onboarding_state(library_root)`, with the call instant
injected. -/
def read_onboarding_state (fs : BootFS) (now : String) : OnbState :=
  match bGetFile fs onbStatePath with
  | some (.onbJson raw) => normalizeOnbRead raw now
  | _ => defaultOnbState now

/-- The per-topic progress merge of `persist_onboarding_state`
(incoming values written over the already-normalised record). -/
def mergePersistProgress (target incoming : TopicProgress) : TopicProgress :=
  { status := incoming.status
    phase := incoming.phase
    startedAt :=
      (match normTimestampOpt incoming.startedAt with
       | some v => some v
       | none => target.startedAt)
    lastInterviewAt :=
      (match normTimestampOpt incoming.lastInterviewAt with
       | some v => some v
       | none => target.lastInterviewAt)
    completedAt :=
      (match normTimestampOpt incoming.completedAt with
       | some v => some v
       | none => target.completedAt)
    nextFollowupDueAt :=
      (match normTimestampOpt incoming.nextFollowupDueAt with
       | some v => some v
       | none => target.nextFollowupDueAt)
    questionTotal := incoming.questionTotal
    questionIndex := incoming.questionIndex
    followupCycles := incoming.followupCycles
    futureInterviewTopics := dedupTopics incoming.futureInterviewTopics
    lastUpdatedAt := (normTimestampOpt (some incoming.lastUpdatedAt)).getD target.lastUpdatedAt }

/-- One topic of the `starter_topics` / `completed_at` consistency pass
of `persist_onboarding_state` (fill a missing stamp with the current
instant, clear both records of non-complete topics). -/
def persistSyncStep (now : String) (st : OnbState) (t : Topic) : OnbState :=
  if st.starterTopics.get t = .complete then
    match (st.topicProgress.get t).completedAt with
    | some stamp =>
      if stamp ≠ "" then { st with completedAt := st.completedAt.set t (some stamp) }
      else if (st.completedAt.get t).isNone then
        { st with completedAt := st.completedAt.set t (some now) }
      else st
    | none =>
      if (st.completedAt.get t).isNone then
        { st with completedAt := st.completedAt.set t (some now) }
      else st
  else
    { st with
      completedAt := st.completedAt.set t none
      topicProgress :=
        st.topicProgress.set t
          { st.topicProgress.get t with completedAt := none } }

/-- The `starter_topics` / `completed_at` consistency pass of
`persist_onboarding_state`. -/
def persistSyncCompleted (state : OnbState) (now : String) : OnbState :=
  TOPIC_ORDER.foldl (persistSyncStep now) state

/-- The field-wise merge of `persist_onboarding_state`: incoming values
written over the re-read normalised state. -/
def persistMerge (normalized incoming : OnbState) : OnbState :=
  let normalized := { normalized with version := incoming.version }
  let normalized :=
    match normTimestampOpt (some incoming.createdAt) with
    | some v => { normalized with createdAt := v }
    | none => normalized
  let normalized :=
    match normTimestampOpt (some incoming.updatedAt) with
    | some v => { normalized with updatedAt := v }
    | none => normalized
  let normalized :=
    { normalized with
      starterTopics := mapTopics (fun t => incoming.starterTopics.get t)
      topicProgress := mapTopics (fun t =>
        { normalized.topicProgress.get t with status := incoming.starterTopics.get t }) }
  let normalized := { normalized with completedAt := incoming.completedAt }
  let normalized := { normalized with activeTopic := incoming.activeTopic }
  let normalized :=
    (let q := dedupTopics incoming.topicQueue
     if q.isEmpty then normalized else { normalized with topicQueue := q })
  let normalized := { normalized with recommendedNextTopic := incoming.recommendedNextTopic }
  let normalized :=
    { normalized with
      starterTopics := mapTopics (fun t => (incoming.topicProgress.get t).status)
      topicProgress := mapTopics (fun t =>
        mergePersistProgress (normalized.topicProgress.get t) (incoming.topicProgress.get t)) }
  { normalized with
    topicHistory := lastN 200 (incoming.topicHistory.filterMap normHistEntry) }

/-- The closing fixups of `persist_onboarding_state`: fall back to the
current instant for an empty creation stamp, stamp `updated_at_utc`,
recompute a missing recommendation, and refill an empty queue. -/
def persistFinalize (state : OnbState) (now : String) : OnbState :=
  let normalized :=
    if state.createdAt = "" then { state with createdAt := now } else state
  let normalized := { normalized with updatedAt := now }
  let normalized :=
    match normalized.recommendedNextTopic with
    | some _ => normalized
    | none => { normalized with recommendedNextTopic := nextIncompleteTopic normalized }
  if normalized.topicQueue.isEmpty then { normalized with topicQueue := TOPIC_ORDER }
  else normalized

/-- The state value `persist_onboarding_state` would write. -/
def persistComputed (fs : BootFS) (incoming : OnbState) (now : String) : OnbState :=
  persistFinalize
    (persistSyncCompleted (persistMerge (read_onboarding_state fs now) incoming) now)
    now

/-- `persist_onboarding_state(library_root, state)`: re-read and
normalise the stored state, merge the incoming state over it, stamp
`updated_at_utc`, and write only when the result differs from the file
(`None` return means no write). -/
def persist_onboarding_state (fs : BootFS) (incoming : OnbState) (now : String) :
    BootFS × Option String :=
  let fs := bMkdirParents fs ".braindrive"
  let normalized := persistComputed fs incoming now
  let existing :=
    match bGetFile fs onbStatePath with
    | some (.onbJson e) => some e
    | _ => none
  if existing = some normalized then (fs, none)
  else (bSetFile fs onbStatePath (.onbJson normalized), some onbStatePath)

/-! ## Schema bootstrapper (`app/library_schema.py`) -/

def SCHEMA_VERSION : String := "2026-02-17-v2"

def ROOT_AGENT_TEMPLATE : String :=
  "# BrainDrive Library Agent\n\n" ++
  "You are working in a user-scoped BrainDrive library.\n" ++
  "Read this contract before mutating files.\n\n" ++
  "## Priorities\n" ++
  "1. Preserve user data.\n" ++
  "2. Keep paths canonical.\n" ++
  "3. Require explicit approval before mutating writes.\n"

def LIFE_DOMAIN_AGENT_TEMPLATE : String :=
  "# Life Domain Agent\n\n" ++
  "Life-domain context lives under `life/<topic>`.\n" ++
  "Each topic must include AGENT.md, spec.md, and build-plan.md.\n"

def PROJECTS_AGENT_TEMPLATE : String :=
  "# Projects Domain Agent\n\n" ++
  "Use `projects/active` for active projects and `projects/archived` for archived work.\n" ++
  "Each project must include AGENT.md, spec.md, build-plan.md, decisions.md, and ideas.md.\n"

def CAPTURE_AGENT_TEMPLATE : String :=
  "# Capture Agent\n\n" ++
  "Capture raw input in `capture/inbox` and then route it intentionally.\n"

def PULSE_AGENT_TEMPLATE : String :=
  "# Pulse Agent\n\n" ++
  "Pulse tracks active tasks in `pulse/index.md` and completed tasks in `pulse/completed/YYYY-MM.md`.\n"

def DIGEST_AGENT_TEMPLATE : String :=
  "# Digest Agent\n\n" ++
  "Digest rollups derive from `digest/daily` entries.\n"

def SHARE_AGENT_TEMPLATE : String :=
  "# Share Agent\n\n" ++
  "Share templates in `share/templates` and exports in `share/exports`.\n"

def REQUIRED_DIRECTORIES : List String :=
  [".braindrive", "me", "capture", "capture/inbox", "life",
   "projects", "projects/active", "projects/archived",
   "pulse", "pulse/completed",
   "digest", "digest/daily", "digest/weekly", "digest/monthly",
   "digest/yearly", "digest/_meta",
   "transcripts", "share", "share/templates", "share/exports"]

def REQUIRED_TEXT_FILES : List (String × String) :=
  [("AGENT.md", ROOT_AGENT_TEMPLATE),
   ("activity.log", ""),
   ("me/profile.md",
    "# Profile\n\n## Identity\n\n## Goals\n\n## Constraints\n\n## Preferences\n\n## Last Updated\n"),
   ("capture/AGENT.md", CAPTURE_AGENT_TEMPLATE),
   ("life/AGENT.md", LIFE_DOMAIN_AGENT_TEMPLATE),
   ("projects/AGENT.md", PROJECTS_AGENT_TEMPLATE),
   ("pulse/AGENT.md", PULSE_AGENT_TEMPLATE),
   ("pulse/index.md", "# Pulse Index\n"),
   ("digest/AGENT.md", DIGEST_AGENT_TEMPLATE),
   ("share/AGENT.md", SHARE_AGENT_TEMPLATE),
   ("digest/_meta/rollup-state.json", renderRollupState ⟨1, none, none, none, none⟩ ++ "\n")]

def GITKEEP_FILES : List String :=
  ["capture/inbox/.gitkeep", "projects/active/.gitkeep", "projects/archived/.gitkeep",
   "digest/daily/.gitkeep", "digest/weekly/.gitkeep", "digest/monthly/.gitkeep",
   "digest/yearly/.gitkeep", "transcripts/.gitkeep", "share/templates/.gitkeep",
   "share/exports/.gitkeep"]

def AGENT_MIGRATION_DIRECTORIES : List String :=
  [".", "capture", "life", "projects", "pulse", "digest", "share",
   "life/finances", "life/fitness", "life/relationships", "life/career",
   "life/whyfinder"]

/-- `_topic_seed_files(topic)` in dictionary insertion order. -/
def topicSeedFiles (t : Topic) : List (String × String) :=
  match t with
  | .finances =>
    [("AGENT.md",
      "# Finances Agent\n\n" ++
      "This topic helps the user build financial clarity, consistency, and confidence.\n\n" ++
      "## Focus Description\n\n" ++
      "Prioritize practical money management and steady progress.\n\n" ++
      "## Interview Focus\n\n" ++
      "- Income and cash-flow stability\n" ++
      "- Budget consistency and spending awareness\n" ++
      "- Debt payoff priorities\n" ++
      "- Savings and emergency buffer goals\n" ++
      "- Near-term milestones (30/60/90 days)\n" ++
      "- Constraints and tradeoffs\n"),
     ("interview.md",
      "# Finances Interview\n\n" ++
      "## Opening Interview Policy\n\n" ++
      "- Ask one question at a time.\n" ++
      "- Opening set should be high-level and capped at 6 questions.\n" ++
      "- Require approval before each write.\n" ++
      "- Convert relative dates to explicit dates before final save.\n\n" ++
      "## Seed Questions (Fallback)\n" ++
      "1. What matters most in finances over the next 90 days?\n" ++
      "2. What is working well today, and what is not?\n" ++
      "3. Which constraints are blocking progress?\n" ++
      "4. What would make the next 30 days successful?\n"),
     ("spec.md",
      "# Finances Spec\n\n## Current Reality\n\n## Desired Outcomes\n\n## Constraints\n\n## Success Criteria\n"),
     ("build-plan.md",
      "# Finances Build Plan\n\n## Phase 1\n\n## Phase 2\n\n## Risks\n\n## Next Review\n"),
     ("goals.md",
      "# Finances Goals\n\n## Current Goals\n\n- (to be populated during onboarding)\n"),
     ("action-plan.md",
      "# Finances Action Plan\n\n## Immediate Actions\n\n- (to be populated during onboarding)\n")]
  | _ =>
    let title := topicTitle t
    let lowered := lowerStr title
    [("AGENT.md",
      "# " ++ title ++ " Agent\n\nUse this folder for " ++ lowered ++
      " planning and execution.\n"),
     ("interview.md",
      "# " ++ title ++ " Interview\n\n" ++
      "## Seed Questions\n" ++
      "1. What matters most in " ++ lowered ++ " right now?\n" ++
      "2. What is working and what is not?\n" ++
      "3. What constraints are blocking progress?\n" ++
      "4. What would make the next 30 days successful?\n"),
     ("spec.md",
      "# " ++ title ++ " Spec\n\n## Current Reality\n\n## Desired Outcomes\n\n## Constraints\n\n## Success Criteria\n"),
     ("build-plan.md",
      "# " ++ title ++ " Build Plan\n\n## Phase 1\n\n## Phase 2\n\n## Risks\n\n## Next Review\n"),
     ("goals.md", "# " ++ title ++ " Goals\n\n## Current Goals\n\n"),
     ("action-plan.md", "# " ++ title ++ " Action Plan\n\n## Immediate Actions\n\n")]

/-- `_digest_starter_paths(library_root, today)`. -/
def digestStarterPaths (today : PyDate) : List (String × String) :=
  let c := isocalendar today
  [("digest/daily/" ++ pad4 today.year ++ "/" ++ pad2 today.month ++ "/" ++
      dateIsoformat today ++ ".md",
    "# Daily Digest " ++ dateIsoformat today ++ "\n\n"),
   ("digest/weekly/" ++ pad4 c.1 ++ "/" ++ pad4 c.1 ++ "-W" ++ pad2 c.2.1 ++ ".md",
    "# Weekly Digest " ++ pad4 c.1 ++ "-W" ++ pad2 c.2.1 ++ "\n\n"),
   ("digest/monthly/" ++ pad4 today.year ++ "/" ++ pad4 today.year ++ "-" ++
      pad2 today.month ++ ".md",
    "# Monthly Digest " ++ pad4 today.year ++ "-" ++ pad2 today.month ++ "\n\n"),
   ("digest/yearly/" ++ pad4 today.year ++ ".md",
    "# Yearly Digest " ++ pad4 today.year ++ "\n\n")]

/-- `_write_text_if_missing(library_root, relative_path, content)`. -/
def write_text_if_missing (fs : BootFS) (rel content : String) :
    BootFS × Option String :=
  if bExists fs rel then (fs, none)
  else (bSetFile (bMkdirParents fs (parentDir rel)) rel (.text content), some rel)

/-- `_ensure_schema_version(library_root)`. -/
def ensure_schema_version (fs : BootFS) : BootFS × Option String :=
  let fs := bMkdirParents fs ".braindrive"
  let versionPath := ".braindrive/schema-version.json"
  let existing :=
    match bGetFile fs versionPath with
    | some (.schemaJson v) => some v
    | _ => none
  if existing = some SCHEMA_VERSION then (fs, none)
  else (bSetFile fs versionPath (.schemaJson SCHEMA_VERSION), some versionPath)

/-- `_migrate_legacy_agents(library_root)`: copy `agents.md` into a
missing `AGENT.md` for the closed directory set.  Legacy files carrying
non-text content are skipped as a read failure. -/
def migrateStep (acc : BootFS × List String) (relDir : String) : BootFS × List String :=
  let (fs, changed) := acc
  if relDir ≠ "." && !fs.dirs.contains relDir then (fs, changed)
  else
    let canonical := if relDir = "." then "AGENT.md" else relDir ++ "/AGENT.md"
    let legacy := if relDir = "." then "agents.md" else relDir ++ "/agents.md"
    if bExists fs canonical then (fs, changed)
    else
      match bGetFile fs legacy with
      | some (.text content) =>
        (bSetFile fs canonical (.text content), changed ++ [canonical])
      | _ => (fs, changed)

def migrate_legacy_agents (fs : BootFS) : BootFS × List String :=
  AGENT_MIGRATION_DIRECTORIES.foldl migrateStep (fs, [])

/-- The `LibrarySchemaApplyResult` of the bootstrapper, with paths as
root-relative strings. -/
structure SchemaResult where
  changedPaths : List String
  createdPaths : List String
  migratedPaths : List String
deriving DecidableEq, Repr

/-- Working accumulator of `ensure_scoped_library_structure`. -/
structure BootAcc where
  fs : BootFS
  created : List String
  migrated : List String
  changed : List String
deriving DecidableEq, Repr

/-- Record a write into the accumulator. -/
def accRecord (a : BootAcc) (fs : BootFS) (rel : String) : BootAcc :=
  { a with
    fs := fs
    created := a.created ++ [rel]
    changed := listInsertDedup a.changed rel }

/-- The required-directory loop. -/
def dirsPhase (acc : BootAcc) : BootAcc :=
  REQUIRED_DIRECTORIES.foldl
    (fun (a : BootAcc) d =>
      if bExists a.fs d then { a with fs := bMkdirParents a.fs d }
      else accRecord a (bMkdirParents a.fs d) d)
    acc

/-- The legacy-agents migration step. -/
def migratePhase (acc : BootAcc) : BootAcc :=
  let mig := migrate_legacy_agents acc.fs
  { acc with
    fs := mig.1
    migrated := acc.migrated ++ mig.2
    changed := mig.2.foldl listInsertDedup acc.changed }

/-- One `_write_text_if_missing` step folded into the accumulator. -/
def writeMissingStep (a : BootAcc) (rel content : String) : BootAcc :=
  match write_text_if_missing a.fs rel content with
  | (fs, some p) => accRecord a fs p
  | (fs, none) => { a with fs := fs }

/-- The required-text-file loop. -/
def textFilesPhase (acc : BootAcc) : BootAcc :=
  REQUIRED_TEXT_FILES.foldl (fun a kv => writeMissingStep a kv.1 kv.2) acc

/-- The per-topic directory and seed-file loop. -/
def topicsPhase (acc : BootAcc) : BootAcc :=
  TOPIC_ORDER.foldl
    (fun (a : BootAcc) t =>
      let topicRoot := "life/" ++ topicSlug t
      let a :=
        if bExists a.fs topicRoot then a
        else accRecord a (bMkdirParents a.fs topicRoot) topicRoot
      (topicSeedFiles t).foldl
        (fun (a : BootAcc) kv =>
          writeMissingStep a ("life/" ++ topicSlug t ++ "/" ++ kv.1) kv.2)
        a)
    acc

/-- The `.gitkeep` loop. -/
def gitkeepPhase (acc : BootAcc) : BootAcc :=
  GITKEEP_FILES.foldl (fun a rel => writeMissingStep a rel "") acc

/-- The digest starter-file loop. -/
def digestPhase (today : PyDate) (acc : BootAcc) : BootAcc :=
  (digestStarterPaths today).foldl
    (fun (a : BootAcc) kv =>
      if bExists a.fs kv.1 then a
      else accRecord a (bSetFile (bMkdirParents a.fs (parentDir kv.1)) kv.1 (.text kv.2)) kv.1)
    acc

/-- The schema-version stamp step. -/
def schemaPhase (acc : BootAcc) : BootAcc :=
  match ensure_schema_version acc.fs with
  | (fs, some rel) => { acc with fs := fs, changed := listInsertDedup acc.changed rel }
  | (fs, none) => { acc with fs := fs }

/-- The closing read-and-persist of the onboarding state. -/
def persistPhase (now : String) (acc : BootAcc) : BootAcc :=
  let state := read_onboarding_state acc.fs now
  match persist_onboarding_state acc.fs state now with
  | (fs, some rel) =>
    { acc with
      fs := fs
      changed := listInsertDedup acc.changed rel
      created := if acc.created.contains rel then acc.created else acc.created ++ [rel] }
  | (fs, none) => { acc with fs := fs }

/-- `ensure_scoped_library_structure(library_root)` with the call day
and instant injected (`include_digest_period_files` is true, its
default, on every call site).  The changed-path dictionary is keyed by
the posix string and emitted key-sorted, as in the source. -/
def ensure_scoped_library_structure (fs : BootFS) (today : PyDate) (now : String) :
    BootFS × SchemaResult :=
  let acc :=
    persistPhase now (schemaPhase (digestPhase today (gitkeepPhase (topicsPhase
      (textFilesPhase (migratePhase (dirsPhase ⟨fs, [], [], []⟩)))))))
  (acc.fs,
   ⟨insertionSortBy (fun a b => decide (a < b)) acc.changed, acc.created, acc.migrated⟩)

/-! ## Onboarding endpoint state transitions (`app/mcp_onboarding.py`)

The state-file effect of `start_topic_onboarding` and
`save_topic_onboarding_context`: the preceding bootstrap call's
normalising persist, the in-memory mutation of the cited lines, and
the final persist.  The endpoints' side writes to `interview.md`,
`AGENT.md`, `goals.md` and `action-plan.md` touch other paths and
never the state file, so they are outside these transition
functions. -/

/-- `_append_topic_history(state, topic=..., event=..., ...)`. -/
def appendTopicHistory (state : OnbState) (topic : Topic) (event : String)
    (fromStatus toStatus : Option TStatus) (detail : Option String) (now : String) :
    OnbState :=
  let entry : HistEntry :=
    { event := event
      topic := topic
      atUtc := now
      fromStatus := fromStatus
      toStatus := toStatus
      detail :=
        match detail with
        | some d => if pyStrip d ≠ "" then some (pyStrip d) else none
        | none => none }
  let history := state.topicHistory ++ [entry]
  { state with
    topicHistory := if history.length > 200 then lastN 200 history else history }

/-- One topic of `_refresh_onboarding_summary_fields(state)`. -/
def refreshStep (now : String) (st : OnbState) (t : Topic) : OnbState :=
  let progress := st.topicProgress.get t
  let status := progress.status
  let st :=
    { st with
      starterTopics := st.starterTopics.set t status
      topicProgress := st.topicProgress.set t { progress with status := status } }
  if status = .complete then
    match progress.completedAt with
    | some stamp =>
      if stamp ≠ "" then
        { st with completedAt := st.completedAt.set t (some stamp) }
      else if (st.completedAt.get t).isNone then
        { st with completedAt := st.completedAt.set t (some now) }
      else st
    | none =>
      if (st.completedAt.get t).isNone then
        { st with completedAt := st.completedAt.set t (some now) }
      else st
  else { st with completedAt := st.completedAt.set t none }

/-- `_refresh_onboarding_summary_fields(state)`. -/
def refresh_summary_fields (state : OnbState) (now : String) : OnbState :=
  let st := TOPIC_ORDER.foldl (refreshStep now) state
  { st with
    recommendedNextTopic := nextIncompleteTopic st
    topicQueue := TOPIC_ORDER.filter (fun t => st.starterTopics.get t ≠ .complete) }

/-- The state mutation of `start_topic_onboarding` (its lines between
reading and persisting the state). -/
def start_topic_state_update (state : OnbState) (topic : Topic) (now : String) :
    OnbState :=
  let currentStatus := state.starterTopics.get topic
  let state :=
    if currentStatus ≠ .complete then
      let state :=
        if currentStatus ≠ .in_progress then
          appendTopicHistory state topic "start_onboarding"
            (some currentStatus) (some .in_progress) none now
        else state
      let progress := state.topicProgress.get topic
      let progress :=
        { progress with
          status := .in_progress
          phase := .opening
          startedAt := if optTruthy progress.startedAt then progress.startedAt else some now }
      { state with
        starterTopics := state.starterTopics.set topic .in_progress
        topicProgress := state.topicProgress.set topic progress }
    else state
  let progress := state.topicProgress.get topic
  let progress := { progress with lastInterviewAt := some now, lastUpdatedAt := now }
  let state :=
    { state with
      topicProgress := state.topicProgress.set topic progress
      activeTopic := some topic }
  refresh_summary_fields state now

/-- The state mutation of `save_topic_onboarding_context` (its lines
between reading and persisting the state); `phaseOpt` is the validated
`phase` field, and the remaining arguments the validated optional
fields. -/
def save_context_state_update (state : OnbState) (topic : Topic)
    (phaseOpt : Option TPhase) (questionIndex questionTotal : Option Nat)
    (followupDue : Option String) (futureTopics : List Topic) (now : String) :
    OnbState :=
  let previousStatus := state.starterTopics.get topic
  let state :=
    if previousStatus ≠ .complete then
      let progress := state.topicProgress.get topic
      let state :=
        { state with
          starterTopics := state.starterTopics.set topic .in_progress
          topicProgress := state.topicProgress.set topic
            { progress with status := .in_progress } }
      if previousStatus ≠ .in_progress then
        appendTopicHistory state topic "context_status_progressed"
          (some previousStatus) (some .in_progress) none now
      else state
    else state
  let progress := state.topicProgress.get topic
  let progress :=
    { progress with
      phase := phaseOpt.getD progress.phase
      lastInterviewAt := some now
      lastUpdatedAt := now
      questionIndex := questionIndex.getD progress.questionIndex
      questionTotal := questionTotal.getD progress.questionTotal
      nextFollowupDueAt :=
        (match followupDue with
         | some v => some v
         | none => progress.nextFollowupDueAt)
      futureInterviewTopics :=
        if !futureTopics.isEmpty then futureTopics else progress.futureInterviewTopics }
  let state :=
    { state with
      topicProgress := state.topicProgress.set topic progress
      activeTopic := some topic }
  let state := appendTopicHistory state topic "approved_context_saved" none none
    (some (match phaseOpt with | some p => phaseSlug p | none => "opening")) now
  refresh_summary_fields state now

/-- The state-file effect of the `start_topic_onboarding` endpoint:
bootstrap's normalising persist, then read, mutate, persist. -/
def run_start_topic (fs : BootFS) (topic : Topic) (now : String) : BootFS :=
  let fs := (persist_onboarding_state fs (read_onboarding_state fs now) now).1
  let state := read_onboarding_state fs now
  (persist_onboarding_state fs (start_topic_state_update state topic now) now).1

/-- The state-file effect of the `save_topic_onboarding_context`
endpoint (with `approved=true`; otherwise the call raises before any
mutation). -/
def run_save_context (fs : BootFS) (topic : Topic) (phaseOpt : Option TPhase)
    (questionIndex questionTotal : Option Nat) (followupDue : Option String)
    (futureTopics : List Topic) (now : String) : BootFS :=
  let fs := (persist_onboarding_state fs (read_onboarding_state fs now) now).1
  let state := read_onboarding_state fs now
  (persist_onboarding_state fs
    (save_context_state_update state topic phaseOpt questionIndex questionTotal
      followupDue futureTopics now) now).1

/-! ## Auxiliary specification-side definitions -/

/-- A 40-character lower-case hexadecimal commit id, the shape the
embedded commit store (dulwich) produces.  Modelled from the spec: the
store itself is an external library, injected here as the `newSha` of
a `GitCtx`. -/
def isHex40 (s : String) : Bool :=
  s.length = 40 && s.data.all (fun c => c.isDigit || ('a' ≤ c && c ≤ 'f'))

/-- The due-date bonus table shared by claim C7's wording and the
code. -/
def dueBonus (due : Option DueVal) (now : Int) : Int :=
  match due with
  | some (.at dueSecs) =>
    let deltaDays := Int.fdiv (dueSecs - now) 86400
    if deltaDays ≤ 0 then 30
    else if deltaDays ≤ 1 then 25
    else if deltaDays ≤ 3 then 20
    else if deltaDays ≤ 7 then 10
    else 0
  | _ => 0

/-- The score formula exactly as claim C7 words it: a priority
component of 100/70/40/20 for `p0`..`p3` and 10 by default, plus 10 on
a focus-project match, minus 100 when tagged `blocked`, plus the
due-date bonus. -/
def c7ClaimScore (task : ScoreTask) (focusProject : Option String) (now : Int) : Int :=
  (if task.priority = some "p0" then 100
   else if task.priority = some "p1" then 70
   else if task.priority = some "p2" then 40
   else if task.priority = some "p3" then 20
   else 10) +
  (match focusProject with
   | some f => if pyTruthy f && task.project = some f then 10 else 0
   | none => 0) -
  (if task.tags.contains "blocked" then 100 else 0) +
  dueBonus task.due now

/-- The amended score formula: a missing or empty priority is treated
as `p2` (40 points); only an unrecognised non-empty priority string
scores the 10-point default.  The other components are as the claim
words them. -/
def c7AmendedScore (task : ScoreTask) (focusProject : Option String) (now : Int) : Int :=
  (match task.priority with
   | none => 40
   | some p =>
     if p = "" then 40
     else if p = "p0" then 100
     else if p = "p1" then 70
     else if p = "p2" then 40
     else if p = "p3" then 20
     else 10) +
  (match focusProject with
   | some f => if pyTruthy f && task.project = some f then 10 else 0
   | none => 0) -
  (if task.tags.contains "blocked" then 100 else 0) +
  dueBonus task.due now

/-- The stable-descending order produced by a stable sort on the score:
strictly larger scores first, ties in original position order. -/
def rankedBefore (x y : ScoredEntry) : Prop :=
  x.score > y.score ∨ (x.score = y.score ∧ x.idx < y.idx)


/-- A normalised optional timestamp: `_normalize_timestamp` is the
identity on it. -/
def optTsNorm (o : Option String) : Prop := normTimestampOpt o = o

/-- A topic-progress record already in the normal form produced by the
read/persist pipeline. -/
def progNorm (p : TopicProgress) : Prop :=
  normTimestampOpt p.startedAt = p.startedAt ∧
  normTimestampOpt p.lastInterviewAt = p.lastInterviewAt ∧
  normTimestampOpt p.completedAt = p.completedAt ∧
  normTimestampOpt p.nextFollowupDueAt = p.nextFollowupDueAt ∧
  normTimestampOpt (some p.lastUpdatedAt) = some p.lastUpdatedAt ∧
  dedupTopics p.futureInterviewTopics = p.futureInterviewTopics

/-- An onboarding state in the normal form written by
`persist_onboarding_state` at instant `now`: re-reading and
re-persisting it at the same instant is the identity. -/
def OnbNormal (V : OnbState) (now : String) : Prop :=
  (∀ t, V.starterTopics.get t = (V.topicProgress.get t).status) ∧
  normTimestampOpt (some V.createdAt) = some V.createdAt ∧
  V.updatedAt = now ∧
  dedupTopics V.topicQueue = V.topicQueue ∧
  V.topicQueue ≠ [] ∧
  V.recommendedNextTopic.isSome = true ∧
  (∀ e ∈ V.topicHistory, normHistEntry e = some e) ∧
  V.topicHistory.length ≤ 200 ∧
  (∀ t, progNorm (V.topicProgress.get t)) ∧
  (∀ t, V.starterTopics.get t = .complete →
    (match (V.topicProgress.get t).completedAt with
     | some stamp => V.completedAt.get t = some stamp
     | none => (V.completedAt.get t).isSome = true)) ∧
  (∀ t, V.starterTopics.get t ≠ .complete →
    V.completedAt.get t = none ∧ (V.topicProgress.get t).completedAt = none)


/-- Monotone growth of the bootstrap filesystem: directories and
existing paths are never removed. -/
def fsGrows (a b : BootFS) : Prop :=
  (∀ q, a.dirs.contains q = true → b.dirs.contains q = true) ∧
  (∀ q, bExists a q = true → bExists b q = true)

/-- Saturation of a library root: every artefact the bootstrapper would
create is already present (and the stored onboarding state is a fixed
point of the read-merge-persist normalisation at instant `now`), so
that a bootstrap run makes no change. -/
def BootSat (fs : BootFS) (today : PyDate) (now : String) : Prop :=
  (∀ d ∈ REQUIRED_DIRECTORIES, ∀ q ∈ pathAncestors d, fs.dirs.contains q = true) ∧
  (∀ d ∈ AGENT_MIGRATION_DIRECTORIES,
      bExists fs (if d = "." then "AGENT.md" else d ++ "/AGENT.md") = true) ∧
  (∀ kv ∈ REQUIRED_TEXT_FILES, bExists fs kv.1 = true) ∧
  (∀ t ∈ TOPIC_ORDER, bExists fs ("life/" ++ topicSlug t) = true) ∧
  (∀ t ∈ TOPIC_ORDER, ∀ kv ∈ topicSeedFiles t,
      bExists fs ("life/" ++ topicSlug t ++ "/" ++ kv.1) = true) ∧
  (∀ rel ∈ GITKEEP_FILES, bExists fs rel = true) ∧
  (∀ kv ∈ digestStarterPaths today, bExists fs kv.1 = true) ∧
  (fs.dirs.contains ".braindrive" = true) ∧
  (bGetFile fs ".braindrive/schema-version.json" = some (.schemaJson SCHEMA_VERSION)) ∧
  (∃ V, bGetFile fs onbStatePath = some (.onbJson V) ∧ OnbNormal V now)

/-! # Theorems -/

/-- **C9**: for the empty-string relative path, `validate_path` raises
no error and returns the tenant library root itself, whatever the
symlink layout: the empty path has no components, so no check fires and
the join of zero parts is the root. -/
theorem c9_empty_path_resolves_to_root (sym : List String → Bool)
    (root : List String) :
    validate_path sym root (.str "") = .ok root := by
  simp [validate_path, containsSymlink,
        show posixParts (normalizeSlashes "") = [] by decide,
        show posixIsAbsolute (normalizeSlashes "") = false by decide]

/-- **C2**: `validate_path` either fails — a non-string input with
`INVALID_TYPE`, an absolute path with `ABSOLUTE_PATH`, a path with a
`..` segment with `PATH_TRAVERSAL`, a symlinked component with
`PATH_SYMLINK` (in that precedence) — or returns the tenant root
extended by the normalised components, hence a descendant of (or equal
to) the root.  Backslashes are normalised to forward slashes before
splitting, and the symlink oracle is the only filesystem access:
validation never requires the target to exist. -/
theorem c2_validate_path_contract (sym : List String → Bool) (root : List String)
    (v : PyVal) :
    (∀ tyName, v = .nonStr tyName →
      validate_path sym root v = .error .INVALID_TYPE) ∧
    (∀ s, v = .str s →
      (posixIsAbsolute (normalizeSlashes s) = true →
        validate_path sym root v = .error .ABSOLUTE_PATH) ∧
      (posixIsAbsolute (normalizeSlashes s) = false →
        ".." ∈ posixParts (normalizeSlashes s) →
        validate_path sym root v = .error .PATH_TRAVERSAL) ∧
      (posixIsAbsolute (normalizeSlashes s) = false →
        ".." ∉ posixParts (normalizeSlashes s) →
        containsSymlink sym [] (posixParts (normalizeSlashes s)) = true →
        validate_path sym root v = .error .PATH_SYMLINK) ∧
      (∀ p, validate_path sym root v = .ok p →
        p = root ++ posixParts (normalizeSlashes s) ∧
        ".." ∉ posixParts (normalizeSlashes s) ∧
        containsSymlink sym [] (posixParts (normalizeSlashes s)) = false ∧
        posixIsAbsolute (normalizeSlashes s) = false)) := by
  constructor
  · rintro tyName rfl
    rfl
  · rintro s rfl
    refine ⟨fun habs => ?_, fun habs htrav => ?_, fun habs htrav hsym => ?_,
            fun p hok => ?_⟩
    · simp [validate_path, habs]
    · simp [validate_path, habs, htrav]
    · simp [validate_path, habs, htrav, hsym]
    · unfold validate_path at hok
      by_cases habs : posixIsAbsolute (normalizeSlashes s) = true
      · simp [habs] at hok
      · by_cases htrav : ".." ∈ posixParts (normalizeSlashes s)
        · simp [habs, htrav] at hok
        · by_cases hsym : containsSymlink sym [] (posixParts (normalizeSlashes s)) = true
          · simp [habs, htrav, hsym] at hok
          · simp [habs, htrav, hsym] at hok
            exact ⟨hok.symm, htrav, by simpa using hsym, by simpa using habs⟩

/-- Witness for C2: a backslash path resolves inside the root, and a
traversal attempt is rejected with `PATH_TRAVERSAL`. -/
theorem c2_witness :
    validate_path (fun _ => false) ["tenant"] (.str "a\\..\\b") =
      .error .PATH_TRAVERSAL := by
  have h := (c2_validate_path_contract (fun _ => false) ["tenant"]
    (.str "a\\..\\b")).2 "a\\..\\b" rfl
  exact h.2.1 (by decide) (by decide)

/-- **C8 counterexample**: with left side `"a"` and right side the
empty string, neither side provides a newline, yet `_join_with_newline`
returns plain `"a"` — not `"a" ++ "\n" ++ ""` as the claim's rule
(including the empty-side case) would demand. -/
theorem c8_counterexample :
    strEndsWith "a" "\n" = false ∧ strStartsWith "" "\n" = false ∧
    join_with_newline "a" "" = "a" ∧ ("a" : String) ≠ "a" ++ "\n" ++ "" := by
  exact ⟨by decide, by decide, rfl, by decide⟩

/-- **C8 (amended)**: `append`/`prepend` produce the concatenation of
the two sides, with a single joining newline inserted exactly when both
sides are non-empty and neither already provides one; when either side
is the empty string the sides are concatenated without inserting a
newline. -/
theorem c8_join_with_newline_spec (l r content : String) (op : OpPayload) :
    (join_with_newline l r =
      if l ≠ "" ∧ r ≠ "" ∧ ¬strEndsWith l "\n" ∧ ¬strStartsWith r "\n" then
        l ++ "\n" ++ r
      else l ++ r) ∧
    (op.opType = "append" →
      apply_write_operation content op = .ok (join_with_newline content op.opContent)) ∧
    (op.opType = "prepend" →
      apply_write_operation content op = .ok (join_with_newline op.opContent content)) := by
  refine ⟨?_, fun h => ?_, fun h => ?_⟩
  · unfold join_with_newline pyTruthy
    by_cases hl : l = "" <;> by_cases hr : r = "" <;>
      by_cases he : strEndsWith l "\n" = true <;>
      by_cases hs : strStartsWith r "\n" = true <;>
      simp [hl, hr, he, hs]
  · simp [apply_write_operation, h]
  · simp [apply_write_operation, h]

/-- Witness for C8: appending `"More"` to `"Intro"` inserts the single
joining newline. -/
theorem c8_witness :
    apply_write_operation "Intro" ⟨"append", "More", none⟩ = .ok "Intro\nMore" := by
  have h := (c8_join_with_newline_spec "" "" "Intro" ⟨"append", "More", none⟩).2.1 rfl
  rw [h]
  rfl

/-! ### Stable-sort lemmas for the digest ranking -/

theorem insertByScoreDesc_perm (e : ScoredEntry) (l : List ScoredEntry) :
    (insertByScoreDesc e l).Perm (e :: l) := by
  induction l with
  | nil => simp [insertByScoreDesc]
  | cons x xs ih =>
    unfold insertByScoreDesc
    split
    · exact (ih.cons x).trans (List.Perm.swap e x xs)
    · exact List.Perm.refl _

theorem sortByScoreDesc_perm (l : List ScoredEntry) :
    (sortByScoreDesc l).Perm l := by
  induction l with
  | nil => exact List.Perm.refl _
  | cons x xs ih =>
    exact (insertByScoreDesc_perm x (sortByScoreDesc xs)).trans (ih.cons x)

theorem rankedBefore_of_ge {e x y : ScoredEntry} (hge : x.score ≤ e.score)
    (hidx : ∀ z ∈ [y], e.idx < z.idx) (hxy : rankedBefore x y) :
    rankedBefore e y := by
  rcases hxy with hgt | ⟨heq, _⟩
  · exact Or.inl (lt_of_lt_of_le hgt hge)
  · rcases lt_or_eq_of_le hge with hlt | heq2
    · exact Or.inl (heq ▸ hlt)
    · exact Or.inr ⟨heq2 ▸ heq, hidx y (List.mem_singleton_self y)⟩

theorem pairwise_insertByScoreDesc {e : ScoredEntry} {l : List ScoredEntry}
    (hl : l.Pairwise rankedBefore) (hidx : ∀ x ∈ l, e.idx < x.idx) :
    (insertByScoreDesc e l).Pairwise rankedBefore := by
  induction l with
  | nil => simp [insertByScoreDesc]
  | cons x xs ih =>
    rw [List.pairwise_cons] at hl
    unfold insertByScoreDesc
    split
    case isTrue hgt =>
      rw [List.pairwise_cons]
      refine ⟨fun y hy => ?_, ih hl.2 (fun y hy => hidx y (List.mem_cons_of_mem _ hy))⟩
      rcases List.mem_cons.mp ((insertByScoreDesc_perm e xs).mem_iff.mp hy) with rfl | hy'
      · exact Or.inl hgt
      · exact hl.1 y hy'
    case isFalse hle =>
      rw [List.pairwise_cons]
      refine ⟨fun y hy => ?_, List.pairwise_cons.mpr hl⟩
      have hge : x.score ≤ e.score := le_of_not_lt hle
      rcases List.mem_cons.mp hy with rfl | hyxs
      · rcases lt_or_eq_of_le hge with hlt | heq
        · exact Or.inl hlt
        · exact Or.inr ⟨heq.symm, hidx y (List.mem_cons_self y xs)⟩
      · exact rankedBefore_of_ge hge
          (fun z hz => (List.mem_singleton.mp hz) ▸ hidx y (List.mem_cons_of_mem _ hyxs))
          (hl.1 y hyxs)

theorem sortByScoreDesc_pairwise {l : List ScoredEntry}
    (h : l.Pairwise (fun a b => a.idx < b.idx)) :
    (sortByScoreDesc l).Pairwise rankedBefore := by
  induction l with
  | nil => simp [sortByScoreDesc]
  | cons x xs ih =>
    rw [List.pairwise_cons] at h
    exact pairwise_insertByScoreDesc (ih h.2)
      (fun y hy => h.1 y ((sortByScoreDesc_perm xs).mem_iff.mp hy))

theorem mem_withIdx_le {l : List α} {n : Nat} {x : Nat × α}
    (h : x ∈ withIdx l n) : n ≤ x.1 := by
  induction l generalizing n with
  | nil => simp [withIdx] at h
  | cons a as ih =>
    rcases List.mem_cons.mp h with rfl | h'
    · exact Nat.le_refl _
    · exact Nat.le_of_succ_le (ih h')

theorem withIdx_pairwise (l : List α) (n : Nat) :
    (withIdx l n).Pairwise (fun a b => a.1 < b.1) := by
  induction l generalizing n with
  | nil => simp [withIdx]
  | cons a as ih =>
    rw [withIdx, List.pairwise_cons]
    exact ⟨fun y hy => Nat.lt_of_lt_of_le (Nat.lt_succ_self n) (mem_withIdx_le hy),
           ih (n + 1)⟩

/-- The code's per-task score coincides with the amended formula. -/
theorem score_task_eq_amended (task : ScoreTask) (focus : Option String) (now : Int) :
    (score_task task focus now).1 = c7AmendedScore task focus now := by
  have hprio : priorityMapGet (effectivePriority task.priority) =
      (match task.priority with
       | none => (40 : Int)
       | some p =>
         if p = "" then 40
         else if p = "p0" then 100
         else if p = "p1" then 70
         else if p = "p2" then 40
         else if p = "p3" then 20
         else 10) := by
    rcases task.priority with _ | p
    · rfl
    · by_cases hp : p = "" <;> simp [effectivePriority, priorityMapGet, hp]
  unfold score_task c7AmendedScore
  rw [← hprio]
  rcases task.due with _ | d
  · rcases focus with _ | f
    · by_cases hb : "blocked" ∈ task.tags <;> simp [hb, dueBonus]
    · by_cases hf : (pyTruthy f && decide (task.project = some f)) = true <;>
        by_cases hb : "blocked" ∈ task.tags <;>
        simp [hf, hb, dueBonus]
  · rcases d with _ | secs
    · rcases focus with _ | f
      · by_cases hb : "blocked" ∈ task.tags <;> simp [hb, dueBonus]
      · by_cases hf : (pyTruthy f && decide (task.project = some f)) = true <;>
          by_cases hb : "blocked" ∈ task.tags <;>
          simp [hf, hb, dueBonus]
    · rcases focus with _ | f
      · by_cases hb : "blocked" ∈ task.tags <;>
          simp [hb, dueBonus] <;> split_ifs <;> omega
      · by_cases hf : (pyTruthy f && decide (task.project = some f)) = true <;>
          by_cases hb : "blocked" ∈ task.tags <;>
          simp [hf, hb, dueBonus] <;> split_ifs <;> omega

/-- **C7 counterexample**: for a task with no priority field (and no
focus, tags, or due date), `_score_task` yields 40 — the missing
priority collapses to `p2` — while the claim's formula ("10 by
default") yields 10. -/
theorem c7_counterexample :
    (score_task ⟨none, none, [], none⟩ none 0).1 = 40 ∧
    c7ClaimScore ⟨none, none, [], none⟩ none 0 = 10 ∧ ((40 : Int) ≠ 10) := by
  exact ⟨rfl, rfl, by decide⟩

/-- **C7 (amended)**: every scored entry carries the amended formula's
value — priority 100/70/40/20 for `p0`..`p3`, with a missing or empty
priority treated as `p2` (40) and only unrecognised strings scoring the
10 default, plus 10 on a focus match, minus 100 when `blocked`, plus
the due bonuses of 30/25/20/10 — and the returned ranking is a
permutation of the scored inputs sorted by score descending with ties
in stable original order. -/
theorem c7_score_digest_ranking (tasks : List ScoreTask) (focus : Option String)
    (now : Int) :
    (score_digest_tasks tasks focus now).Perm
      ((withIdx tasks 0).map fun ti =>
        ⟨ti.1, ti.2, (score_task ti.2 focus now).1, (score_task ti.2 focus now).2⟩) ∧
    (score_digest_tasks tasks focus now).Pairwise rankedBefore ∧
    (∀ e ∈ score_digest_tasks tasks focus now,
      e.score = c7AmendedScore e.task focus now) := by
  have hmap : (((withIdx tasks 0).map fun ti =>
      (⟨ti.1, ti.2, (score_task ti.2 focus now).1,
        (score_task ti.2 focus now).2⟩ : ScoredEntry))).Pairwise
      (fun a b => a.idx < b.idx) := by
    rw [List.pairwise_map]
    exact withIdx_pairwise tasks 0
  refine ⟨sortByScoreDesc_perm _, sortByScoreDesc_pairwise hmap, fun e he => ?_⟩
  have hmem := (sortByScoreDesc_perm _).mem_iff.mp he
  rcases List.mem_map.mp hmem with ⟨ti, _, rfl⟩
  exact score_task_eq_amended ti.2 focus now

/-- Witness for C7: a single `p1` task ranks with score 70, the amended
formula's value. -/
theorem c7_witness :
    ((⟨0, ⟨some "p1", none, [], none⟩, 70, ["priority:p1"]⟩ : ScoredEntry) ∈
      score_digest_tasks [⟨some "p1", none, [], none⟩] none 0) ∧
    (70 : Int) = c7AmendedScore ⟨some "p1", none, [], none⟩ none 0 := by
  have heq : score_digest_tasks [⟨some "p1", none, [], none⟩] none 0 =
      [⟨0, ⟨some "p1", none, [], none⟩, 70, ["priority:p1"]⟩] := rfl
  have hm : (⟨0, ⟨some "p1", none, [], none⟩, 70, ["priority:p1"]⟩ : ScoredEntry) ∈
      score_digest_tasks [⟨some "p1", none, [], none⟩] none 0 := by
    rw [heq]; exact List.mem_singleton_self _
  exact ⟨hm, (c7_score_digest_ranking [⟨some "p1", none, [], none⟩] none 0).2.2 _ hm⟩

/-! ### Splitlines round-trip lemmas for the section editor -/

theorem joinChunks_splitlinesK (l : List Char) : joinChunks (splitlinesK l) = l := by
  induction l with
  | nil => rfl
  | cons c rest ih =>
    rw [splitlinesK]
    by_cases hc : isLineBreak c = true
    · rw [if_pos hc]
      by_cases hcr : (c = '\r' && rest.head? = some '\n') = true
      · rw [if_pos hcr]
        simp only [Bool.and_eq_true, decide_eq_true_eq] at hcr
        obtain ⟨hcr1, hcr2⟩ := hcr
        obtain ⟨rest2, hrest⟩ : ∃ rest2, rest = '\n' :: rest2 := by
          cases rest with
          | nil => simp at hcr2
          | cons a b => simp at hcr2; exact ⟨b, by rw [hcr2]⟩
        subst hrest
        have hsingle : splitlinesK ('\n' :: rest2) = ['\n'] :: splitlinesK rest2 := by
          rw [splitlinesK]; rfl
        rw [hsingle] at ih ⊢
        subst hcr1
        simp only [joinChunks, List.flatten_cons, List.tail_cons,
          List.cons_append, List.nil_append] at ih ⊢
        simp only [List.cons.injEq, true_and] at ih
        simp [ih]
      · rw [if_neg hcr]
        simp only [joinChunks, List.flatten_cons, List.cons_append,
          List.nil_append] at ih ⊢
        rw [ih]
    · rw [if_neg hc]
      cases hs : splitlinesK rest with
      | nil =>
        rw [hs] at ih
        simp only [joinChunks, List.flatten_nil] at ih
        simp [joinChunks, ← ih]
      | cons line lines =>
        rw [hs] at ih
        simp only [joinChunks, List.flatten_cons, List.cons_append] at ih ⊢
        rw [ih]

theorem joinAll_data (ls : List String) :
    (joinAll ls).data = (ls.map String.data).flatten := by
  induction ls with
  | nil => rfl
  | cons s rest ih =>
    simp only [joinAll, List.foldr_cons, List.map_cons, List.flatten_cons] at ih ⊢
    rw [← ih]
    rfl

theorem pySplitlinesK_data (s : String) :
    (pySplitlinesK s).map String.data = splitlinesK s.data := by
  simp only [pySplitlinesK, List.map_map]
  exact List.map_id _

theorem joinAll_pySplitlinesK (s : String) : joinAll (pySplitlinesK s) = s := by
  have h : (joinAll (pySplitlinesK s)).data = s.data := by
    rw [joinAll_data, pySplitlinesK_data]
    exact joinChunks_splitlinesK s.data
  cases s with
  | mk d => exact congrArg String.mk h

theorem slice_glue (l : List α) (s e : Nat) (h : s ≤ e) :
    l.take s ++ ((l.drop s).take (e - s) ++ l.drop e) = l := by
  rw [← List.append_assoc, ← List.take_add, Nat.add_sub_cancel' h,
    List.take_append_drop]

theorem findBoundaryAux_ge (level : Nat) :
    ∀ (ls : List String) (k j : Nat), findBoundaryAux level ls k = some j → k ≤ j := by
  intro ls
  induction ls with
  | nil => intro k j h; simp [findBoundaryAux] at h
  | cons l rest ih =>
    intro k j h
    simp only [findBoundaryAux] at h
    split at h
    · split at h
      · simp only [Option.some.injEq] at h
        omega
      · exact Nat.le_of_succ_le (ih (k + 1) j h)
    · exact Nat.le_of_succ_le (ih (k + 1) j h)

theorem findSectionAux_le (total : Nat) (targetLine : String) :
    ∀ (ls : List String) (idx s e : Nat), total = idx + ls.length →
      findSectionAux total targetLine ls idx = .ok (s, e) → s ≤ e := by
  intro ls
  induction ls with
  | nil => intro idx s e _ h; simp [findSectionAux] at h
  | cons l rest ih =>
    intro idx s e htot h
    simp only [findSectionAux] at h
    split at h
    · split at h
      · exact ih (idx + 1) s e (by simp at htot ⊢; omega) h
      · rename_i level hl
        split at h
        · rename_i k hb
          have hk := findBoundaryAux_ge level rest (idx + 1) k hb
          simp only [Except.ok.injEq, Prod.mk.injEq] at h
          omega
        · simp only [Except.ok.injEq, Prod.mk.injEq] at h
          simp at htot
          omega
    · exact ih (idx + 1) s e (by simp at htot ⊢; omega) h

/-- **C5**: replacing a found section with the section's own extracted
lines (`lines[start:end]` rejoined) returns the document byte-for-byte:
the section-edit round trip is the identity. -/
theorem c5_replace_section_roundtrip (doc target : String) (s e : Nat)
    (h : find_section_bounds (pySplitlinesK doc) target = .ok (s, e)) :
    apply_section_operation doc "replace_section" target
      (joinAll (((pySplitlinesK doc).drop s).take (e - s))) = .ok doc := by
  have hse : s ≤ e := by
    unfold find_section_bounds at h
    by_cases h0 : pyStrip target = ""
    · rw [if_pos h0] at h; cases h
    · rw [if_neg h0] at h
      cases hl : heading_level (pyStrip target) with
      | none => rw [hl] at h; cases h
      | some lv =>
        rw [hl] at h
        exact findSectionAux_le (pySplitlinesK doc).length (pyStrip target)
          (pySplitlinesK doc) 0 s e (by simp) h
  simp only [apply_section_operation, h, if_pos]
  congr 1
  have hdata : (joinAll ((pySplitlinesK doc).take s ++
      pySplitlinesK (joinAll (((pySplitlinesK doc).drop s).take (e - s))) ++
      (pySplitlinesK doc).drop e)).data = doc.data := by
    rw [joinAll_data]
    simp only [List.map_append, List.flatten_append]
    rw [pySplitlinesK_data]
    rw [show (splitlinesK (joinAll (((pySplitlinesK doc).drop s).take (e - s))).data).flatten
          = (joinAll (((pySplitlinesK doc).drop s).take (e - s))).data from
        joinChunks_splitlinesK _]
    rw [joinAll_data]
    rw [← List.flatten_append, ← List.flatten_append, ← List.map_append,
      ← List.map_append]
    rw [List.append_assoc, slice_glue _ s e hse]
    rw [pySplitlinesK_data]
    exact joinChunks_splitlinesK doc.data
  cases doc with
  | mk d =>
    have := congrArg String.mk hdata
    simpa using this

/-- Witness for C5: a concrete two-section document round-trips through
`replace_section` on its first heading. -/
theorem c5_witness :
    find_section_bounds (pySplitlinesK "# A\nbody\n# B\ntail") "# A" = .ok (0, 2) ∧
    apply_section_operation "# A\nbody\n# B\ntail" "replace_section" "# A"
      (joinAll (((pySplitlinesK "# A\nbody\n# B\ntail").drop 0).take (2 - 0))) =
      .ok "# A\nbody\n# B\ntail" :=
  ⟨rfl, c5_replace_section_roundtrip "# A\nbody\n# B\ntail" "# A" 0 2 rfl⟩

/-- **C3**: a successful `write_markdown` mutation appends exactly one
commit to the commit store and exactly one entry to the activity
journal; the returned id is the new commit's 40-hex id, HEAD is that
commit, and the journal's last entry carries the id, the operation
name, the relative path and the summary. -/
theorem c3_success_commit_and_journal (st : SysState) (sym : List String → Bool)
    (rawPath : PyVal) (op : OpPayload) (ctx : GitCtx) (sha : String)
    (hhex : isHex40 ctx.newSha = true)
    (h : (write_markdown st sym rawPath op ctx).2 = .ok sha) :
    sha = ctx.newSha ∧ isHex40 sha = true ∧
    ∃ parts, validate_path sym [] rawPath = .ok parts ∧
      (write_markdown st sym rawPath op ctx).1.commits =
        st.commits ++ [⟨sha, "write_markdown: " ++ joinWith "/" parts⟩] ∧
      (write_markdown st sym rawPath op ctx).1.head = some sha ∧
      (write_markdown st sym rawPath op ctx).1.journal =
        st.journal ++ [⟨ctx.nowIso, "write_markdown", joinWith "/" parts,
          format_activity_summary op, sha⟩] := by
  cases hv : validate_path sym [] rawPath with
  | error e => simp [write_markdown, hv] at h
  | ok parts =>
    by_cases hext : allowedMarkdownExt (joinWith "/" parts) = true
    · cases hf : getFile st (joinWith "/" parts) with
      | none =>
        by_cases hdir : joinWith "/" parts ∈ st.dirs <;>
          simp [write_markdown, hv, hext, hf, hdir] at h
      | some current =>
        cases hap : apply_write_operation current op with
        | error e => simp [write_markdown, hv, hext, hf, hap] at h
        | ok updated =>
          by_cases hg : ctx.gitFails = true
          · simp [write_markdown, hv, hext, hf, hap, hg] at h
          · by_cases hl : ctx.logFails = true
            · simp [write_markdown, hv, hext, hf, hap, hg, hl] at h
            · simp only [write_markdown, hv, hext, hf, hap, hg, hl,
                Bool.not_true, Bool.not_false, if_true, if_false,
                Bool.false_eq_true, Except.ok.injEq] at h
              subst h
              refine ⟨rfl, hhex, parts, rfl, ?_⟩
              simp [write_markdown, hv, hext, hf, hap, hg, hl, setFile]
    · simp [write_markdown, hv, hext] at h

/-- Witness for C3: appending to an existing markdown file with a
40-hex injected commit id produces exactly the new commit, HEAD and
journal entry. -/
theorem c3_witness :
    isHex40 "0123456789abcdef0123456789abcdef01234567" = true ∧
    ((⟨[], [("docs/readme.md", "Intro")], [], none, []⟩ : SysState),
      "0123456789abcdef0123456789abcdef01234567",
      (⟨"append", "More", none⟩ : OpPayload),
      (⟨false, false, "0123456789abcdef0123456789abcdef01234567",
        "2025-06-01T00:00:00+00:00"⟩ : GitCtx)).2.1 =
      "0123456789abcdef0123456789abcdef01234567" ∧
    ("0123456789abcdef0123456789abcdef01234567" =
        "0123456789abcdef0123456789abcdef01234567" ∧
      isHex40 "0123456789abcdef0123456789abcdef01234567" = true ∧
      ∃ parts, validate_path (fun _ => false) [] (.str "docs/readme.md") = .ok parts ∧
        (write_markdown ⟨[], [("docs/readme.md", "Intro")], [], none, []⟩
            (fun _ => false) (.str "docs/readme.md") ⟨"append", "More", none⟩
            ⟨false, false, "0123456789abcdef0123456789abcdef01234567",
              "2025-06-01T00:00:00+00:00"⟩).1.commits =
          [] ++ [⟨"0123456789abcdef0123456789abcdef01234567",
            "write_markdown: " ++ joinWith "/" parts⟩] ∧
        (write_markdown ⟨[], [("docs/readme.md", "Intro")], [], none, []⟩
            (fun _ => false) (.str "docs/readme.md") ⟨"append", "More", none⟩
            ⟨false, false, "0123456789abcdef0123456789abcdef01234567",
              "2025-06-01T00:00:00+00:00"⟩).1.head =
          some "0123456789abcdef0123456789abcdef01234567" ∧
        (write_markdown ⟨[], [("docs/readme.md", "Intro")], [], none, []⟩
            (fun _ => false) (.str "docs/readme.md") ⟨"append", "More", none⟩
            ⟨false, false, "0123456789abcdef0123456789abcdef01234567",
              "2025-06-01T00:00:00+00:00"⟩).1.journal =
          [] ++ [⟨"2025-06-01T00:00:00+00:00", "write_markdown",
            joinWith "/" parts,
            format_activity_summary ⟨"append", "More", none⟩,
            "0123456789abcdef0123456789abcdef01234567"⟩]) :=
  ⟨by decide, rfl,
    c3_success_commit_and_journal ⟨[], [("docs/readme.md", "Intro")], [], none, []⟩
      (fun _ => false) (.str "docs/readme.md") ⟨"append", "More", none⟩
      ⟨false, false, "0123456789abcdef0123456789abcdef01234567",
        "2025-06-01T00:00:00+00:00"⟩
      "0123456789abcdef0123456789abcdef01234567" (by decide) rfl⟩

/-! ### File-store lemmas for the rollback proofs -/

theorem setFileL_setFileL (fs : List (String × String)) (p a b : String) :
    setFileL (setFileL fs p a) p b = setFileL fs p b := by
  induction fs with
  | nil => simp [setFileL]
  | cons kv rest ih =>
    obtain ⟨k, w⟩ := kv
    by_cases hk : k = p
    · simp [setFileL, hk]
    · simp [setFileL, hk, ih]

theorem alGet_cons (k w p : String) (rest : List (String × String)) :
    alGet ((k, w) :: rest) p = if k = p then some w else alGet rest p := by
  by_cases hk : k = p <;> simp [alGet, List.find?_cons, hk]

theorem setFileL_same (fs : List (String × String)) (p v : String)
    (h : alGet fs p = some v) : setFileL fs p v = fs := by
  induction fs with
  | nil => simp [alGet] at h
  | cons kv rest ih =>
    obtain ⟨k, w⟩ := kv
    rw [alGet_cons] at h
    by_cases hk : k = p
    · rw [if_pos hk] at h
      simp only [Option.some.injEq] at h
      simp [setFileL, hk, h]
    · rw [if_neg hk] at h
      simp [setFileL, hk, ih h]

theorem foldl_addDir_files (l : List String) :
    ∀ st : SysState, ((l.foldl addDir st).files = st.files ∧
      (l.foldl addDir st).head = st.head ∧
      (l.foldl addDir st).journal = st.journal ∧
      (l.foldl addDir st).commits = st.commits) := by
  induction l with
  | nil => intro st; exact ⟨rfl, rfl, rfl, rfl⟩
  | cons d rest ih =>
    intro st
    have hstep : (addDir st d).files = st.files ∧ (addDir st d).head = st.head ∧
        (addDir st d).journal = st.journal ∧ (addDir st d).commits = st.commits := by
      unfold addDir; split <;> exact ⟨rfl, rfl, rfl, rfl⟩
    have := ih (addDir st d)
    simp only [List.foldl_cons]
    exact ⟨this.1.trans hstep.1, this.2.1.trans hstep.2.1,
      this.2.2.1.trans hstep.2.2.1, this.2.2.2.trans hstep.2.2.2⟩

theorem mkdirParents_files (st : SysState) (p : String) :
    (mkdirParents st p).files = st.files ∧ (mkdirParents st p).head = st.head ∧
    (mkdirParents st p).journal = st.journal ∧
    (mkdirParents st p).commits = st.commits :=
  foldl_addDir_files (pathAncestors p) st

/-- **C1 counterexample**: two failed mutations that do not leave the
pre-request state intact.  A `create_task` whose journal append fails
leaves the new ledger line on disk and HEAD advanced; a
`_rollup_digest_period` whose commit fails leaves the written yearly
digest file behind. -/
theorem c1_counterexample :
    ((create_task ⟨["pulse"], [("pulse/index.md", "")], [], none, []⟩
        { title := some "New task" } ⟨false, true, "c1sha", "t0"⟩).2 =
      .error .LOG_ERROR ∧
     getFile (create_task ⟨["pulse"], [("pulse/index.md", "")], [], none, []⟩
        { title := some "New task" } ⟨false, true, "c1sha", "t0"⟩).1
        "pulse/index.md" = some "- [ ] T-001 | p2 | New task" ∧
     getFile (⟨["pulse"], [("pulse/index.md", "")], [], none, []⟩ : SysState)
        "pulse/index.md" = some "" ∧
     (create_task ⟨["pulse"], [("pulse/index.md", "")], [], none, []⟩
        { title := some "New task" } ⟨false, true, "c1sha", "t0"⟩).1.head =
      some "c1sha" ∧
     (⟨["pulse"], [("pulse/index.md", "")], [], none, []⟩ : SysState).head = none) ∧
    ((rollup_digest_period ⟨[], [], [], none, []⟩ "year" ⟨2025, 3, 1⟩
        ⟨true, false, "x", "2025-03-01T00:00:00+00:00"⟩).2 = .error .GIT_ERROR ∧
     getFile (rollup_digest_period ⟨[], [], [], none, []⟩ "year" ⟨2025, 3, 1⟩
        ⟨true, false, "x", "2025-03-01T00:00:00+00:00"⟩).1 "digest/yearly/2025.md" =
      some "# Yearly Digest 2025\n\n## Source Daily Entries\n\n- (none)\n" ∧
     getFile (⟨[], [], [], none, []⟩ : SysState) "digest/yearly/2025.md" = none) :=
  ⟨⟨rfl, rfl, rfl, rfl, rfl⟩, ⟨rfl, rfl, rfl⟩⟩

/-- **C1 (amended)**: `write_markdown` leaves the file store, HEAD and
the journal of the pre-request state intact on every failure (though on
a journal failure the rolled-back commit object stays in the store);
`create_task` does so only for failures up to and including the commit
stage, and only when the ledger file already exists — its closing
journal append is unguarded, and `_rollup_digest_period` performs no
rollback at all. -/
theorem c1_failed_mutation_rollback :
    (∀ (st : SysState) (sym : List String → Bool) (rawPath : PyVal) (op : OpPayload)
        (ctx : GitCtx) (e : ErrCode),
      (write_markdown st sym rawPath op ctx).2 = .error e →
        (write_markdown st sym rawPath op ctx).1.files = st.files ∧
        (write_markdown st sym rawPath op ctx).1.head = st.head ∧
        (write_markdown st sym rawPath op ctx).1.journal = st.journal) ∧
    (∀ (st : SysState) (payload : CreatePayload) (ctx : GitCtx) (e : ErrCode)
        (content : String),
      getFile st "pulse/index.md" = some content → ctx.logFails = false →
      (create_task st payload ctx).2 = .error e →
        (create_task st payload ctx).1.files = st.files ∧
        (create_task st payload ctx).1.head = st.head ∧
        (create_task st payload ctx).1.journal = st.journal) := by
  constructor
  · intro st sym rawPath op ctx e h
    cases hv : validate_path sym [] rawPath with
    | error pe => simp [write_markdown, hv]
    | ok parts =>
      by_cases hext : allowedMarkdownExt (joinWith "/" parts) = true
      · cases hf : getFile st (joinWith "/" parts) with
        | none =>
          by_cases hdir : joinWith "/" parts ∈ st.dirs <;>
            simp [write_markdown, hv, hext, hf, hdir]
        | some current =>
          cases hap : apply_write_operation current op with
          | error ae => simp [write_markdown, hv, hext, hf, hap]
          | ok updated =>
            by_cases hg : ctx.gitFails = true
            · simp only [write_markdown, hv, hext, hf, hap, hg, if_true,
                Bool.not_true, Bool.false_eq_true, if_false]
              refine ⟨?_, by trivial, by trivial⟩
              simp only [setFile]
              rw [setFileL_setFileL]
              exact setFileL_same st.files _ current hf
            · by_cases hl : ctx.logFails = true
              · simp only [write_markdown, hv, hext, hf, hap, hg, hl, if_true,
                  Bool.not_true, Bool.false_eq_true, if_false]
                refine ⟨?_, by trivial, by trivial⟩
                simp only [setFile]
                rw [setFileL_setFileL]
                exact setFileL_same st.files _ current hf
              · simp [write_markdown, hv, hext, hf, hap, hg, hl] at h
      · simp [write_markdown, hv, hext]
  · intro st payload ctx e content hidx hlog h
    cases hp : payload.title with
    | none => simp [create_task, hp]
    | some t =>
      have hmk := mkdirParents_files st "pulse"
      have hidx0 : getFile (mkdirParents st "pulse") "pulse/index.md" = some content := by
        simp only [getFile, hmk.1]; exact hidx
      by_cases hg : ctx.gitFails = true
      · simp only [create_task, hp, hg, if_true]
        refine ⟨?_, ?_, ?_⟩
        · simp only [setFile, hidx0, Option.getD_some]
          rw [setFileL_setFileL]
          rw [setFileL_same _ _ content (by simpa [getFile] using hidx0)]
          exact hmk.1
        · simpa [setFile] using hmk.2.1
        · simpa [setFile] using hmk.2.2.1
      · simp [create_task, hp, hg, hlog] at h

/-- Witness for C1's amended rollback guarantee: a `write_markdown`
aimed at a missing file fails and leaves the state untouched, and a
`create_task` whose commit fails restores the pre-existing ledger. -/
theorem c1_witness :
    ((write_markdown ⟨[], [], [], none, []⟩ (fun _ => false) (.str "a.md")
        ⟨"append", "x", none⟩ ⟨false, false, "s", "t"⟩).2 =
      .error .FILE_NOT_FOUND ∧
     (write_markdown ⟨[], [], [], none, []⟩ (fun _ => false) (.str "a.md")
        ⟨"append", "x", none⟩ ⟨false, false, "s", "t"⟩).1.files = [] ∧
     (write_markdown ⟨[], [], [], none, []⟩ (fun _ => false) (.str "a.md")
        ⟨"append", "x", none⟩ ⟨false, false, "s", "t"⟩).1.head = none ∧
     (write_markdown ⟨[], [], [], none, []⟩ (fun _ => false) (.str "a.md")
        ⟨"append", "x", none⟩ ⟨false, false, "s", "t"⟩).1.journal = []) ∧
    (getFile (⟨["pulse"], [("pulse/index.md", "old")], [], none, []⟩ : SysState)
        "pulse/index.md" = some "old" ∧
     (create_task ⟨["pulse"], [("pulse/index.md", "old")], [], none, []⟩
        { title := some "W" } ⟨true, false, "s", "t"⟩).2 = .error .GIT_ERROR ∧
     (create_task ⟨["pulse"], [("pulse/index.md", "old")], [], none, []⟩
        { title := some "W" } ⟨true, false, "s", "t"⟩).1.files =
      [("pulse/index.md", "old")] ∧
     (create_task ⟨["pulse"], [("pulse/index.md", "old")], [], none, []⟩
        { title := some "W" } ⟨true, false, "s", "t"⟩).1.head = none ∧
     (create_task ⟨["pulse"], [("pulse/index.md", "old")], [], none, []⟩
        { title := some "W" } ⟨true, false, "s", "t"⟩).1.journal = []) := by
  constructor
  · refine ⟨rfl, ?_⟩
    exact c1_failed_mutation_rollback.1 ⟨[], [], [], none, []⟩ (fun _ => false)
      (.str "a.md") ⟨"append", "x", none⟩ ⟨false, false, "s", "t"⟩
      .FILE_NOT_FOUND rfl
  · refine ⟨rfl, rfl, ?_⟩
    exact c1_failed_mutation_rollback.2 ⟨["pulse"], [("pulse/index.md", "old")], [], none, []⟩
      { title := some "W" } ⟨true, false, "s", "t"⟩ .GIT_ERROR "old" rfl rfl rfl

/-- **C6**: the no-collision invariant fails in the code.  Creating two
tasks (ids 1 and 2, each `max + 1`), completing task 1, reopening it and
completing it again — five successful operations — leaves task id 1 both
in the open ledger and in the completion log, because
`_find_task_line_index` matches the pattern `T-001` as a substring and
the second completion pops task 2's line (whose title mentions `T-001`)
instead of task 1's. -/
theorem c6_duplicate_task_ids :
    (let r1 := create_task ⟨[], [], [], none, []⟩ { title := some "first task" }
      { newSha := "a1", nowIso := "t1" }
     let r2 := create_task r1.1 { title := some "follow up on T-001" }
      { newSha := "a2", nowIso := "t2" }
     let r3 := complete_task r2.1 1 "2025-01" { newSha := "a3", nowIso := "t3" }
     let r4 := reopen_task r3.1 1 "2025-01" { newSha := "a4", nowIso := "t4" }
     let r5 := complete_task r4.1 1 "2025-01" { newSha := "a5", nowIso := "t5" }
     r1.2.toOption.map (fun p => p.1.id) = some 1 ∧
     r2.2.toOption.map (fun p => p.1.id) = some 2 ∧
     r3.2.toOption.isSome = true ∧
     r4.2.toOption.isSome = true ∧
     r5.2.toOption.isSome = true ∧
     (load_tasks r5.1 "open").map (·.id) = [1] ∧
     (load_tasks r5.1 "completed").map (·.id) = [1]) :=
  ⟨rfl, rfl, rfl, rfl, rfl, rfl, rfl⟩

/-! ### Topic-map and fold lemmas for the onboarding state -/

theorem TopicMap.get_set_self {α : Type} (m : TopicMap α) (t : Topic) (a : α) :
    (m.set t a).get t = a := by
  cases t <;> rfl

theorem TopicMap.get_set_ne {α : Type} (m : TopicMap α) (t t' : Topic) (a : α)
    (h : t ≠ t') : (m.set t a).get t' = m.get t' := by
  cases t <;> cases t' <;> first | rfl | exact absurd rfl h

theorem TopicMap.set_get {α : Type} (m : TopicMap α) (t : Topic) :
    m.set t (m.get t) = m := by
  cases t <;> rfl

theorem TopicMap.ext_topics {α : Type} {m m' : TopicMap α}
    (h : ∀ t, m.get t = m'.get t) : m = m' := by
  cases m; cases m'
  have h1 := h .finances
  have h2 := h .fitness
  have h3 := h .relationships
  have h4 := h .career
  have h5 := h .whyfinder
  simp only [TopicMap.get] at h1 h2 h3 h4 h5
  simp [h1, h2, h3, h4, h5]

theorem TopicMap.get_mapTopics {α : Type} (f : Topic → α) (t : Topic) :
    (mapTopics f).get t = f t := by
  cases t <;> rfl

theorem mem_TOPIC_ORDER (t : Topic) : t ∈ TOPIC_ORDER := by
  cases t <;> simp [TOPIC_ORDER]

theorem foldl_preserve {σ ι : Type} {step : σ → ι → σ} {P : σ → Prop}
    (hstep : ∀ s x, P s → P (step s x)) :
    ∀ (l : List ι) (s : σ), P s → P (l.foldl step s) := by
  intro l
  induction l with
  | nil => intro s hs; exact hs
  | cons x rest ih => intro s hs; exact ih (step s x) (hstep s x hs)

theorem foldl_pointwise_inv {σ ι : Type} {step : σ → ι → σ} {P : σ → Prop}
    {Q : σ → ι → Prop}
    (hP : ∀ s x, P s → P (step s x))
    (hest : ∀ s x, P s → Q (step s x) x)
    (hpres : ∀ s x y, P s → Q s y → Q (step s x) y) :
    ∀ (l : List ι) (s : σ), P s → ∀ x, x ∈ l → Q (l.foldl step s) x := by
  intro l
  induction l with
  | nil => intro s _ x hx; cases hx
  | cons a rest ih =>
    intro s hs x hx
    cases hx with
    | head =>
      exact (@foldl_preserve σ ι step (fun s' => P s' ∧ Q s' a)
        (fun s' y hy => ⟨hP s' y hy.1, hpres s' y a hy.1 hy.2⟩)
        rest (step s a) ⟨hP s a hs, hest s a hs⟩).2
    | tail _ hmem => exact ih (step s a) (hP s a hs) x hmem

theorem refreshStep_topicProgress (now : String) (s : OnbState) (t : Topic) :
    (refreshStep now s t).topicProgress =
      s.topicProgress.set t (s.topicProgress.get t) := by
  unfold refreshStep
  dsimp only []
  repeat' split
  all_goals rfl

theorem refreshStep_completedAt_other (now : String) (s : OnbState) (x y : Topic)
    (h : x ≠ y) : (refreshStep now s x).completedAt.get y = s.completedAt.get y := by
  unfold refreshStep
  dsimp only []
  repeat' split
  all_goals first
    | rfl
    | exact TopicMap.get_set_ne s.completedAt x y _ h

theorem refreshStep_completedAt_self (now : String) (s : OnbState) (x : Topic)
    (stamp : String)
    (hs : (s.topicProgress.get x).status = .complete)
    (hc : (s.topicProgress.get x).completedAt = some stamp)
    (hne : stamp ≠ "") :
    (refreshStep now s x).completedAt.get x = some stamp := by
  unfold refreshStep
  dsimp only []
  rw [hs, if_pos rfl, hc]
  dsimp only []
  rw [if_pos hne]
  exact TopicMap.get_set_self _ x _

theorem refresh_topicProgress_base (st : OnbState) (now : String) :
    (TOPIC_ORDER.foldl (refreshStep now) st).topicProgress = st.topicProgress := by
  have hstep : ∀ (s : OnbState) (x : Topic), s.topicProgress = st.topicProgress →
      (refreshStep now s x).topicProgress = st.topicProgress := by
    intro s x hs
    rw [refreshStep_topicProgress, TopicMap.set_get]
    exact hs
  exact foldl_preserve hstep TOPIC_ORDER st rfl

theorem refresh_topicProgress (st : OnbState) (now : String) :
    (refresh_summary_fields st now).topicProgress = st.topicProgress := by
  unfold refresh_summary_fields
  exact refresh_topicProgress_base st now

theorem refresh_completedAt_base (st : OnbState) (now : String) (topic : Topic)
    (stamp : String)
    (hs : (st.topicProgress.get topic).status = .complete)
    (hc : (st.topicProgress.get topic).completedAt = some stamp)
    (hne : stamp ≠ "") :
    (TOPIC_ORDER.foldl (refreshStep now) st).completedAt.get topic = some stamp := by
  have hP : ∀ (s : OnbState) (x : Topic), s.topicProgress = st.topicProgress →
      (refreshStep now s x).topicProgress = st.topicProgress := by
    intro s x hsP
    rw [refreshStep_topicProgress, TopicMap.set_get]
    exact hsP
  have hest : ∀ (s : OnbState) (x : Topic), s.topicProgress = st.topicProgress →
      (x = topic → (refreshStep now s x).completedAt.get x = some stamp) := by
    intro s x hsP hx
    subst hx
    exact refreshStep_completedAt_self now s x stamp (by rw [hsP]; exact hs)
      (by rw [hsP]; exact hc) hne
  have hpres : ∀ (s : OnbState) (x y : Topic), s.topicProgress = st.topicProgress →
      (y = topic → s.completedAt.get y = some stamp) →
      (y = topic → (refreshStep now s x).completedAt.get y = some stamp) := by
    intro s x y hsP hq hy
    subst hy
    by_cases hxy : x = y
    · subst hxy
      exact refreshStep_completedAt_self now s x stamp (by rw [hsP]; exact hs)
        (by rw [hsP]; exact hc) hne
    · rw [refreshStep_completedAt_other now s x y hxy]
      exact hq rfl
  exact @foldl_pointwise_inv OnbState Topic (refreshStep now)
    (fun s => s.topicProgress = st.topicProgress)
    (fun s y => y = topic → s.completedAt.get y = some stamp)
    hP hest hpres TOPIC_ORDER st rfl topic (mem_TOPIC_ORDER topic) rfl

theorem refresh_completedAt_complete (st : OnbState) (now : String) (topic : Topic)
    (stamp : String)
    (hs : (st.topicProgress.get topic).status = .complete)
    (hc : (st.topicProgress.get topic).completedAt = some stamp)
    (hne : stamp ≠ "") :
    (refresh_summary_fields st now).completedAt.get topic = some stamp := by
  unfold refresh_summary_fields
  exact refresh_completedAt_base st now topic stamp hs hc hne

theorem appendTopicHistory_topicProgress (s : OnbState) (t : Topic) (e : String)
    (f g : Option TStatus) (d : Option String) (now : String) :
    (appendTopicHistory s t e f g d now).topicProgress = s.topicProgress := rfl

theorem appendTopicHistory_starterTopics (s : OnbState) (t : Topic) (e : String)
    (f g : Option TStatus) (d : Option String) (now : String) :
    (appendTopicHistory s t e f g d now).starterTopics = s.starterTopics := rfl

/-- **C10 counterexample**: on a library whose `finances` topic is
complete, `save_topic_onboarding_context` with an explicit `phase`
demotes the stored phase from `complete` to `opening` (status and
completion timestamp survive). -/
theorem c10_counterexample :
    (let d := defaultOnbState "2025-01-01T00:00:00+00:00"
     let vc : OnbState :=
       { d with
         starterTopics := d.starterTopics.set .finances .complete
         completedAt := d.completedAt.set .finances (some "2025-02-02T00:00:00+00:00")
         topicProgress := d.topicProgress.set .finances
           { defaultProgress "2025-01-01T00:00:00+00:00" with
             status := .complete
             phase := .complete
             completedAt := some "2025-02-02T00:00:00+00:00" } }
     let fsA : BootFS := ⟨[".braindrive"], [(onbStatePath, .onbJson vc)]⟩
     let fsB := run_save_context fsA .finances (some .opening) none none none []
       "2025-03-03T00:00:00+00:00"
     ((read_onboarding_state fsA "2025-04-04T00:00:00+00:00").topicProgress.get
        .finances).phase = .complete ∧
     ((read_onboarding_state fsA "2025-04-04T00:00:00+00:00").topicProgress.get
        .finances).status = .complete ∧
     ((read_onboarding_state fsB "2025-04-04T00:00:00+00:00").topicProgress.get
        .finances).phase = .opening ∧
     ((read_onboarding_state fsB "2025-04-04T00:00:00+00:00").topicProgress.get
        .finances).status = .complete ∧
     ((read_onboarding_state fsB "2025-04-04T00:00:00+00:00").topicProgress.get
        .finances).completedAt = some "2025-02-02T00:00:00+00:00") :=
  ⟨rfl, rfl, rfl, rfl, rfl⟩

/-- **C10 (amended)**: for a topic whose status is `complete` (with a
non-empty completion stamp), the state mutations of
`start_topic_onboarding` and `save_topic_onboarding_context` preserve
its status and completion timestamp; `start` also preserves its phase,
but `save` sets the phase to the request's `phase` field whenever one
is supplied (falling back to the stored phase only when the field is
absent) — completeness is not absorbing for the phase. -/
theorem c10_complete_topic_transitions (state : OnbState) (topic : Topic)
    (now : String) (phaseOpt : Option TPhase) (qi qt : Option Nat)
    (fd : Option String) (fut : List Topic) (stamp : String)
    (hstat : state.starterTopics.get topic = .complete)
    (hprog : (state.topicProgress.get topic).status = .complete)
    (hstamp : (state.topicProgress.get topic).completedAt = some stamp)
    (hne : stamp ≠ "") :
    ((start_topic_state_update state topic now).topicProgress.get topic).status =
      .complete ∧
    ((start_topic_state_update state topic now).topicProgress.get topic).phase =
      (state.topicProgress.get topic).phase ∧
    ((start_topic_state_update state topic now).topicProgress.get topic).completedAt =
      some stamp ∧
    (start_topic_state_update state topic now).completedAt.get topic = some stamp ∧
    ((save_context_state_update state topic phaseOpt qi qt fd fut
        now).topicProgress.get topic).status = .complete ∧
    ((save_context_state_update state topic phaseOpt qi qt fd fut
        now).topicProgress.get topic).phase =
      phaseOpt.getD (state.topicProgress.get topic).phase ∧
    ((save_context_state_update state topic phaseOpt qi qt fd fut
        now).topicProgress.get topic).completedAt = some stamp ∧
    (save_context_state_update state topic phaseOpt qi qt fd fut
        now).completedAt.get topic = some stamp := by
  unfold start_topic_state_update save_context_state_update
  simp only [hstat, ne_eq, not_true_eq_false, if_false, reduceIte]
  rw [refresh_topicProgress, refresh_topicProgress]
  rw [appendTopicHistory_topicProgress]
  rw [TopicMap.get_set_self, TopicMap.get_set_self]
  refine ⟨hprog, rfl, hstamp, ?_, hprog, rfl, hstamp, ?_⟩
  · exact refresh_completedAt_complete _ now topic stamp
      (by rw [TopicMap.get_set_self]; exact hprog)
      (by rw [TopicMap.get_set_self]; exact hstamp) hne
  · exact refresh_completedAt_complete _ now topic stamp
      (by rw [appendTopicHistory_topicProgress, TopicMap.get_set_self]; exact hprog)
      (by rw [appendTopicHistory_topicProgress, TopicMap.get_set_self]; exact hstamp) hne

/-- Witness for C10's amended invariant: a concrete state with a
complete `finances` topic keeps its status, phase and stamp under
`start`, and keeps status and stamp under `save` with an explicit
phase. -/
theorem c10_witness :
    (let d := defaultOnbState "2025-01-01T00:00:00+00:00"
     let vc : OnbState :=
       { d with
         starterTopics := d.starterTopics.set .finances .complete
         completedAt := d.completedAt.set .finances (some "2025-02-02T00:00:00+00:00")
         topicProgress := d.topicProgress.set .finances
           { defaultProgress "2025-01-01T00:00:00+00:00" with
             status := .complete
             phase := .complete
             completedAt := some "2025-02-02T00:00:00+00:00" } }
     vc.starterTopics.get .finances = .complete ∧
     ((start_topic_state_update vc .finances "2025-03-03T00:00:00+00:00").topicProgress.get
        .finances).status = .complete ∧
     ((start_topic_state_update vc .finances "2025-03-03T00:00:00+00:00").topicProgress.get
        .finances).phase = (vc.topicProgress.get .finances).phase ∧
     ((start_topic_state_update vc .finances "2025-03-03T00:00:00+00:00").topicProgress.get
        .finances).completedAt = some "2025-02-02T00:00:00+00:00" ∧
     (start_topic_state_update vc .finances "2025-03-03T00:00:00+00:00").completedAt.get
        .finances = some "2025-02-02T00:00:00+00:00" ∧
     ((save_context_state_update vc .finances (some .opening) none none none []
        "2025-03-03T00:00:00+00:00").topicProgress.get .finances).status = .complete ∧
     ((save_context_state_update vc .finances (some .opening) none none none []
        "2025-03-03T00:00:00+00:00").topicProgress.get .finances).phase =
       (some TPhase.opening).getD (vc.topicProgress.get .finances).phase ∧
     ((save_context_state_update vc .finances (some .opening) none none none []
        "2025-03-03T00:00:00+00:00").topicProgress.get .finances).completedAt =
       some "2025-02-02T00:00:00+00:00" ∧
     (save_context_state_update vc .finances (some .opening) none none none []
        "2025-03-03T00:00:00+00:00").completedAt.get .finances =
       some "2025-02-02T00:00:00+00:00") := by
  refine ⟨rfl, ?_⟩
  exact c10_complete_topic_transitions _ .finances "2025-03-03T00:00:00+00:00"
    (some .opening) none none none [] "2025-02-02T00:00:00+00:00"
    rfl rfl rfl (by decide)

/-! ### String, list and timestamp normalisation lemmas -/

theorem dropWhile_idem (p : Char → Bool) (l : List Char) :
    (l.dropWhile p).dropWhile p = l.dropWhile p := by
  induction l with
  | nil => rfl
  | cons x xs ih =>
    by_cases h : p x = true
    · simp [List.dropWhile_cons, h, ih]
    · simp [List.dropWhile_cons, h]

theorem head_dropWhile_false (p : Char → Bool) :
    ∀ (l : List Char) (y : Char) (t : List Char),
      l.dropWhile p = y :: t → p y = false := by
  intro l
  induction l with
  | nil => intro y t h; simp at h
  | cons x xs ih =>
    intro y t h
    by_cases hx : p x = true
    · rw [List.dropWhile_cons, if_pos hx] at h
      exact ih y t h
    · rw [List.dropWhile_cons, if_neg hx] at h
      cases h
      simpa using hx

theorem pyLstripL_idem (l : List Char) : pyLstripL (pyLstripL l) = pyLstripL l :=
  dropWhile_idem isPyWs l

theorem pyRstripL_idem (l : List Char) : pyRstripL (pyRstripL l) = pyRstripL l := by
  unfold pyRstripL
  rw [List.reverse_reverse, dropWhile_idem]

theorem pyRstripL_prefix (l : List Char) : pyRstripL l <+: l := by
  unfold pyRstripL
  rw [← List.reverse_reverse l]
  rw [List.reverse_prefix]
  rw [List.reverse_reverse l]
  exact List.dropWhile_suffix isPyWs

theorem pyLstripL_of_rstrip_lstrip (l : List Char) :
    pyLstripL (pyRstripL (pyLstripL l)) = pyRstripL (pyLstripL l) := by
  cases hx : pyRstripL (pyLstripL l) with
  | nil => rfl
  | cons y ys =>
    have hpre : pyRstripL (pyLstripL l) <+: pyLstripL l := pyRstripL_prefix _
    rw [hx] at hpre
    obtain ⟨tail, htail⟩ := hpre
    have hy : isPyWs y = false := by
      apply head_dropWhile_false isPyWs l y (ys ++ tail)
      unfold pyLstripL at htail
      rw [← htail]
      rfl
    unfold pyLstripL
    rw [List.dropWhile_cons, if_neg (by simp [hy])]

theorem pyStripL_idem (l : List Char) : pyStripL (pyStripL l) = pyStripL l := by
  unfold pyStripL
  rw [pyLstripL_of_rstrip_lstrip, pyRstripL_idem]

theorem pyStrip_idem (s : String) : pyStrip (pyStrip s) = pyStrip s := by
  unfold pyStrip
  exact congrArg String.mk (pyStripL_idem s.data)

theorem pyStrip_data (s : String) : (pyStrip s).data = pyStripL s.data := rfl

theorem normTimestampOpt_idem (o : Option String) :
    normTimestampOpt (normTimestampOpt o) = normTimestampOpt o := by
  cases o with
  | none => rfl
  | some s =>
    unfold normTimestampOpt
    dsimp only []
    by_cases h : pyStrip s = ""
    · rw [if_pos h]
    · rw [if_neg h]
      dsimp only []
      rw [pyStrip_idem, if_neg h]

theorem normTimestampOpt_now (now : String) (h1 : pyStrip now = now)
    (h2 : now ≠ "") : normTimestampOpt (some now) = some now := by
  show (if pyStrip now = "" then none else some (pyStrip now)) = some now
  rw [h1, if_neg h2]

theorem normTimestampOpt_ne_empty (s v : String)
    (h : normTimestampOpt (some s) = some v) : v ≠ "" := by
  unfold normTimestampOpt at h
  dsimp only [] at h
  by_cases hx : pyStrip s = ""
  · rw [if_pos hx] at h; cases h
  · rw [if_neg hx] at h
    simp only [Option.some.injEq] at h
    rw [← h]
    exact hx


theorem dedup_foldl_nodup :
    ∀ (l acc : List Topic), acc.Nodup →
      (l.foldl (fun acc t => if acc.contains t then acc else acc ++ [t]) acc).Nodup := by
  intro l
  induction l with
  | nil => intro acc h; exact h
  | cons x xs ih =>
    intro acc h
    simp only [List.foldl_cons]
    by_cases hx : acc.contains x = true
    · rw [if_pos hx]; exact ih acc h
    · rw [if_neg hx]
      apply ih
      simp only [List.contains, List.elem_iff] at hx
      simp [List.nodup_append, h, hx]

theorem dedup_foldl_of_disjoint :
    ∀ (l acc : List Topic), l.Nodup → (∀ x ∈ l, x ∉ acc) →
      l.foldl (fun acc t => if acc.contains t then acc else acc ++ [t]) acc = acc ++ l := by
  intro l
  induction l with
  | nil => intro acc _ _; simp
  | cons x xs ih =>
    intro acc hnd hdisj
    simp only [List.foldl_cons]
    have hx : ¬(acc.contains x = true) := by
      simp only [List.contains, List.elem_iff]
      exact hdisj x (List.mem_cons_self x xs)
    rw [if_neg hx]
    rw [ih (acc ++ [x]) (List.Nodup.of_cons hnd) ?_]
    · simp
    · intro y hy
      simp only [List.mem_append, List.mem_singleton]
      rintro (hya | rfl)
      · exact hdisj y (List.mem_cons_of_mem x hy) hya
      · exact (List.nodup_cons.mp hnd).1 hy

theorem dedupTopics_nodup (l : List Topic) : (dedupTopics l).Nodup :=
  dedup_foldl_nodup l [] List.nodup_nil

theorem dedupTopics_of_nodup (l : List Topic) (h : l.Nodup) : dedupTopics l = l := by
  unfold dedupTopics
  rw [dedup_foldl_of_disjoint l [] h (by intro x _; simp)]
  simp

theorem dedupTopics_idem (l : List Topic) :
    dedupTopics (dedupTopics l) = dedupTopics l :=
  dedupTopics_of_nodup _ (dedupTopics_nodup l)

theorem dedup_foldl_length :
    ∀ (l acc : List Topic), acc.length ≤
      (l.foldl (fun acc t => if acc.contains t then acc else acc ++ [t]) acc).length := by
  intro l
  induction l with
  | nil => intro acc; exact Nat.le_refl _
  | cons x xs ih =>
    intro acc
    simp only [List.foldl_cons]
    by_cases hx : acc.contains x = true
    · rw [if_pos hx]; exact ih acc
    · rw [if_neg hx]
      calc acc.length ≤ (acc ++ [x]).length := by simp
        _ ≤ _ := ih (acc ++ [x])

theorem dedupTopics_ne_nil (l : List Topic) (h : l ≠ []) : dedupTopics l ≠ [] := by
  unfold dedupTopics
  cases l with
  | nil => exact absurd rfl h
  | cons x xs =>
    intro hc
    have hlen := dedup_foldl_length xs [x]
    rw [show ((x :: xs).foldl (fun acc t => if acc.contains t then acc else acc ++ [t]) [])
        = xs.foldl (fun acc t => if acc.contains t then acc else acc ++ [t]) [x] from by
      simp] at hc
    rw [hc] at hlen
    simp at hlen

theorem lastN_length_le {α : Type} (n : Nat) (l : List α) :
    (lastN n l).length ≤ n := by
  unfold lastN
  rw [List.length_drop]
  omega

theorem lastN_of_length_le {α : Type} (n : Nat) (l : List α) (h : l.length ≤ n) :
    lastN n l = l := by
  unfold lastN
  rw [show l.length - n = 0 from by omega]
  rfl

theorem mem_lastN {α : Type} (n : Nat) (l : List α) (x : α) (h : x ∈ lastN n l) :
    x ∈ l :=
  List.drop_subset _ l h

theorem filterMap_self {α : Type} (f : α → Option α) (l : List α)
    (h : ∀ e ∈ l, f e = some e) : l.filterMap f = l := by
  induction l with
  | nil => rfl
  | cons x xs ih =>
    rw [List.filterMap_cons, h x (List.mem_cons_self x xs)]
    rw [ih (fun e he => h e (List.mem_cons_of_mem x he))]

theorem normHistEntry_idem (e e' : HistEntry) (h : normHistEntry e = some e') :
    normHistEntry e' = some e' := by
  unfold normHistEntry at h
  by_cases h1 : pyStrip e.event = ""
  · rw [if_pos h1] at h; cases h
  · rw [if_neg h1] at h
    cases hts : normTimestampOpt (some e.atUtc) with
    | none => rw [hts] at h; cases h
    | some ts =>
      rw [hts] at h
      simp only [Option.some.injEq] at h
      subst h
      have hts2 : normTimestampOpt (some ts) = some ts := by
        have hidem := normTimestampOpt_idem (some e.atUtc)
        rw [hts] at hidem
        exact hidem
      unfold normHistEntry
      dsimp only []
      rw [pyStrip_idem]
      rw [if_neg h1]
      rw [hts2]
      refine congrArg some ?_
      refine congrArg (fun d => HistEntry.mk (pyStrip e.event) e.topic ts
        e.fromStatus e.toStatus d) ?_
      cases hd : e.detail with
      | none => rfl
      | some d =>
        dsimp only []
        by_cases hde : pyStrip d ≠ ""
        · rw [if_pos hde]
          dsimp only []
          rw [pyStrip_idem]
          rw [if_pos hde]
        · rw [if_neg hde]

theorem OnbState.ext_fields {a b : OnbState}
    (h1 : a.version = b.version) (h2 : a.starterTopics = b.starterTopics)
    (h3 : a.completedAt = b.completedAt) (h4 : a.createdAt = b.createdAt)
    (h5 : a.updatedAt = b.updatedAt) (h6 : a.activeTopic = b.activeTopic)
    (h7 : a.topicQueue = b.topicQueue)
    (h8 : a.recommendedNextTopic = b.recommendedNextTopic)
    (h9 : a.topicProgress = b.topicProgress)
    (h10 : a.topicHistory = b.topicHistory) : a = b := by
  cases a; cases b
  simp only [] at h1 h2 h3 h4 h5 h6 h7 h8 h9 h10
  simp [h1, h2, h3, h4, h5, h6, h7, h8, h9, h10]

theorem persistMerge_version (M inc : OnbState) :
    (persistMerge M inc).version = inc.version := by
  unfold persistMerge
  dsimp only []
  repeat' split
  all_goals rfl

theorem persistMerge_createdAt (M inc : OnbState) :
    (persistMerge M inc).createdAt =
      (match normTimestampOpt (some inc.createdAt) with
       | some v => v
       | none => M.createdAt) := by
  unfold persistMerge
  dsimp only []
  repeat' split
  all_goals rfl

theorem persistMerge_updatedAt (M inc : OnbState) :
    (persistMerge M inc).updatedAt =
      (match normTimestampOpt (some inc.updatedAt) with
       | some v => v
       | none => M.updatedAt) := by
  unfold persistMerge
  dsimp only []
  repeat' split
  all_goals rfl

theorem persistMerge_starterTopics (M inc : OnbState) :
    (persistMerge M inc).starterTopics =
      mapTopics (fun t => (inc.topicProgress.get t).status) := by
  unfold persistMerge
  dsimp only []
  repeat' split
  all_goals rfl

theorem persistMerge_topicProgress (M inc : OnbState) :
    (persistMerge M inc).topicProgress =
      mapTopics (fun t =>
        mergePersistProgress
          { M.topicProgress.get t with status := inc.starterTopics.get t }
          (inc.topicProgress.get t)) := by
  unfold persistMerge
  dsimp only []
  repeat' split
  all_goals
    refine congrArg mapTopics (funext fun t => ?_)
  all_goals rw [TopicMap.get_mapTopics]

theorem persistMerge_completedAt (M inc : OnbState) :
    (persistMerge M inc).completedAt = inc.completedAt := by
  unfold persistMerge
  dsimp only []
  repeat' split
  all_goals rfl

theorem persistMerge_activeTopic (M inc : OnbState) :
    (persistMerge M inc).activeTopic = inc.activeTopic := by
  unfold persistMerge
  dsimp only []
  repeat' split
  all_goals rfl

theorem persistMerge_topicQueue (M inc : OnbState) :
    (persistMerge M inc).topicQueue =
      (if (dedupTopics inc.topicQueue).isEmpty then M.topicQueue
       else dedupTopics inc.topicQueue) := by
  unfold persistMerge
  dsimp only []
  repeat' split
  all_goals rfl

theorem persistMerge_recommended (M inc : OnbState) :
    (persistMerge M inc).recommendedNextTopic = inc.recommendedNextTopic := by
  unfold persistMerge
  dsimp only []
  repeat' split
  all_goals rfl

theorem persistMerge_topicHistory (M inc : OnbState) :
    (persistMerge M inc).topicHistory =
      lastN 200 (inc.topicHistory.filterMap normHistEntry) := by
  unfold persistMerge
  dsimp only []
  repeat' split
  all_goals rfl


theorem persistSyncStep_version (now : String) (s : OnbState) (t : Topic) :
    (persistSyncStep now s t).version = s.version := by
  unfold persistSyncStep
  repeat' split
  all_goals rfl

theorem persistSyncStep_starterTopics (now : String) (s : OnbState) (t : Topic) :
    (persistSyncStep now s t).starterTopics = s.starterTopics := by
  unfold persistSyncStep
  repeat' split
  all_goals rfl

theorem persistSyncStep_createdAt (now : String) (s : OnbState) (t : Topic) :
    (persistSyncStep now s t).createdAt = s.createdAt := by
  unfold persistSyncStep
  repeat' split
  all_goals rfl

theorem persistSyncStep_updatedAt (now : String) (s : OnbState) (t : Topic) :
    (persistSyncStep now s t).updatedAt = s.updatedAt := by
  unfold persistSyncStep
  repeat' split
  all_goals rfl

theorem persistSyncStep_activeTopic (now : String) (s : OnbState) (t : Topic) :
    (persistSyncStep now s t).activeTopic = s.activeTopic := by
  unfold persistSyncStep
  repeat' split
  all_goals rfl

theorem persistSyncStep_topicQueue (now : String) (s : OnbState) (t : Topic) :
    (persistSyncStep now s t).topicQueue = s.topicQueue := by
  unfold persistSyncStep
  repeat' split
  all_goals rfl

theorem persistSyncStep_recommended (now : String) (s : OnbState) (t : Topic) :
    (persistSyncStep now s t).recommendedNextTopic = s.recommendedNextTopic := by
  unfold persistSyncStep
  repeat' split
  all_goals rfl

theorem persistSyncStep_topicHistory (now : String) (s : OnbState) (t : Topic) :
    (persistSyncStep now s t).topicHistory = s.topicHistory := by
  unfold persistSyncStep
  repeat' split
  all_goals rfl

theorem persistSyncStep_progress_shape (now : String) (s : OnbState) (t y : Topic) :
    (persistSyncStep now s t).topicProgress.get y = s.topicProgress.get y ∨
    (persistSyncStep now s t).topicProgress.get y =
      { s.topicProgress.get y with completedAt := none } := by
  by_cases hy : t = y
  · subst hy
    unfold persistSyncStep
    repeat' split
    all_goals first
      | exact Or.inl rfl
      | exact Or.inr (TopicMap.get_set_self _ t _)
  · unfold persistSyncStep
    repeat' split
    all_goals first
      | exact Or.inl rfl
      | exact Or.inl (TopicMap.get_set_ne _ t y _ hy)

theorem persistSyncStep_completedAt_other (now : String) (s : OnbState) (t y : Topic)
    (h : t ≠ y) :
    (persistSyncStep now s t).completedAt.get y = s.completedAt.get y := by
  unfold persistSyncStep
  repeat' split
  all_goals first
    | rfl
    | exact TopicMap.get_set_ne _ t y _ h

theorem readSyncStep_topicProgress (s : OnbState) (t : Topic) :
    (readSyncStep s t).topicProgress = s.topicProgress := by
  unfold readSyncStep
  repeat' split
  all_goals rfl

theorem readSyncStep_starterTopics (s : OnbState) (t : Topic) :
    (readSyncStep s t).starterTopics = s.starterTopics := by
  unfold readSyncStep
  repeat' split
  all_goals rfl

theorem readSyncStep_version (s : OnbState) (t : Topic) :
    (readSyncStep s t).version = s.version := by
  unfold readSyncStep
  repeat' split
  all_goals rfl

theorem readSyncStep_createdAt (s : OnbState) (t : Topic) :
    (readSyncStep s t).createdAt = s.createdAt := by
  unfold readSyncStep
  repeat' split
  all_goals rfl

theorem readSyncStep_updatedAt (s : OnbState) (t : Topic) :
    (readSyncStep s t).updatedAt = s.updatedAt := by
  unfold readSyncStep
  repeat' split
  all_goals rfl

theorem readSyncStep_activeTopic (s : OnbState) (t : Topic) :
    (readSyncStep s t).activeTopic = s.activeTopic := by
  unfold readSyncStep
  repeat' split
  all_goals rfl

theorem readSyncStep_topicQueue (s : OnbState) (t : Topic) :
    (readSyncStep s t).topicQueue = s.topicQueue := by
  unfold readSyncStep
  repeat' split
  all_goals rfl

theorem readSyncStep_recommended (s : OnbState) (t : Topic) :
    (readSyncStep s t).recommendedNextTopic = s.recommendedNextTopic := by
  unfold readSyncStep
  repeat' split
  all_goals rfl

theorem readSyncStep_topicHistory (s : OnbState) (t : Topic) :
    (readSyncStep s t).topicHistory = s.topicHistory := by
  unfold readSyncStep
  repeat' split
  all_goals rfl

theorem persistFinalize_updatedAt (s : OnbState) (now : String) :
    (persistFinalize s now).updatedAt = now := by
  unfold persistFinalize
  dsimp only []
  by_cases hc : s.createdAt = ""
  · rw [if_pos hc]
    repeat' split
    all_goals first | rfl | simp_all
  · rw [if_neg hc]
    repeat' split
    all_goals first | rfl | simp_all

theorem persistFinalize_completedAt (s : OnbState) (now : String) :
    (persistFinalize s now).completedAt = s.completedAt := by
  unfold persistFinalize
  dsimp only []
  by_cases hc : s.createdAt = ""
  · rw [if_pos hc]
    repeat' split
    all_goals first | rfl | simp_all
  · rw [if_neg hc]
    repeat' split
    all_goals first | rfl | simp_all

theorem persistFinalize_topicProgress (s : OnbState) (now : String) :
    (persistFinalize s now).topicProgress = s.topicProgress := by
  unfold persistFinalize
  dsimp only []
  by_cases hc : s.createdAt = ""
  · rw [if_pos hc]
    repeat' split
    all_goals first | rfl | simp_all
  · rw [if_neg hc]
    repeat' split
    all_goals first | rfl | simp_all

theorem persistFinalize_starterTopics (s : OnbState) (now : String) :
    (persistFinalize s now).starterTopics = s.starterTopics := by
  unfold persistFinalize
  dsimp only []
  by_cases hc : s.createdAt = ""
  · rw [if_pos hc]
    repeat' split
    all_goals first | rfl | simp_all
  · rw [if_neg hc]
    repeat' split
    all_goals first | rfl | simp_all

theorem persistFinalize_topicHistory (s : OnbState) (now : String) :
    (persistFinalize s now).topicHistory = s.topicHistory := by
  unfold persistFinalize
  dsimp only []
  by_cases hc : s.createdAt = ""
  · rw [if_pos hc]
    repeat' split
    all_goals first | rfl | simp_all
  · rw [if_neg hc]
    repeat' split
    all_goals first | rfl | simp_all

theorem persistFinalize_activeTopic (s : OnbState) (now : String) :
    (persistFinalize s now).activeTopic = s.activeTopic := by
  unfold persistFinalize
  dsimp only []
  by_cases hc : s.createdAt = ""
  · rw [if_pos hc]
    repeat' split
    all_goals first | rfl | simp_all
  · rw [if_neg hc]
    repeat' split
    all_goals first | rfl | simp_all

theorem persistFinalize_version (s : OnbState) (now : String) :
    (persistFinalize s now).version = s.version := by
  unfold persistFinalize
  dsimp only []
  by_cases hc : s.createdAt = ""
  · rw [if_pos hc]
    repeat' split
    all_goals first | rfl | simp_all
  · rw [if_neg hc]
    repeat' split
    all_goals first | rfl | simp_all

theorem persistFinalize_createdAt (s : OnbState) (now : String) :
    (persistFinalize s now).createdAt =
      (if s.createdAt = "" then now else s.createdAt) := by
  unfold persistFinalize
  dsimp only []
  by_cases hc : s.createdAt = ""
  · rw [if_pos hc]
    repeat' split
    all_goals first | rfl | simp_all
  · rw [if_neg hc]
    repeat' split
    all_goals first | rfl | simp_all

theorem persistFinalize_topicQueue (s : OnbState) (now : String) :
    (persistFinalize s now).topicQueue =
      (if s.topicQueue.isEmpty then TOPIC_ORDER else s.topicQueue) := by
  unfold persistFinalize
  dsimp only []
  by_cases hc : s.createdAt = ""
  · rw [if_pos hc]
    repeat' split
    all_goals first | rfl | simp_all
  · rw [if_neg hc]
    repeat' split
    all_goals first | rfl | simp_all

theorem persistFinalize_rec_of_some (s : OnbState) (now : String) (t : Topic)
    (h : s.recommendedNextTopic = some t) :
    (persistFinalize s now).recommendedNextTopic = some t := by
  unfold persistFinalize
  dsimp only []
  by_cases hc : s.createdAt = ""
  · rw [if_pos hc]
    repeat' split
    all_goals simp_all
  · rw [if_neg hc]
    repeat' split
    all_goals simp_all

theorem readSyncCompleted_topicProgress (s : OnbState) :
    (readSyncCompleted s).topicProgress = s.topicProgress := by
  have h : ∀ (x : OnbState) (t : Topic), x.topicProgress = s.topicProgress →
      (readSyncStep x t).topicProgress = s.topicProgress := by
    intro x t hx
    rw [readSyncStep_topicProgress]
    exact hx
  exact foldl_preserve h TOPIC_ORDER s rfl

theorem readSyncCompleted_starterTopics (s : OnbState) :
    (readSyncCompleted s).starterTopics = s.starterTopics := by
  have h : ∀ (x : OnbState) (t : Topic), x.starterTopics = s.starterTopics →
      (readSyncStep x t).starterTopics = s.starterTopics := by
    intro x t hx
    rw [readSyncStep_starterTopics]
    exact hx
  exact foldl_preserve h TOPIC_ORDER s rfl

theorem readSyncCompleted_topicQueue (s : OnbState) :
    (readSyncCompleted s).topicQueue = s.topicQueue := by
  have h : ∀ (x : OnbState) (t : Topic), x.topicQueue = s.topicQueue →
      (readSyncStep x t).topicQueue = s.topicQueue := by
    intro x t hx
    rw [readSyncStep_topicQueue]
    exact hx
  exact foldl_preserve h TOPIC_ORDER s rfl

theorem readSyncCompleted_recommended (s : OnbState) :
    (readSyncCompleted s).recommendedNextTopic = s.recommendedNextTopic := by
  have h : ∀ (x : OnbState) (t : Topic),
      x.recommendedNextTopic = s.recommendedNextTopic →
      (readSyncStep x t).recommendedNextTopic = s.recommendedNextTopic := by
    intro x t hx
    rw [readSyncStep_recommended]
    exact hx
  exact foldl_preserve h TOPIC_ORDER s rfl

theorem readSyncCompleted_createdAt (s : OnbState) :
    (readSyncCompleted s).createdAt = s.createdAt := by
  have h : ∀ (x : OnbState) (t : Topic), x.createdAt = s.createdAt →
      (readSyncStep x t).createdAt = s.createdAt := by
    intro x t hx
    rw [readSyncStep_createdAt]
    exact hx
  exact foldl_preserve h TOPIC_ORDER s rfl

theorem readSyncCompleted_updatedAt (s : OnbState) :
    (readSyncCompleted s).updatedAt = s.updatedAt := by
  have h : ∀ (x : OnbState) (t : Topic), x.updatedAt = s.updatedAt →
      (readSyncStep x t).updatedAt = s.updatedAt := by
    intro x t hx
    rw [readSyncStep_updatedAt]
    exact hx
  exact foldl_preserve h TOPIC_ORDER s rfl

theorem readSyncCompleted_topicHistory (s : OnbState) :
    (readSyncCompleted s).topicHistory = s.topicHistory := by
  have h : ∀ (x : OnbState) (t : Topic), x.topicHistory = s.topicHistory →
      (readSyncStep x t).topicHistory = s.topicHistory := by
    intro x t hx
    rw [readSyncStep_topicHistory]
    exact hx
  exact foldl_preserve h TOPIC_ORDER s rfl

theorem normalizeOnbRead_proj {β : Type} (f : OnbState → β) (raw : OnbState)
    (now : String)
    (hsync : ∀ s, f (readSyncCompleted s) = f s)
    (hrec : ∀ s v, f { s with recommendedNextTopic := v } = f s)
    (hqueue : ∀ s v, f { s with topicQueue := v } = f s) :
    f (normalizeOnbRead raw now) = f (normalizeOnbReadBase raw now) := by
  unfold normalizeOnbRead
  dsimp only []
  rw [← hsync (normalizeOnbReadBase raw now)]
  generalize readSyncCompleted (normalizeOnbReadBase raw now) = st
  repeat' split
  all_goals first
    | rfl
    | exact hqueue _ _
    | exact hrec _ _
    | rw [hqueue, hrec]

set_option maxRecDepth 4096 in
theorem normalizeOnbRead_topicProgress (raw : OnbState) (now : String) :
    (normalizeOnbRead raw now).topicProgress =
      mapTopics (fun t => mergeReadProgress (raw.topicProgress.get t) now) :=
  (normalizeOnbRead_proj (fun s => s.topicProgress) raw now
    readSyncCompleted_topicProgress (fun _ _ => rfl) (fun _ _ => rfl))

set_option maxRecDepth 4096 in
theorem normalizeOnbRead_starterTopics (raw : OnbState) (now : String) :
    (normalizeOnbRead raw now).starterTopics =
      mapTopics (fun t => (raw.topicProgress.get t).status) :=
  (normalizeOnbRead_proj (fun s => s.starterTopics) raw now
    readSyncCompleted_starterTopics (fun _ _ => rfl) (fun _ _ => rfl))

set_option maxRecDepth 4096 in
theorem normalizeOnbRead_createdAt (raw : OnbState) (now : String) :
    (normalizeOnbRead raw now).createdAt =
      (normTimestampOpt (some raw.createdAt)).getD now :=
  (normalizeOnbRead_proj (fun s => s.createdAt) raw now
    readSyncCompleted_createdAt (fun _ _ => rfl) (fun _ _ => rfl))

set_option maxRecDepth 4096 in
theorem normalizeOnbRead_updatedAt (raw : OnbState) (now : String) :
    (normalizeOnbRead raw now).updatedAt =
      (normTimestampOpt (some raw.updatedAt)).getD now :=
  (normalizeOnbRead_proj (fun s => s.updatedAt) raw now
    readSyncCompleted_updatedAt (fun _ _ => rfl) (fun _ _ => rfl))

set_option maxRecDepth 4096 in
theorem normalizeOnbRead_topicHistory (raw : OnbState) (now : String) :
    (normalizeOnbRead raw now).topicHistory =
      lastN 200 (raw.topicHistory.filterMap normHistEntry) :=
  (normalizeOnbRead_proj (fun s => s.topicHistory) raw now
    readSyncCompleted_topicHistory (fun _ _ => rfl) (fun _ _ => rfl))

theorem normalizeOnbReadBase_queue_norm (raw : OnbState) (now : String) :
    dedupTopics (normalizeOnbReadBase raw now).topicQueue =
      (normalizeOnbReadBase raw now).topicQueue ∧
    (normalizeOnbReadBase raw now).topicQueue ≠ [] := by
  unfold normalizeOnbReadBase
  dsimp only []
  split
  · exact ⟨show dedupTopics TOPIC_ORDER = TOPIC_ORDER by decide,
      show (TOPIC_ORDER : List Topic) ≠ [] by decide⟩
  · rename_i hq
    refine ⟨dedupTopics_idem _, ?_⟩
    intro hc
    rw [hc] at hq
    simp at hq

theorem normalizeOnbRead_queue_norm (raw : OnbState) (now : String) :
    dedupTopics (normalizeOnbRead raw now).topicQueue =
      (normalizeOnbRead raw now).topicQueue ∧
    (normalizeOnbRead raw now).topicQueue ≠ [] := by
  unfold normalizeOnbRead
  dsimp only []
  repeat' split
  all_goals simp only [readSyncCompleted_topicQueue]
  all_goals first
    | exact ⟨show dedupTopics TOPIC_ORDER = TOPIC_ORDER by decide,
        show (TOPIC_ORDER : List Topic) ≠ [] by decide⟩
    | exact normalizeOnbReadBase_queue_norm raw now

theorem normalizeOnbReadBase_rec_isSome (raw : OnbState) (now : String) :
    (normalizeOnbReadBase raw now).recommendedNextTopic.isSome = true := by
  unfold normalizeOnbReadBase
  dsimp only []
  cases raw.recommendedNextTopic <;> rfl

theorem normalizeOnbRead_rec_isSome (raw : OnbState) (now : String) :
    (normalizeOnbRead raw now).recommendedNextTopic.isSome = true := by
  have hbase := normalizeOnbReadBase_rec_isSome raw now
  unfold normalizeOnbRead
  dsimp only []
  cases hrec : (readSyncCompleted (normalizeOnbReadBase raw now)).recommendedNextTopic with
  | none =>
    rw [readSyncCompleted_recommended] at hrec
    rw [hrec] at hbase
    simp at hbase
  | some t =>
    simp only [hrec]
    split
    · simp [hrec]
    · rw [hrec]
      rfl

theorem progNorm_defaultProgress (now : String) (h1 : pyStrip now = now)
    (h2 : now ≠ "") : progNorm (defaultProgress now) := by
  unfold progNorm defaultProgress
  refine ⟨rfl, rfl, rfl, rfl, ?_, rfl⟩
  exact normTimestampOpt_now now h1 h2

theorem mergeReadProgress_norm (p : TopicProgress) (now : String)
    (hp : progNorm p) : mergeReadProgress p now = p := by
  obtain ⟨h1, h2, h3, h4, h5, h6⟩ := hp
  unfold mergeReadProgress
  rw [h1, h2, h3, h4, h5, h6]
  simp only [Option.getD_some]

theorem normTs_getD_now_norm (s now : String) (hn1 : pyStrip now = now)
    (hn2 : now ≠ "") :
    normTimestampOpt (some ((normTimestampOpt (some s)).getD now)) =
      some ((normTimestampOpt (some s)).getD now) := by
  cases hn : normTimestampOpt (some s) with
  | none =>
    simp only [Option.getD_none]
    exact normTimestampOpt_now now hn1 hn2
  | some v =>
    simp only [Option.getD_some]
    have := normTimestampOpt_idem (some s)
    rw [hn] at this
    exact this

theorem optTsNorm_normTs (o : Option String) :
    normTimestampOpt (normTimestampOpt o) = normTimestampOpt o :=
  normTimestampOpt_idem o

theorem progNorm_mergeReadProgress (raw : TopicProgress) (now : String)
    (h1 : pyStrip now = now) (h2 : now ≠ "") :
    progNorm (mergeReadProgress raw now) := by
  unfold progNorm mergeReadProgress
  refine ⟨normTimestampOpt_idem _, normTimestampOpt_idem _, normTimestampOpt_idem _,
    normTimestampOpt_idem _, ?_, dedupTopics_idem _⟩
  exact normTs_getD_now_norm raw.lastUpdatedAt now h1 h2

theorem mergePersistProgress_self (p : TopicProgress) (hp : progNorm p) :
    mergePersistProgress p p = p := by
  obtain ⟨h1, h2, h3, h4, h5, h6⟩ := hp
  have hopt : ∀ (o : Option String),
      (match o with | some v => some v | none => o) = o := by
    intro o; cases o <;> rfl
  unfold mergePersistProgress
  rw [h1, h2, h3, h4, h5, h6]
  rw [hopt, hopt, hopt, hopt]
  simp only [Option.getD_some]


theorem normTs_getD_norm (s d : String)
    (hd : normTimestampOpt (some d) = some d) :
    normTimestampOpt (some ((normTimestampOpt (some s)).getD d)) =
      some ((normTimestampOpt (some s)).getD d) := by
  cases hn : normTimestampOpt (some s) with
  | none => simpa using hd
  | some v =>
    simp only [Option.getD_some]
    have hidem := normTimestampOpt_idem (some s)
    rw [hn] at hidem
    exact hidem

theorem optTsNorm_match (o : Option String) (t : Option String)
    (ht : normTimestampOpt t = t) :
    normTimestampOpt
        (match normTimestampOpt o with | some v => some v | none => t) =
      (match normTimestampOpt o with | some v => some v | none => t) := by
  cases hn : normTimestampOpt o with
  | none => exact ht
  | some v =>
    have hidem := normTimestampOpt_idem o
    rw [hn] at hidem
    exact hidem

theorem progNorm_mergePersistProgress (target inc : TopicProgress)
    (ht : progNorm target) : progNorm (mergePersistProgress target inc) := by
  obtain ⟨t1, t2, t3, t4, t5, t6⟩ := ht
  unfold progNorm mergePersistProgress
  dsimp only []
  refine ⟨?_, ?_, ?_, ?_, ?_, ?_⟩
  · exact optTsNorm_match inc.startedAt target.startedAt t1
  · exact optTsNorm_match inc.lastInterviewAt target.lastInterviewAt t2
  · exact optTsNorm_match inc.completedAt target.completedAt t3
  · exact optTsNorm_match inc.nextFollowupDueAt target.nextFollowupDueAt t4
  · exact normTs_getD_norm inc.lastUpdatedAt target.lastUpdatedAt t5
  · exact dedupTopics_idem _

theorem read_progNorm (fs : BootFS) (now : String) (h1 : pyStrip now = now)
    (h2 : now ≠ "") (t : Topic) :
    progNorm ((read_onboarding_state fs now).topicProgress.get t) := by
  unfold read_onboarding_state
  split
  · rw [normalizeOnbRead_topicProgress, TopicMap.get_mapTopics]
    exact progNorm_mergeReadProgress _ now h1 h2
  · cases t <;> exact progNorm_defaultProgress now h1 h2

theorem read_createdAt_norm (fs : BootFS) (now : String) (h1 : pyStrip now = now)
    (h2 : now ≠ "") :
    normTimestampOpt (some (read_onboarding_state fs now).createdAt) =
      some (read_onboarding_state fs now).createdAt := by
  unfold read_onboarding_state
  split
  · rw [normalizeOnbRead_createdAt]
    exact normTs_getD_now_norm _ now h1 h2
  · exact normTimestampOpt_now now h1 h2

theorem read_queue_norm (fs : BootFS) (now : String) :
    dedupTopics (read_onboarding_state fs now).topicQueue =
      (read_onboarding_state fs now).topicQueue ∧
    (read_onboarding_state fs now).topicQueue ≠ [] := by
  unfold read_onboarding_state
  split
  · exact normalizeOnbRead_queue_norm _ now
  · exact ⟨show dedupTopics TOPIC_ORDER = TOPIC_ORDER by decide,
      show (TOPIC_ORDER : List Topic) ≠ [] by decide⟩

theorem read_rec_isSome (fs : BootFS) (now : String) :
    (read_onboarding_state fs now).recommendedNextTopic.isSome = true := by
  unfold read_onboarding_state
  split
  · exact normalizeOnbRead_rec_isSome _ now
  · rfl

theorem read_hist_norm (fs : BootFS) (now : String) :
    (∀ e ∈ (read_onboarding_state fs now).topicHistory,
      normHistEntry e = some e) ∧
    (read_onboarding_state fs now).topicHistory.length ≤ 200 := by
  unfold read_onboarding_state
  split
  · rw [normalizeOnbRead_topicHistory]
    constructor
    · intro e he
      obtain ⟨a, ha, hfa⟩ := List.mem_filterMap.mp (mem_lastN _ _ _ he)
      exact normHistEntry_idem a e hfa
    · exact lastN_length_le _ _
  · constructor
    · intro e he
      simp [defaultOnbState] at he
    · show ([] : List HistEntry).length ≤ 200
      simp

theorem isEmpty_false_of_ne_nil {α : Type} {l : List α} (h : l ≠ []) :
    l.isEmpty = false := by
  cases l with
  | nil => exact absurd rfl h
  | cons x xs => rfl

theorem normTs_self_ne_empty (c : String)
    (h : normTimestampOpt (some c) = some c) : c ≠ "" := by
  intro hc
  subst hc
  rw [show normTimestampOpt (some "") = none from rfl] at h
  cases h

theorem persistSyncCompleted_starterTopics (s : OnbState) (now : String) :
    (persistSyncCompleted s now).starterTopics = s.starterTopics := by
  have h : ∀ (x : OnbState) (t : Topic), x.starterTopics = s.starterTopics →
      (persistSyncStep now x t).starterTopics = s.starterTopics := by
    intro x t hx
    rw [persistSyncStep_starterTopics]
    exact hx
  exact foldl_preserve h TOPIC_ORDER s rfl

theorem persistSyncCompleted_version (s : OnbState) (now : String) :
    (persistSyncCompleted s now).version = s.version := by
  have h : ∀ (x : OnbState) (t : Topic), x.version = s.version →
      (persistSyncStep now x t).version = s.version := by
    intro x t hx
    rw [persistSyncStep_version]
    exact hx
  exact foldl_preserve h TOPIC_ORDER s rfl

theorem persistSyncCompleted_createdAt (s : OnbState) (now : String) :
    (persistSyncCompleted s now).createdAt = s.createdAt := by
  have h : ∀ (x : OnbState) (t : Topic), x.createdAt = s.createdAt →
      (persistSyncStep now x t).createdAt = s.createdAt := by
    intro x t hx
    rw [persistSyncStep_createdAt]
    exact hx
  exact foldl_preserve h TOPIC_ORDER s rfl

theorem persistSyncCompleted_updatedAt (s : OnbState) (now : String) :
    (persistSyncCompleted s now).updatedAt = s.updatedAt := by
  have h : ∀ (x : OnbState) (t : Topic), x.updatedAt = s.updatedAt →
      (persistSyncStep now x t).updatedAt = s.updatedAt := by
    intro x t hx
    rw [persistSyncStep_updatedAt]
    exact hx
  exact foldl_preserve h TOPIC_ORDER s rfl

theorem persistSyncCompleted_activeTopic (s : OnbState) (now : String) :
    (persistSyncCompleted s now).activeTopic = s.activeTopic := by
  have h : ∀ (x : OnbState) (t : Topic), x.activeTopic = s.activeTopic →
      (persistSyncStep now x t).activeTopic = s.activeTopic := by
    intro x t hx
    rw [persistSyncStep_activeTopic]
    exact hx
  exact foldl_preserve h TOPIC_ORDER s rfl

theorem persistSyncCompleted_topicQueue (s : OnbState) (now : String) :
    (persistSyncCompleted s now).topicQueue = s.topicQueue := by
  have h : ∀ (x : OnbState) (t : Topic), x.topicQueue = s.topicQueue →
      (persistSyncStep now x t).topicQueue = s.topicQueue := by
    intro x t hx
    rw [persistSyncStep_topicQueue]
    exact hx
  exact foldl_preserve h TOPIC_ORDER s rfl

theorem persistSyncCompleted_recommended (s : OnbState) (now : String) :
    (persistSyncCompleted s now).recommendedNextTopic = s.recommendedNextTopic := by
  have h : ∀ (x : OnbState) (t : Topic),
      x.recommendedNextTopic = s.recommendedNextTopic →
      (persistSyncStep now x t).recommendedNextTopic = s.recommendedNextTopic := by
    intro x t hx
    rw [persistSyncStep_recommended]
    exact hx
  exact foldl_preserve h TOPIC_ORDER s rfl

theorem persistSyncCompleted_topicHistory (s : OnbState) (now : String) :
    (persistSyncCompleted s now).topicHistory = s.topicHistory := by
  have h : ∀ (x : OnbState) (t : Topic), x.topicHistory = s.topicHistory →
      (persistSyncStep now x t).topicHistory = s.topicHistory := by
    intro x t hx
    rw [persistSyncStep_topicHistory]
    exact hx
  exact foldl_preserve h TOPIC_ORDER s rfl

theorem completedAt_update_update (p : TopicProgress) :
    ({ ({ p with completedAt := none } : TopicProgress) with
        completedAt := none } : TopicProgress) =
      { p with completedAt := none } := rfl

theorem persistSyncCompleted_progress_shape (s : OnbState) (now : String)
    (y : Topic) :
    (persistSyncCompleted s now).topicProgress.get y = s.topicProgress.get y ∨
    (persistSyncCompleted s now).topicProgress.get y =
      { s.topicProgress.get y with completedAt := none } := by
  have h : ∀ (x : OnbState) (t : Topic),
      (∀ u, x.topicProgress.get u = s.topicProgress.get u ∨
        x.topicProgress.get u = { s.topicProgress.get u with completedAt := none }) →
      (∀ u, (persistSyncStep now x t).topicProgress.get u = s.topicProgress.get u ∨
        (persistSyncStep now x t).topicProgress.get u =
          { s.topicProgress.get u with completedAt := none }) := by
    intro x t hx u
    rcases persistSyncStep_progress_shape now x t u with hstep | hstep
    · rw [hstep]
      exact hx u
    · rw [hstep]
      rcases hx u with hu | hu
      · rw [hu]
        exact Or.inr rfl
      · rw [hu]
        rw [completedAt_update_update]
        exact Or.inr rfl
  exact foldl_preserve h TOPIC_ORDER s (fun u => Or.inl rfl) y


theorem readSyncStep_id (V : OnbState) (t : Topic)
    (h10 : V.starterTopics.get t = .complete →
      (match (V.topicProgress.get t).completedAt with
       | some stamp => V.completedAt.get t = some stamp
       | none => (V.completedAt.get t).isSome = true))
    (h11 : V.starterTopics.get t ≠ .complete →
      V.completedAt.get t = none ∧ (V.topicProgress.get t).completedAt = none) :
    readSyncStep V t = V := by
  unfold readSyncStep
  by_cases hc : V.starterTopics.get t = .complete
  · rw [if_pos hc]
    have h10' := h10 hc
    have hsome : (V.completedAt.get t).isSome = true := by
      cases hcc : (V.topicProgress.get t).completedAt with
      | some stamp =>
        rw [hcc] at h10'
        rw [h10']
        rfl
      | none =>
        rw [hcc] at h10'
        exact h10'
    have hnn : ¬((V.completedAt.get t).isNone = true) := by
      cases ho : V.completedAt.get t
      · rw [ho] at hsome; cases hsome
      · simp [ho]
    rw [if_neg hnn]
  · rw [if_neg hc]
    obtain ⟨ha, hb⟩ := h11 hc
    have h1 : V.completedAt.set t none = V.completedAt := by
      rw [← ha]
      exact TopicMap.set_get _ _
    rw [h1]

theorem persistSyncStep_id (V : OnbState) (now : String) (t : Topic)
    (h8 : progNorm (V.topicProgress.get t))
    (h10 : V.starterTopics.get t = .complete →
      (match (V.topicProgress.get t).completedAt with
       | some stamp => V.completedAt.get t = some stamp
       | none => (V.completedAt.get t).isSome = true))
    (h11 : V.starterTopics.get t ≠ .complete →
      V.completedAt.get t = none ∧ (V.topicProgress.get t).completedAt = none) :
    persistSyncStep now V t = V := by
  unfold persistSyncStep
  by_cases hc : V.starterTopics.get t = .complete
  · rw [if_pos hc]
    have h10' := h10 hc
    cases hcc : (V.topicProgress.get t).completedAt with
    | some stamp =>
      rw [hcc] at h10'
      have hne : stamp ≠ "" := by
        have h3 := h8.2.2.1
        rw [hcc] at h3
        exact normTs_self_ne_empty stamp h3
      dsimp only []
      rw [if_pos hne]
      have hset : V.completedAt.set t (some stamp) = V.completedAt := by
        rw [← h10']
        exact TopicMap.set_get _ _
      rw [hset]
    | none =>
      rw [hcc] at h10'
      dsimp only []
      have hnn : ¬((V.completedAt.get t).isNone = true) := by
        cases ho : V.completedAt.get t
        · rw [ho] at h10'; cases h10'
        · simp [ho]
      rw [if_neg hnn]
  · rw [if_neg hc]
    obtain ⟨ha, hb⟩ := h11 hc
    have h1 : V.completedAt.set t none = V.completedAt := by
      rw [← ha]
      exact TopicMap.set_get _ _
    have h2 : ({ V.topicProgress.get t with completedAt := none } : TopicProgress) =
        V.topicProgress.get t := by
      rw [← hb]
    have h3 : V.topicProgress.set t
        { V.topicProgress.get t with completedAt := none } = V.topicProgress := by
      rw [h2]
      exact TopicMap.set_get _ _
    rw [h1, h3]

theorem readSyncCompleted_id (V : OnbState)
    (h10 : ∀ t, V.starterTopics.get t = .complete →
      (match (V.topicProgress.get t).completedAt with
       | some stamp => V.completedAt.get t = some stamp
       | none => (V.completedAt.get t).isSome = true))
    (h11 : ∀ t, V.starterTopics.get t ≠ .complete →
      V.completedAt.get t = none ∧ (V.topicProgress.get t).completedAt = none) :
    readSyncCompleted V = V := by
  have h : ∀ (x : OnbState) (t : Topic), x = V → readSyncStep x t = V := by
    intro x t hx
    subst hx
    exact readSyncStep_id x t (h10 t) (h11 t)
  exact foldl_preserve h TOPIC_ORDER V rfl

theorem persistSyncCompleted_id (V : OnbState) (now : String)
    (h8 : ∀ t, progNorm (V.topicProgress.get t))
    (h10 : ∀ t, V.starterTopics.get t = .complete →
      (match (V.topicProgress.get t).completedAt with
       | some stamp => V.completedAt.get t = some stamp
       | none => (V.completedAt.get t).isSome = true))
    (h11 : ∀ t, V.starterTopics.get t ≠ .complete →
      V.completedAt.get t = none ∧ (V.topicProgress.get t).completedAt = none) :
    persistSyncCompleted V now = V := by
  have h : ∀ (x : OnbState) (t : Topic), x = V → persistSyncStep now x t = V := by
    intro x t hx
    subst hx
    exact persistSyncStep_id x now t (h8 t) (h10 t) (h11 t)
  exact foldl_preserve h TOPIC_ORDER V rfl

theorem persistSyncStep_establishes (W x : OnbState) (now : String) (t : Topic)
    (hsteither : x.starterTopics = W.starterTopics)
    (hforms : ∀ u, x.topicProgress.get u = W.topicProgress.get u ∨
      x.topicProgress.get u = { W.topicProgress.get u with completedAt := none })
    (hWn : ∀ u, progNorm (W.topicProgress.get u)) :
    ((persistSyncStep now x t).starterTopics.get t = .complete →
      (match ((persistSyncStep now x t).topicProgress.get t).completedAt with
       | some stamp => (persistSyncStep now x t).completedAt.get t = some stamp
       | none => ((persistSyncStep now x t).completedAt.get t).isSome = true)) ∧
    ((persistSyncStep now x t).starterTopics.get t ≠ .complete →
      (persistSyncStep now x t).completedAt.get t = none ∧
      ((persistSyncStep now x t).topicProgress.get t).completedAt = none) := by
  have hstar : (persistSyncStep now x t).starterTopics = x.starterTopics :=
    persistSyncStep_starterTopics now x t
  by_cases hc : x.starterTopics.get t = .complete
  · unfold persistSyncStep
    rw [if_pos hc]
    cases hcc : (x.topicProgress.get t).completedAt with
    | some stamp =>
      have hne : stamp ≠ "" := by
        rcases hforms t with hf | hf
        · rw [hf] at hcc
          have h3 := (hWn t).2.2.1
          rw [hcc] at h3
          exact normTs_self_ne_empty stamp h3
        · rw [hf] at hcc
          cases hcc
      dsimp only []
      rw [if_pos hne]
      constructor
      · intro _
        dsimp only []
        rw [hcc]
        dsimp only []
        exact TopicMap.get_set_self _ t _
      · intro hnc
        exact absurd hc hnc
    | none =>
      dsimp only []
      by_cases hn : (x.completedAt.get t).isNone = true
      · rw [if_pos hn]
        constructor
        · intro _
          dsimp only []
          rw [hcc]
          dsimp only []
          rw [TopicMap.get_set_self]
          rfl
        · intro hnc
          exact absurd hc hnc
      · rw [if_neg hn]
        constructor
        · intro _
          rw [hcc]
          dsimp only []
          cases ho : x.completedAt.get t
          · rw [ho] at hn
            exact absurd rfl hn
          · rfl
        · intro hnc
          exact absurd hc hnc
  · unfold persistSyncStep
    rw [if_neg hc]
    constructor
    · intro hcp
      dsimp only [] at hcp
      exact absurd hcp hc
    · intro _
      dsimp only []
      constructor
      · exact TopicMap.get_set_self _ t _
      · rw [TopicMap.get_set_self]

theorem persistSyncStep_preserves_forms (W : OnbState) (now : String) :
    ∀ (x : OnbState) (t : Topic),
      (x.starterTopics = W.starterTopics ∧
       ∀ u, x.topicProgress.get u = W.topicProgress.get u ∨
         x.topicProgress.get u = { W.topicProgress.get u with completedAt := none }) →
      ((persistSyncStep now x t).starterTopics = W.starterTopics ∧
       ∀ u, (persistSyncStep now x t).topicProgress.get u = W.topicProgress.get u ∨
         (persistSyncStep now x t).topicProgress.get u =
           { W.topicProgress.get u with completedAt := none }) := by
  intro x t hx
  constructor
  · rw [persistSyncStep_starterTopics]
    exact hx.1
  · intro u
    rcases persistSyncStep_progress_shape now x t u with hstep | hstep
    · rw [hstep]
      exact hx.2 u
    · rw [hstep]
      rcases hx.2 u with hu | hu
      · rw [hu]
        exact Or.inr rfl
      · rw [hu, completedAt_update_update]
        exact Or.inr rfl

theorem persistSyncStep_preserves_synced (W : OnbState) (now : String)
    (hWn : ∀ u, progNorm (W.topicProgress.get u)) :
    ∀ (x : OnbState) (t y : Topic),
      (x.starterTopics = W.starterTopics ∧
       ∀ u, x.topicProgress.get u = W.topicProgress.get u ∨
         x.topicProgress.get u = { W.topicProgress.get u with completedAt := none }) →
      ((x.starterTopics.get y = .complete →
        (match (x.topicProgress.get y).completedAt with
         | some stamp => x.completedAt.get y = some stamp
         | none => (x.completedAt.get y).isSome = true)) ∧
       (x.starterTopics.get y ≠ .complete →
        x.completedAt.get y = none ∧ (x.topicProgress.get y).completedAt = none)) →
      ((persistSyncStep now x t).starterTopics.get y = .complete →
        (match ((persistSyncStep now x t).topicProgress.get y).completedAt with
         | some stamp => (persistSyncStep now x t).completedAt.get y = some stamp
         | none => ((persistSyncStep now x t).completedAt.get y).isSome = true)) ∧
      ((persistSyncStep now x t).starterTopics.get y ≠ .complete →
        (persistSyncStep now x t).completedAt.get y = none ∧
        ((persistSyncStep now x t).topicProgress.get y).completedAt = none) := by
  intro x t y hP hQ
  by_cases hty : t = y
  · subst hty
    exact persistSyncStep_establishes W x now t hP.1 hP.2 hWn
  · have hs : (persistSyncStep now x t).starterTopics = x.starterTopics :=
      persistSyncStep_starterTopics now x t
    have hcy : (persistSyncStep now x t).completedAt.get y = x.completedAt.get y :=
      persistSyncStep_completedAt_other now x t y hty
    have hpy : (persistSyncStep now x t).topicProgress.get y =
        x.topicProgress.get y := by
      unfold persistSyncStep
      repeat' split
      all_goals first
        | rfl
        | exact TopicMap.get_set_ne _ t y _ hty
    rw [hs, hcy, hpy]
    exact hQ

theorem persistSyncCompleted_synced (W : OnbState) (now : String)
    (hWn : ∀ u, progNorm (W.topicProgress.get u)) (t : Topic) :
    ((persistSyncCompleted W now).starterTopics.get t = .complete →
      (match ((persistSyncCompleted W now).topicProgress.get t).completedAt with
       | some stamp => (persistSyncCompleted W now).completedAt.get t = some stamp
       | none => ((persistSyncCompleted W now).completedAt.get t).isSome = true)) ∧
    ((persistSyncCompleted W now).starterTopics.get t ≠ .complete →
      (persistSyncCompleted W now).completedAt.get t = none ∧
      ((persistSyncCompleted W now).topicProgress.get t).completedAt = none) := by
  exact @foldl_pointwise_inv OnbState Topic (persistSyncStep now)
    (fun x => x.starterTopics = W.starterTopics ∧
      ∀ u, x.topicProgress.get u = W.topicProgress.get u ∨
        x.topicProgress.get u = { W.topicProgress.get u with completedAt := none })
    (fun x y =>
      (x.starterTopics.get y = .complete →
        (match (x.topicProgress.get y).completedAt with
         | some stamp => x.completedAt.get y = some stamp
         | none => (x.completedAt.get y).isSome = true)) ∧
      (x.starterTopics.get y ≠ .complete →
        x.completedAt.get y = none ∧ (x.topicProgress.get y).completedAt = none))
    (persistSyncStep_preserves_forms W now)
    (fun x u hP => persistSyncStep_establishes W x now u hP.1 hP.2 hWn)
    (fun x u y hP hQ => persistSyncStep_preserves_synced W now hWn x u y hP hQ)
    TOPIC_ORDER W ⟨rfl, fun u => Or.inl rfl⟩ t (mem_TOPIC_ORDER t)

theorem ne_nil_of_isEmpty_false {α : Type} {l : List α}
    (h : l.isEmpty = false) : l ≠ [] := by
  cases l with
  | nil => cases h
  | cons x xs => simp

theorem mergePersistProgress_status (a b : TopicProgress) :
    (mergePersistProgress a b).status = b.status := rfl

theorem progNorm_completedAt_none (p : TopicProgress) (hp : progNorm p) :
    progNorm ({ p with completedAt := none } : TopicProgress) :=
  ⟨hp.1, hp.2.1, rfl, hp.2.2.2.1, hp.2.2.2.2.1, hp.2.2.2.2.2⟩

set_option maxRecDepth 8192 in
theorem normalizeOnbReadBase_id (V : OnbState) (now : String)
    (h1 : pyStrip now = now) (h2 : now ≠ "") (hV : OnbNormal V now) :
    normalizeOnbReadBase V now = V := by
  obtain ⟨hP1, hP2, hP3, hP4, hP5, hP6, hP7, hP8, hP9, hP10, hP11⟩ := hV
  apply OnbState.ext_fields
  · rfl
  · show mapTopics (fun t => (V.topicProgress.get t).status) = V.starterTopics
    apply TopicMap.ext_topics
    intro t
    rw [TopicMap.get_mapTopics]
    exact (hP1 t).symm
  · rfl
  · show (normTimestampOpt (some V.createdAt)).getD (defaultOnbState now).createdAt =
      V.createdAt
    rw [hP2]
    rfl
  · show (normTimestampOpt (some V.updatedAt)).getD (defaultOnbState now).updatedAt =
      V.updatedAt
    rw [hP3, normTimestampOpt_now now h1 h2]
    rfl
  · rfl
  · show (let q := dedupTopics V.topicQueue
      if q.isEmpty then (defaultOnbState now).topicQueue else q) = V.topicQueue
    dsimp only []
    rw [hP4, isEmpty_false_of_ne_nil hP5]
    simp
  · show (match V.recommendedNextTopic with
      | some t => some t
      | none => (defaultOnbState now).recommendedNextTopic) = V.recommendedNextTopic
    obtain ⟨t, ht⟩ := Option.isSome_iff_exists.mp hP6
    rw [ht]
  · show mapTopics (fun t => mergeReadProgress (V.topicProgress.get t) now) =
      V.topicProgress
    apply TopicMap.ext_topics
    intro t
    rw [TopicMap.get_mapTopics]
    exact mergeReadProgress_norm _ now (hP9 t)
  · show lastN 200 (V.topicHistory.filterMap normHistEntry) = V.topicHistory
    rw [filterMap_self _ _ hP7, lastN_of_length_le _ _ hP8]

theorem normalizeOnbRead_id (V : OnbState) (now : String)
    (h1 : pyStrip now = now) (h2 : now ≠ "") (hV : OnbNormal V now) :
    normalizeOnbRead V now = V := by
  have hbase := normalizeOnbReadBase_id V now h1 h2 hV
  obtain ⟨hP1, hP2, hP3, hP4, hP5, hP6, hP7, hP8, hP9, hP10, hP11⟩ := hV
  unfold normalizeOnbRead
  dsimp only []
  rw [hbase]
  rw [readSyncCompleted_id V hP10 hP11]
  obtain ⟨t, ht⟩ := Option.isSome_iff_exists.mp hP6
  rw [ht]
  dsimp only []
  rw [isEmpty_false_of_ne_nil hP5]
  simp

theorem persistMerge_self_id (V : OnbState) (now : String)
    (h1 : pyStrip now = now) (h2 : now ≠ "") (hV : OnbNormal V now) :
    persistMerge V V = V := by
  obtain ⟨hP1, hP2, hP3, hP4, hP5, hP6, hP7, hP8, hP9, hP10, hP11⟩ := hV
  apply OnbState.ext_fields
  · rw [persistMerge_version]
  · rw [persistMerge_starterTopics]
    apply TopicMap.ext_topics
    intro t
    rw [TopicMap.get_mapTopics]
    exact (hP1 t).symm
  · rw [persistMerge_completedAt]
  · rw [persistMerge_createdAt, hP2]
  · rw [persistMerge_updatedAt, hP3, normTimestampOpt_now now h1 h2]
  · rw [persistMerge_activeTopic]
  · rw [persistMerge_topicQueue, hP4]
    split <;> rfl
  · rw [persistMerge_recommended]
  · rw [persistMerge_topicProgress]
    apply TopicMap.ext_topics
    intro t
    rw [TopicMap.get_mapTopics]
    have hstat : ({ V.topicProgress.get t with status := V.starterTopics.get t } :
        TopicProgress) = V.topicProgress.get t := by
      rw [hP1 t]
    rw [hstat]
    exact mergePersistProgress_self _ (hP9 t)
  · rw [persistMerge_topicHistory, filterMap_self _ _ hP7, lastN_of_length_le _ _ hP8]

theorem persistFinalize_id (V : OnbState) (now : String) (hV : OnbNormal V now) :
    persistFinalize V now = V := by
  obtain ⟨hP1, hP2, hP3, hP4, hP5, hP6, hP7, hP8, hP9, hP10, hP11⟩ := hV
  apply OnbState.ext_fields
  · rw [persistFinalize_version]
  · rw [persistFinalize_starterTopics]
  · rw [persistFinalize_completedAt]
  · rw [persistFinalize_createdAt, if_neg (normTs_self_ne_empty _ hP2)]
  · rw [persistFinalize_updatedAt]
    exact hP3.symm
  · rw [persistFinalize_activeTopic]
  · rw [persistFinalize_topicQueue, isEmpty_false_of_ne_nil hP5]
    simp
  · obtain ⟨t, ht⟩ := Option.isSome_iff_exists.mp hP6
    rw [persistFinalize_rec_of_some V now t ht, ht]
  · rw [persistFinalize_topicProgress]
  · rw [persistFinalize_topicHistory]


set_option maxRecDepth 8192 in
theorem persistComputed_normal (fs : BootFS) (inc : OnbState) (now : String)
    (h1 : pyStrip now = now) (h2 : now ≠ "")
    (hrec : inc.recommendedNextTopic.isSome = true) :
    OnbNormal (persistComputed fs inc now) now := by
  unfold persistComputed
  set M := read_onboarding_state fs now with hM
  set W := persistMerge M inc with hW
  set X := persistSyncCompleted W now with hX
  have hWprog : ∀ t, progNorm (W.topicProgress.get t) := by
    intro t
    rw [hW, persistMerge_topicProgress, TopicMap.get_mapTopics]
    apply progNorm_mergePersistProgress
    exact read_progNorm fs now h1 h2 t
  have hforms : ∀ t, X.topicProgress.get t = W.topicProgress.get t ∨
      X.topicProgress.get t = { W.topicProgress.get t with completedAt := none } :=
    fun t => persistSyncCompleted_progress_shape W now t
  have hXsync := persistSyncCompleted_synced W now hWprog
  have hXstar : X.starterTopics = W.starterTopics :=
    persistSyncCompleted_starterTopics W now
  refine ⟨?_, ?_, ?_, ?_, ?_, ?_, ?_, ?_, ?_, ?_, ?_⟩
  · intro t
    rw [persistFinalize_starterTopics, persistFinalize_topicProgress]
    rw [hXstar, hW, persistMerge_starterTopics, TopicMap.get_mapTopics]
    rcases hforms t with hf | hf <;> rw [hf]
    · rw [hW, persistMerge_topicProgress, TopicMap.get_mapTopics,
        mergePersistProgress_status]
    · show (inc.topicProgress.get t).status = (W.topicProgress.get t).status
      rw [hW, persistMerge_topicProgress, TopicMap.get_mapTopics,
        mergePersistProgress_status]
  · rw [persistFinalize_createdAt]
    by_cases hXc : X.createdAt = ""
    · rw [if_pos hXc]
      exact normTimestampOpt_now now h1 h2
    · rw [if_neg hXc]
      rw [hX, persistSyncCompleted_createdAt, hW, persistMerge_createdAt]
      cases hm : normTimestampOpt (some inc.createdAt) with
      | some v =>
        have hidem := normTimestampOpt_idem (some inc.createdAt)
        rw [hm] at hidem
        exact hidem
      | none =>
        exact read_createdAt_norm fs now h1 h2
  · rw [persistFinalize_updatedAt]
  · rw [persistFinalize_topicQueue]
    by_cases hXq : X.topicQueue.isEmpty = true
    · rw [if_pos hXq]
      exact dedupTopics_of_nodup _ (by decide)
    · rw [if_neg hXq]
      rw [hX, persistSyncCompleted_topicQueue, hW, persistMerge_topicQueue]
      split
      · exact (read_queue_norm fs now).1
      · exact dedupTopics_idem _
  · rw [persistFinalize_topicQueue]
    by_cases hXq : X.topicQueue.isEmpty = true
    · rw [if_pos hXq]
      decide
    · rw [if_neg hXq]
      have hXq' : X.topicQueue.isEmpty = false := by
        cases hb : X.topicQueue.isEmpty
        · rfl
        · exact absurd hb hXq
      exact ne_nil_of_isEmpty_false hXq'
  · have hXrec : X.recommendedNextTopic = inc.recommendedNextTopic := by
      rw [hX, persistSyncCompleted_recommended, hW, persistMerge_recommended]
    obtain ⟨t, ht⟩ := Option.isSome_iff_exists.mp hrec
    rw [persistFinalize_rec_of_some X now t (by rw [hXrec]; exact ht)]
    rfl
  · rw [persistFinalize_topicHistory, hX, persistSyncCompleted_topicHistory,
      hW, persistMerge_topicHistory]
    intro e he
    obtain ⟨a, ha, hfa⟩ := List.mem_filterMap.mp (mem_lastN _ _ _ he)
    exact normHistEntry_idem a e hfa
  · rw [persistFinalize_topicHistory, hX, persistSyncCompleted_topicHistory,
      hW, persistMerge_topicHistory]
    exact lastN_length_le _ _
  · intro t
    rw [persistFinalize_topicProgress]
    rcases hforms t with hf | hf <;> rw [hf]
    · exact hWprog t
    · exact progNorm_completedAt_none _ (hWprog t)
  · intro t
    rw [persistFinalize_starterTopics, persistFinalize_topicProgress,
      persistFinalize_completedAt]
    exact (hXsync t).1
  · intro t
    rw [persistFinalize_starterTopics, persistFinalize_topicProgress,
      persistFinalize_completedAt]
    exact (hXsync t).2


theorem bAddDir_id (fs : BootFS) (p : String)
    (h : fs.dirs.contains p = true) : bAddDir fs p = fs := by
  unfold bAddDir
  rw [if_pos h]

theorem bMkdirParents_id (fs : BootFS) (p : String)
    (h : ∀ q ∈ pathAncestors p, fs.dirs.contains q = true) :
    bMkdirParents fs p = fs := by
  unfold bMkdirParents
  have haux : ∀ (l : List String) (x : BootFS), x = fs →
      (∀ q ∈ l, fs.dirs.contains q = true) → l.foldl bAddDir x = fs := by
    intro l
    induction l with
    | nil => intro x hx _; exact hx
    | cons a rest ih =>
      intro x hx hmem
      simp only [List.foldl_cons]
      apply ih
      · subst hx
        exact bAddDir_id x a (hmem a (List.mem_cons_self a rest))
      · intro q hq
        exact hmem q (List.mem_cons_of_mem a hq)
  exact haux (pathAncestors p) fs rfl h

theorem bAddDir_files (fs : BootFS) (p : String) :
    (bAddDir fs p).files = fs.files := by
  unfold bAddDir
  split <;> rfl

theorem bMkdirParents_files (fs : BootFS) (p : String) :
    (bMkdirParents fs p).files = fs.files := by
  unfold bMkdirParents
  have haux : ∀ (l : List String) (x : BootFS), x.files = fs.files →
      (l.foldl bAddDir x).files = fs.files := by
    intro l
    induction l with
    | nil => intro x hx; exact hx
    | cons a rest ih =>
      intro x hx
      simp only [List.foldl_cons]
      apply ih
      rw [bAddDir_files]
      exact hx
  exact haux (pathAncestors p) fs rfl

theorem bGetFile_congr_files (a b : BootFS) (p : String)
    (h : a.files = b.files) : bGetFile a p = bGetFile b p := by
  unfold bGetFile
  rw [h]

theorem find_bSetFileL (l : List (String × FileContent)) (p : String)
    (v : FileContent) :
    (bSetFileL l p v).find? (fun kv => kv.1 = p) = some (p, v) := by
  induction l with
  | nil => simp [bSetFileL, List.find?_cons]
  | cons kv rest ih =>
    obtain ⟨k, w⟩ := kv
    by_cases hk : k = p
    · subst hk
      simp [bSetFileL, List.find?_cons]
    · simp only [bSetFileL, if_neg hk]
      rw [List.find?_cons]
      simp [hk, ih]

theorem find_bSetFileL_ne (l : List (String × FileContent)) (p q : String)
    (v : FileContent) (hpq : p ≠ q) :
    (bSetFileL l p v).find? (fun kv => kv.1 = q) =
      l.find? (fun kv => kv.1 = q) := by
  induction l with
  | nil => simp [bSetFileL, List.find?_cons, hpq]
  | cons kv rest ih =>
    obtain ⟨k, w⟩ := kv
    by_cases hk : k = p
    · have hkq : ¬(k = q) := by rw [hk]; exact hpq
      simp only [bSetFileL, if_pos hk]
      rw [List.find?_cons, List.find?_cons]
      simp [hkq]
    · simp only [bSetFileL, if_neg hk]
      rw [List.find?_cons, List.find?_cons]
      by_cases hkq : k = q
      · simp [hkq]
      · simp [hkq, ih]

theorem bGetFile_bSetFile_self (fs : BootFS) (p : String) (v : FileContent) :
    bGetFile (bSetFile fs p v) p = some v := by
  unfold bGetFile bSetFile
  dsimp only []
  rw [find_bSetFileL]
  rfl

theorem bGetFile_bSetFile_ne (fs : BootFS) (p q : String) (v : FileContent)
    (hpq : p ≠ q) : bGetFile (bSetFile fs p v) q = bGetFile fs q := by
  unfold bGetFile bSetFile
  dsimp only []
  rw [find_bSetFileL_ne _ _ _ _ hpq]

theorem bSetFile_dirs (fs : BootFS) (p : String) (v : FileContent) :
    (bSetFile fs p v).dirs = fs.dirs := rfl

theorem bAddDir_contains (fs : BootFS) (p q : String)
    (h : fs.dirs.contains q = true) : (bAddDir fs p).dirs.contains q = true := by
  unfold bAddDir
  split
  · exact h
  · simp only []
    simp only [List.contains, List.elem_iff] at h ⊢
    exact List.mem_append_left _ h

theorem bAddDir_contains_self (fs : BootFS) (p : String) :
    (bAddDir fs p).dirs.contains p = true := by
  unfold bAddDir
  split
  · rename_i h
    exact h
  · simp only []
    simp only [List.contains, List.elem_iff]
    exact List.mem_append_right _ (List.mem_singleton_self p)

theorem bMkdirParents_contains_mono (fs : BootFS) (p q : String)
    (h : fs.dirs.contains q = true) :
    (bMkdirParents fs p).dirs.contains q = true := by
  unfold bMkdirParents
  have haux : ∀ (l : List String) (x : BootFS), x.dirs.contains q = true →
      (l.foldl bAddDir x).dirs.contains q = true := by
    intro l
    induction l with
    | nil => intro x hx; exact hx
    | cons a rest ih =>
      intro x hx
      simp only [List.foldl_cons]
      exact ih _ (bAddDir_contains x a q hx)
  exact haux (pathAncestors p) fs h

theorem bMkdirParents_contains_of_mem (fs : BootFS) (p q : String)
    (h : q ∈ pathAncestors p) :
    (bMkdirParents fs p).dirs.contains q = true := by
  unfold bMkdirParents
  have haux : ∀ (l : List String) (x : BootFS), q ∈ l →
      (l.foldl bAddDir x).dirs.contains q = true := by
    intro l
    induction l with
    | nil => intro x hx; cases hx
    | cons a rest ih =>
      intro x hx
      simp only [List.foldl_cons]
      cases hx with
      | head =>
        have hself := bAddDir_contains_self x q
        have haux2 : ∀ (l2 : List String) (y : BootFS), y.dirs.contains q = true →
            (l2.foldl bAddDir y).dirs.contains q = true := by
          intro l2
          induction l2 with
          | nil => intro y hy; exact hy
          | cons b rest2 ih2 =>
            intro y hy
            simp only [List.foldl_cons]
            exact ih2 _ (bAddDir_contains y b q hy)
        exact haux2 rest _ hself
      | tail _ hmem => exact ih _ hmem
  exact haux (pathAncestors p) fs h

theorem bExists_bSetFile_self (fs : BootFS) (p : String) (v : FileContent) :
    bExists (bSetFile fs p v) p = true := by
  unfold bExists
  rw [bGetFile_bSetFile_self]
  rfl

theorem bExists_bSetFile_mono (fs : BootFS) (p q : String) (v : FileContent)
    (h : bExists fs q = true) : bExists (bSetFile fs p v) q = true := by
  by_cases hpq : p = q
  · subst hpq
    exact bExists_bSetFile_self fs p v
  · unfold bExists at h ⊢
    rw [bGetFile_bSetFile_ne fs p q v hpq, bSetFile_dirs]
    exact h

theorem bExists_bAddDir_mono (fs : BootFS) (p q : String)
    (h : bExists fs q = true) : bExists (bAddDir fs p) q = true := by
  unfold bExists at h ⊢
  rw [bGetFile_congr_files _ fs _ (bAddDir_files fs p)]
  rcases (Bool.or_eq_true _ _).mp h with hl | hr
  · rw [hl]
    rfl
  · rw [bAddDir_contains fs p q hr]
    simp

theorem bExists_bMkdirParents_mono (fs : BootFS) (p q : String)
    (h : bExists fs q = true) : bExists (bMkdirParents fs p) q = true := by
  unfold bMkdirParents
  have haux : ∀ (l : List String) (x : BootFS), bExists x q = true →
      bExists (l.foldl bAddDir x) q = true := by
    intro l
    induction l with
    | nil => intro x hx; exact hx
    | cons a rest ih =>
      intro x hx
      simp only [List.foldl_cons]
      exact ih _ (bExists_bAddDir_mono x a q hx)
  exact haux (pathAncestors p) fs h

theorem bExists_contains_dir (fs : BootFS) (q : String)
    (h : fs.dirs.contains q = true) : bExists fs q = true := by
  unfold bExists
  rw [h]
  simp

theorem read_of_file (fs : BootFS) (V : OnbState) (now : String)
    (hfile : bGetFile fs onbStatePath = some (.onbJson V)) :
    read_onboarding_state fs now = normalizeOnbRead V now := by
  unfold read_onboarding_state
  rw [hfile]

theorem read_congr_files (a b : BootFS) (now : String) (h : a.files = b.files) :
    read_onboarding_state a now = read_onboarding_state b now := by
  unfold read_onboarding_state
  rw [bGetFile_congr_files a b _ h]

theorem persistComputed_congr_files (a b : BootFS) (inc : OnbState) (now : String)
    (h : a.files = b.files) :
    persistComputed a inc now = persistComputed b inc now := by
  unfold persistComputed
  rw [read_congr_files a b now h]

theorem persistComputed_id (fs2 : BootFS) (V : OnbState) (now : String)
    (h1 : pyStrip now = now) (h2 : now ≠ "")
    (hfile : bGetFile fs2 onbStatePath = some (.onbJson V))
    (hV : OnbNormal V now) :
    persistComputed fs2 (read_onboarding_state fs2 now) now = V := by
  have hread : read_onboarding_state fs2 now = V := by
    rw [read_of_file fs2 V now hfile]
    exact normalizeOnbRead_id V now h1 h2 hV
  unfold persistComputed
  rw [hread]
  rw [persistMerge_self_id V now h1 h2 hV]
  rw [persistSyncCompleted_id V now hV.2.2.2.2.2.2.2.2.1
    hV.2.2.2.2.2.2.2.2.2.1 hV.2.2.2.2.2.2.2.2.2.2]
  exact persistFinalize_id V now hV

theorem braindrive_self_ancestor : ".braindrive" ∈ pathAncestors ".braindrive" := by
  decide

theorem persist_onboarding_state_noop (fs2 : BootFS) (V : OnbState) (now : String)
    (h1 : pyStrip now = now) (h2 : now ≠ "")
    (hfile : bGetFile fs2 onbStatePath = some (.onbJson V))
    (hdirs : fs2.dirs.contains ".braindrive" = true)
    (hV : OnbNormal V now) :
    persist_onboarding_state fs2 (read_onboarding_state fs2 now) now = (fs2, none) := by
  unfold persist_onboarding_state
  have hmk : bMkdirParents fs2 ".braindrive" = fs2 := by
    apply bMkdirParents_id
    intro q hq
    rw [show pathAncestors ".braindrive" = [".braindrive"] from by decide] at hq
    simp only [List.mem_singleton] at hq
    subst hq
    exact hdirs
  dsimp only []
  rw [hmk]
  rw [persistComputed_id fs2 V now h1 h2 hfile hV]
  rw [hfile]
  dsimp only []
  rw [if_pos rfl]

theorem persist_onboarding_state_stores (fs : BootFS) (inc : OnbState)
    (now : String) :
    bGetFile (persist_onboarding_state fs inc now).1 onbStatePath =
      some (.onbJson (persistComputed fs inc now)) ∧
    (persist_onboarding_state fs inc now).1.dirs.contains ".braindrive" = true := by
  unfold persist_onboarding_state
  dsimp only []
  have hcomp : persistComputed (bMkdirParents fs ".braindrive") inc now =
      persistComputed fs inc now :=
    persistComputed_congr_files _ fs inc now (bMkdirParents_files fs ".braindrive")
  split
  · rename_i hex
    constructor
    · cases hb : bGetFile (bMkdirParents fs ".braindrive") onbStatePath with
      | none => rw [hb] at hex; cases hex
      | some fc =>
        rw [hb] at hex
        cases fc with
        | text s => dsimp only [] at hex; cases hex
        | schemaJson v => dsimp only [] at hex; cases hex
        | onbJson e =>
          dsimp only [] at hex
          simp only [Option.some.injEq] at hex
          rw [hex, hcomp]
    · exact bMkdirParents_contains_of_mem fs _ _ braindrive_self_ancestor
  · constructor
    · rw [bGetFile_bSetFile_self, hcomp]
    · rw [bSetFile_dirs]
      exact bMkdirParents_contains_of_mem fs _ _ braindrive_self_ancestor

theorem fsGrows_refl (fs : BootFS) : fsGrows fs fs :=
  ⟨fun _ h => h, fun _ h => h⟩

theorem fsGrows_trans {a b c : BootFS} (h1 : fsGrows a b) (h2 : fsGrows b c) :
    fsGrows a c :=
  ⟨fun q hq => h2.1 q (h1.1 q hq), fun q hq => h2.2 q (h1.2 q hq)⟩

theorem fsGrows_bSetFile (fs : BootFS) (p : String) (v : FileContent) :
    fsGrows fs (bSetFile fs p v) := by
  constructor
  · intro q hq
    rw [bSetFile_dirs]
    exact hq
  · intro q hq
    exact bExists_bSetFile_mono fs p q v hq

theorem fsGrows_bMkdirParents (fs : BootFS) (d : String) :
    fsGrows fs (bMkdirParents fs d) :=
  ⟨fun q hq => bMkdirParents_contains_mono fs d q hq,
   fun q hq => bExists_bMkdirParents_mono fs d q hq⟩

theorem fsGrows_writeMissingStep (a : BootAcc) (rel content : String) :
    fsGrows a.fs (writeMissingStep a rel content).fs := by
  unfold writeMissingStep write_text_if_missing
  split
  · rename_i fs op heq
    split at heq
    · simp only [Prod.mk.injEq] at heq
      cases heq.2
    · simp only [Prod.mk.injEq] at heq
      rw [← heq.1]
      unfold accRecord
      exact fsGrows_trans (fsGrows_bMkdirParents a.fs (parentDir rel))
        (fsGrows_bSetFile _ rel (.text content))
  · rename_i fs op heq
    split at heq
    · simp only [Prod.mk.injEq] at heq
      rw [← heq.1]
      exact fsGrows_refl a.fs
    · simp only [Prod.mk.injEq] at heq
      cases heq.2

theorem foldl_fsGrows {ι : Type} (step : BootAcc → ι → BootAcc)
    (hstep : ∀ a x, fsGrows a.fs (step a x).fs) :
    ∀ (l : List ι) (a : BootAcc), fsGrows a.fs (l.foldl step a).fs := by
  intro l
  induction l with
  | nil => intro a; exact fsGrows_refl _
  | cons x rest ih =>
    intro a
    exact fsGrows_trans (hstep a x) (ih (step a x))

theorem fsGrows_dirsPhase (acc : BootAcc) : fsGrows acc.fs (dirsPhase acc).fs := by
  unfold dirsPhase
  apply foldl_fsGrows
  intro a d
  split
  · exact fsGrows_bMkdirParents a.fs d
  · unfold accRecord
    exact fsGrows_bMkdirParents a.fs d

theorem fsGrows_migrateStep (fs : BootFS) (p : BootFS × List String) (x : String)
    (hp : fsGrows fs p.1) : fsGrows fs (migrateStep p x).1 := by
  obtain ⟨pfs, pch⟩ := p
  unfold migrateStep
  dsimp only []
  repeat' split
  all_goals first
    | exact hp
    | exact fsGrows_trans hp (fsGrows_bSetFile pfs _ _)

theorem fsGrows_migrate (fs : BootFS) :
    fsGrows fs (migrate_legacy_agents fs).1 := by
  unfold migrate_legacy_agents
  have haux : ∀ (l : List String) (p : BootFS × List String), fsGrows fs p.1 →
      fsGrows fs (l.foldl migrateStep p).1 := by
    intro l
    induction l with
    | nil => intro p hp; exact hp
    | cons x rest ih =>
      intro p hp
      exact ih (migrateStep p x) (fsGrows_migrateStep fs p x hp)
  exact haux AGENT_MIGRATION_DIRECTORIES (fs, []) (fsGrows_refl fs)

theorem migratePhase_fs (acc : BootAcc) :
    (migratePhase acc).fs = (migrate_legacy_agents acc.fs).1 := by
  unfold migratePhase
  dsimp only []

theorem fsGrows_migratePhase (acc : BootAcc) :
    fsGrows acc.fs (migratePhase acc).fs := by
  rw [migratePhase_fs]
  exact fsGrows_migrate acc.fs

theorem fsGrows_textFilesPhase (acc : BootAcc) :
    fsGrows acc.fs (textFilesPhase acc).fs := by
  unfold textFilesPhase
  apply foldl_fsGrows
  intro a kv
  exact fsGrows_writeMissingStep a kv.1 kv.2

theorem fsGrows_topicsPhase (acc : BootAcc) :
    fsGrows acc.fs (topicsPhase acc).fs := by
  unfold topicsPhase
  apply foldl_fsGrows
  intro a t
  dsimp only []
  have h1 : fsGrows a.fs
      (if bExists a.fs ("life/" ++ topicSlug t) = true then a
       else accRecord a (bMkdirParents a.fs ("life/" ++ topicSlug t))
         ("life/" ++ topicSlug t)).fs := by
    split
    · exact fsGrows_refl _
    · unfold accRecord
      exact fsGrows_bMkdirParents a.fs _
  refine fsGrows_trans h1 ?_
  apply foldl_fsGrows
  intro a2 kv
  exact fsGrows_writeMissingStep a2 _ kv.2

theorem fsGrows_gitkeepPhase (acc : BootAcc) :
    fsGrows acc.fs (gitkeepPhase acc).fs := by
  unfold gitkeepPhase
  apply foldl_fsGrows
  intro a rel
  exact fsGrows_writeMissingStep a rel ""

theorem fsGrows_digestPhase (today : PyDate) (acc : BootAcc) :
    fsGrows acc.fs (digestPhase today acc).fs := by
  unfold digestPhase
  apply foldl_fsGrows
  intro a kv
  split
  · exact fsGrows_refl _
  · unfold accRecord
    exact fsGrows_trans (fsGrows_bMkdirParents a.fs (parentDir kv.1))
      (fsGrows_bSetFile _ kv.1 (.text kv.2))

theorem fsGrows_schemaPhase (acc : BootAcc) :
    fsGrows acc.fs (schemaPhase acc).fs := by
  unfold schemaPhase ensure_schema_version
  dsimp only []
  split
  · rename_i fs rel heq
    split at heq
    · simp only [Prod.mk.injEq] at heq
      cases heq.2
    · simp only [Prod.mk.injEq] at heq
      rw [← heq.1]
      exact fsGrows_trans (fsGrows_bMkdirParents acc.fs ".braindrive")
        (fsGrows_bSetFile _ _ _)
  · rename_i fs heq
    split at heq
    · simp only [Prod.mk.injEq] at heq
      rw [← heq.1]
      exact fsGrows_bMkdirParents acc.fs ".braindrive"
    · simp only [Prod.mk.injEq] at heq
      cases heq.2

theorem fsGrows_persistPhase (now : String) (acc : BootAcc) :
    fsGrows acc.fs (persistPhase now acc).fs := by
  unfold persistPhase persist_onboarding_state
  dsimp only []
  split
  · rename_i fs rel heq
    split at heq
    · simp only [Prod.mk.injEq] at heq
      cases heq.2
    · simp only [Prod.mk.injEq] at heq
      rw [← heq.1]
      exact fsGrows_trans (fsGrows_bMkdirParents acc.fs ".braindrive")
        (fsGrows_bSetFile _ _ _)
  · rename_i fs heq
    split at heq
    · simp only [Prod.mk.injEq] at heq
      rw [← heq.1]
      exact fsGrows_bMkdirParents acc.fs ".braindrive"
    · simp only [Prod.mk.injEq] at heq
      cases heq.2

theorem foldl_fix {σ ι : Type} (step : σ → ι → σ) (a : σ) :
    ∀ (l : List ι), (∀ x ∈ l, step a x = a) → l.foldl step a = a := by
  intro l
  induction l with
  | nil => intro _; rfl
  | cons x rest ih =>
    intro h
    simp only [List.foldl_cons, h x (List.mem_cons_self x rest)]
    exact ih (fun y hy => h y (List.mem_cons_of_mem x hy))

theorem foldl_establish {ι : Type} (step : BootAcc → ι → BootAcc)
    (P : BootFS → ι → Prop)
    (hmono : ∀ (x : ι) (c d : BootFS), fsGrows c d → P c x → P d x)
    (hgrow : ∀ a x, fsGrows a.fs (step a x).fs)
    (hest : ∀ a x, P (step a x).fs x) (l : List ι) :
    ∀ (a : BootAcc) (x : ι), x ∈ l → P ((l.foldl step a).fs) x := by
  induction l with
  | nil => intro a x hx; cases hx
  | cons y rest ih =>
    intro a x hx
    simp only [List.foldl_cons]
    rcases List.mem_cons.mp hx with heq | hmem
    · subst heq
      exact hmono x _ _ (foldl_fsGrows step hgrow rest (step a x)) (hest a x)
    · exact ih (step a y) x hmem

theorem writeMissingStep_id (a : BootAcc) (rel content : String)
    (h : bExists a.fs rel = true) : writeMissingStep a rel content = a := by
  unfold writeMissingStep write_text_if_missing
  rw [if_pos h]

theorem writeMissingStep_est (a : BootAcc) (rel content : String) :
    bExists (writeMissingStep a rel content).fs rel = true := by
  unfold writeMissingStep write_text_if_missing
  by_cases h : bExists a.fs rel = true
  · rw [if_pos h]
    exact h
  · rw [if_neg h]
    exact bExists_bSetFile_self _ rel (.text content)

theorem migrateStep_id (fs : BootFS) (ch : List String) (d : String)
    (h : bExists fs (if d = "." then "AGENT.md" else d ++ "/AGENT.md") = true) :
    migrateStep (fs, ch) d = (fs, ch) := by
  unfold migrateStep
  dsimp only []
  split
  · rfl
  · rfl

theorem migrate_id (fs : BootFS)
    (h : ∀ d ∈ AGENT_MIGRATION_DIRECTORIES,
        bExists fs (if d = "." then "AGENT.md" else d ++ "/AGENT.md") = true) :
    migrate_legacy_agents fs = (fs, []) := by
  unfold migrate_legacy_agents
  apply foldl_fix
  intro d hd
  exact migrateStep_id fs [] d (h d hd)

theorem required_dirs_self_anc :
    ∀ d ∈ REQUIRED_DIRECTORIES, d ∈ pathAncestors d := by decide

theorem topicRoot_self_anc :
    ∀ t ∈ TOPIC_ORDER, ("life/" ++ topicSlug t) ∈ pathAncestors ("life/" ++ topicSlug t) := by
  decide

theorem dirsPhase_id (acc : BootAcc)
    (h : ∀ d ∈ REQUIRED_DIRECTORIES, ∀ q ∈ pathAncestors d,
        acc.fs.dirs.contains q = true) :
    dirsPhase acc = acc := by
  unfold dirsPhase
  apply foldl_fix
  intro d hd
  dsimp only []
  have hmk : bMkdirParents acc.fs d = acc.fs := bMkdirParents_id _ _ (h d hd)
  have hex : bExists acc.fs d = true :=
    bExists_contains_dir _ d (h d hd d (required_dirs_self_anc d hd))
  rw [if_pos hex, hmk]

theorem migratePhase_id (acc : BootAcc)
    (h : ∀ d ∈ AGENT_MIGRATION_DIRECTORIES,
        bExists acc.fs (if d = "." then "AGENT.md" else d ++ "/AGENT.md") = true) :
    migratePhase acc = acc := by
  unfold migratePhase
  dsimp only []
  rw [migrate_id acc.fs h]
  simp only [List.append_nil, List.foldl_nil]

theorem textFilesPhase_id (acc : BootAcc)
    (h : ∀ kv ∈ REQUIRED_TEXT_FILES, bExists acc.fs kv.1 = true) :
    textFilesPhase acc = acc := by
  unfold textFilesPhase
  apply foldl_fix
  intro kv hkv
  exact writeMissingStep_id acc kv.1 kv.2 (h kv hkv)

theorem topicsPhase_id (acc : BootAcc)
    (hroot : ∀ t ∈ TOPIC_ORDER, bExists acc.fs ("life/" ++ topicSlug t) = true)
    (hseed : ∀ t ∈ TOPIC_ORDER, ∀ kv ∈ topicSeedFiles t,
        bExists acc.fs ("life/" ++ topicSlug t ++ "/" ++ kv.1) = true) :
    topicsPhase acc = acc := by
  unfold topicsPhase
  apply foldl_fix
  intro t ht
  dsimp only []
  rw [if_pos (hroot t ht)]
  apply foldl_fix
  intro kv hkv
  exact writeMissingStep_id acc _ kv.2 (hseed t ht kv hkv)

theorem gitkeepPhase_id (acc : BootAcc)
    (h : ∀ rel ∈ GITKEEP_FILES, bExists acc.fs rel = true) :
    gitkeepPhase acc = acc := by
  unfold gitkeepPhase
  apply foldl_fix
  intro rel hrel
  exact writeMissingStep_id acc rel "" (h rel hrel)

theorem digestPhase_id (today : PyDate) (acc : BootAcc)
    (h : ∀ kv ∈ digestStarterPaths today, bExists acc.fs kv.1 = true) :
    digestPhase today acc = acc := by
  unfold digestPhase
  apply foldl_fix
  intro kv hkv
  dsimp only []
  rw [if_pos (h kv hkv)]

theorem ensure_schema_version_id (fs : BootFS)
    (hdir : fs.dirs.contains ".braindrive" = true)
    (hfile : bGetFile fs ".braindrive/schema-version.json" =
      some (.schemaJson SCHEMA_VERSION)) :
    ensure_schema_version fs = (fs, none) := by
  unfold ensure_schema_version
  have hmk : bMkdirParents fs ".braindrive" = fs := by
    apply bMkdirParents_id
    intro q hq
    rw [show pathAncestors ".braindrive" = [".braindrive"] from by decide] at hq
    simp only [List.mem_singleton] at hq
    subst hq
    exact hdir
  dsimp only []
  rw [hmk, hfile]
  exact if_pos rfl

theorem schemaPhase_id (acc : BootAcc)
    (hdir : acc.fs.dirs.contains ".braindrive" = true)
    (hfile : bGetFile acc.fs ".braindrive/schema-version.json" =
      some (.schemaJson SCHEMA_VERSION)) :
    schemaPhase acc = acc := by
  unfold schemaPhase
  rw [ensure_schema_version_id acc.fs hdir hfile]

theorem persistPhase_id (acc : BootAcc) (V : OnbState) (now : String)
    (h1 : pyStrip now = now) (h2 : now ≠ "")
    (hfile : bGetFile acc.fs onbStatePath = some (.onbJson V))
    (hdirs : acc.fs.dirs.contains ".braindrive" = true)
    (hV : OnbNormal V now) :
    persistPhase now acc = acc := by
  unfold persistPhase
  dsimp only []
  rw [persist_onboarding_state_noop acc.fs V now h1 h2 hfile hdirs hV]

theorem topic_root_anc : ∀ t : Topic,
    ("life/" ++ topicSlug t) ∈ pathAncestors ("life/" ++ topicSlug t) := by
  intro t
  cases t <;> decide

theorem bExists_bMkdirParents_of_anc (fs : BootFS) (p q : String)
    (h : q ∈ pathAncestors p) : bExists (bMkdirParents fs p) q = true :=
  bExists_contains_dir _ q (bMkdirParents_contains_of_mem fs p q h)

theorem bExists_mono_pred (s : String) :
    ∀ (c d : BootFS), fsGrows c d → bExists c s = true → bExists d s = true :=
  fun _ _ hg h => hg.2 s h

theorem dirsPhase_est (acc : BootAcc) :
    ∀ d ∈ REQUIRED_DIRECTORIES, ∀ q ∈ pathAncestors d,
      (dirsPhase acc).fs.dirs.contains q = true := by
  unfold dirsPhase
  intro d hd
  refine foldl_establish _ (fun fs d => ∀ q ∈ pathAncestors d, fs.dirs.contains q = true)
    ?_ ?_ ?_ REQUIRED_DIRECTORIES acc d hd
  · intro x c e hg hx q hq
    exact hg.1 q (hx q hq)
  · intro a x
    split
    · exact fsGrows_bMkdirParents a.fs x
    · unfold accRecord
      exact fsGrows_bMkdirParents a.fs x
  · intro a x q hq
    have hmk : (bMkdirParents a.fs x).dirs.contains q = true :=
      bMkdirParents_contains_of_mem a.fs x q hq
    split
    · exact hmk
    · exact hmk

theorem textFilesPhase_est (acc : BootAcc) :
    ∀ kv ∈ REQUIRED_TEXT_FILES, bExists (textFilesPhase acc).fs kv.1 = true := by
  unfold textFilesPhase
  intro kv hkv
  have hres := foldl_establish
    (fun (a : BootAcc) (kv : String × String) => writeMissingStep a kv.1 kv.2)
    (fun fs kv => bExists fs kv.1 = true)
    (fun x c d hg hx => hg.2 x.1 hx)
    (fun a x => fsGrows_writeMissingStep a x.1 x.2)
    (fun a x => writeMissingStep_est a x.1 x.2)
    REQUIRED_TEXT_FILES acc kv hkv
  exact hres

theorem gitkeepPhase_est (acc : BootAcc) :
    ∀ rel ∈ GITKEEP_FILES, bExists (gitkeepPhase acc).fs rel = true := by
  unfold gitkeepPhase
  intro rel hrel
  refine foldl_establish _ (fun fs rel => bExists fs rel = true)
    ?_ ?_ ?_ GITKEEP_FILES acc rel hrel
  · intro x c e hg hx
    exact hg.2 x hx
  · intro a x
    exact fsGrows_writeMissingStep a x ""
  · intro a x
    exact writeMissingStep_est a x ""

theorem digestPhase_est (today : PyDate) (acc : BootAcc) :
    ∀ kv ∈ digestStarterPaths today, bExists (digestPhase today acc).fs kv.1 = true := by
  unfold digestPhase
  intro kv hkv
  refine foldl_establish _ (fun fs kv => bExists fs kv.1 = true)
    ?_ ?_ ?_ (digestStarterPaths today) acc kv hkv
  · intro x c e hg hx
    exact hg.2 x.1 hx
  · intro a x
    split
    · exact fsGrows_refl _
    · unfold accRecord
      exact fsGrows_trans (fsGrows_bMkdirParents a.fs (parentDir x.1))
        (fsGrows_bSetFile _ x.1 (.text x.2))
  · intro a x
    split
    · rename_i hex
      exact hex
    · unfold accRecord
      exact bExists_bSetFile_self _ x.1 (.text x.2)

theorem topicsPhase_root_est (acc : BootAcc) :
    ∀ t ∈ TOPIC_ORDER, bExists (topicsPhase acc).fs ("life/" ++ topicSlug t) = true := by
  unfold topicsPhase
  intro t ht
  refine foldl_establish _ (fun fs t => bExists fs ("life/" ++ topicSlug t) = true)
    ?_ ?_ ?_ TOPIC_ORDER acc t ht
  · intro x c e hg hx
    exact hg.2 _ hx
  · intro a x
    dsimp only []
    have h1 : fsGrows a.fs
        (if bExists a.fs ("life/" ++ topicSlug x) = true then a
         else accRecord a (bMkdirParents a.fs ("life/" ++ topicSlug x))
           ("life/" ++ topicSlug x)).fs := by
      split
      · exact fsGrows_refl _
      · unfold accRecord
        exact fsGrows_bMkdirParents a.fs _
    refine fsGrows_trans h1 ?_
    apply foldl_fsGrows
    intro a2 kv
    exact fsGrows_writeMissingStep a2 _ kv.2
  · intro a x
    dsimp only []
    have hroot : bExists
        (if bExists a.fs ("life/" ++ topicSlug x) = true then a
         else accRecord a (bMkdirParents a.fs ("life/" ++ topicSlug x))
           ("life/" ++ topicSlug x)).fs ("life/" ++ topicSlug x) = true := by
      split
      · rename_i hex
        exact hex
      · unfold accRecord
        exact bExists_bMkdirParents_of_anc a.fs _ _ (topic_root_anc x)
    refine (foldl_fsGrows _ ?_ (topicSeedFiles x) _).2 _ hroot
    intro a2 kv
    exact fsGrows_writeMissingStep a2 _ kv.2

theorem topicsPhase_seed_est (acc : BootAcc) :
    ∀ t ∈ TOPIC_ORDER, ∀ kv ∈ topicSeedFiles t,
      bExists (topicsPhase acc).fs ("life/" ++ topicSlug t ++ "/" ++ kv.1) = true := by
  unfold topicsPhase
  intro t ht
  refine foldl_establish _
    (fun fs t => ∀ kv ∈ topicSeedFiles t,
      bExists fs ("life/" ++ topicSlug t ++ "/" ++ kv.1) = true)
    ?_ ?_ ?_ TOPIC_ORDER acc t ht
  · intro x c e hg hx kv hkv
    exact hg.2 _ (hx kv hkv)
  · intro a x
    dsimp only []
    have h1 : fsGrows a.fs
        (if bExists a.fs ("life/" ++ topicSlug x) = true then a
         else accRecord a (bMkdirParents a.fs ("life/" ++ topicSlug x))
           ("life/" ++ topicSlug x)).fs := by
      split
      · exact fsGrows_refl _
      · unfold accRecord
        exact fsGrows_bMkdirParents a.fs _
    refine fsGrows_trans h1 ?_
    apply foldl_fsGrows
    intro a2 kv
    exact fsGrows_writeMissingStep a2 _ kv.2
  · intro a x kv hkv
    dsimp only []
    refine foldl_establish _
      (fun fs kv => bExists fs ("life/" ++ topicSlug x ++ "/" ++ kv.1) = true)
      ?_ ?_ ?_ (topicSeedFiles x) _ kv hkv
    · intro y c e hg hy
      exact hg.2 _ hy
    · intro a2 y
      exact fsGrows_writeMissingStep a2 _ y.2
    · intro a2 y
      exact writeMissingStep_est a2 _ y.2

theorem schemaPhase_fs (acc : BootAcc) :
    (schemaPhase acc).fs = (ensure_schema_version acc.fs).1 := by
  unfold schemaPhase
  split <;> rename_i heq <;> rw [heq]

theorem ensure_schema_version_est (fs : BootFS) :
    (ensure_schema_version fs).1.dirs.contains ".braindrive" = true ∧
    bGetFile (ensure_schema_version fs).1 ".braindrive/schema-version.json" =
      some (.schemaJson SCHEMA_VERSION) := by
  unfold ensure_schema_version
  dsimp only []
  have hdir : (bMkdirParents fs ".braindrive").dirs.contains ".braindrive" = true :=
    bMkdirParents_contains_of_mem fs ".braindrive" ".braindrive" braindrive_self_ancestor
  split
  · rename_i hcond
    constructor
    · exact hdir
    · revert hcond
      cases hget : bGetFile (bMkdirParents fs ".braindrive") ".braindrive/schema-version.json" with
      | none => intro hcond; cases hcond
      | some c =>
        cases c with
        | schemaJson v =>
          intro hcond
          simp only [Option.some.injEq] at hcond
          rw [hcond]
        | text s => intro hcond; cases hcond
        | onbJson o => intro hcond; cases hcond
  · constructor
    · rw [bSetFile_dirs]
      exact hdir
    · exact bGetFile_bSetFile_self _ _ _

theorem schemaPhase_est (acc : BootAcc) :
    (schemaPhase acc).fs.dirs.contains ".braindrive" = true ∧
    bGetFile (schemaPhase acc).fs ".braindrive/schema-version.json" =
      some (.schemaJson SCHEMA_VERSION) := by
  rw [schemaPhase_fs]
  exact ensure_schema_version_est acc.fs

theorem persistPhase_fs (now : String) (acc : BootAcc) :
    (persistPhase now acc).fs =
      (persist_onboarding_state acc.fs (read_onboarding_state acc.fs now) now).1 := by
  unfold persistPhase
  dsimp only []
  split <;> rename_i heq <;> rw [heq]

theorem persist_preserves_other (fs : BootFS) (inc : OnbState) (now q : String)
    (hq : onbStatePath ≠ q) :
    bGetFile (persist_onboarding_state fs inc now).1 q = bGetFile fs q := by
  unfold persist_onboarding_state
  dsimp only []
  split
  · exact bGetFile_congr_files _ fs q (bMkdirParents_files fs ".braindrive")
  · rw [bGetFile_bSetFile_ne _ onbStatePath q _ hq]
    exact bGetFile_congr_files _ fs q (bMkdirParents_files fs ".braindrive")

theorem persistPhase_est (now : String) (acc : BootAcc)
    (h1 : pyStrip now = now) (h2 : now ≠ "") :
    ∃ V, bGetFile (persistPhase now acc).fs onbStatePath = some (.onbJson V) ∧
      OnbNormal V now := by
  refine ⟨persistComputed acc.fs (read_onboarding_state acc.fs now) now, ?_, ?_⟩
  · rw [persistPhase_fs]
    exact (persist_onboarding_state_stores acc.fs _ now).1
  · exact persistComputed_normal acc.fs _ now h1 h2 (read_rec_isSome acc.fs now)

theorem agent_coverage :
    ∀ d ∈ AGENT_MIGRATION_DIRECTORIES,
      ((if d = "." then "AGENT.md" else d ++ "/AGENT.md") ∈
        REQUIRED_TEXT_FILES.map Prod.fst) ∨
      (∃ t ∈ TOPIC_ORDER, ∃ kv ∈ topicSeedFiles t,
        (if d = "." then "AGENT.md" else d ++ "/AGENT.md") =
          "life/" ++ topicSlug t ++ "/" ++ kv.1) := by
  decide

theorem sat_agents_of_files (fs : BootFS)
    (h3 : ∀ kv ∈ REQUIRED_TEXT_FILES, bExists fs kv.1 = true)
    (h5 : ∀ t ∈ TOPIC_ORDER, ∀ kv ∈ topicSeedFiles t,
        bExists fs ("life/" ++ topicSlug t ++ "/" ++ kv.1) = true) :
    ∀ d ∈ AGENT_MIGRATION_DIRECTORIES,
      bExists fs (if d = "." then "AGENT.md" else d ++ "/AGENT.md") = true := by
  intro d hd
  rcases agent_coverage d hd with hmem | ⟨t, ht, kv, hkv, heq⟩
  · rcases List.mem_map.mp hmem with ⟨kv, hkv, hfst⟩
    rw [← hfst]
    exact h3 kv hkv
  · rw [heq]
    exact h5 t ht kv hkv

theorem bootstrap_sat (fs : BootFS) (today : PyDate) (now : String)
    (h1 : pyStrip now = now) (h2 : now ≠ "") :
    BootSat (ensure_scoped_library_structure fs today now).1 today now := by
  unfold ensure_scoped_library_structure
  dsimp only []
  generalize hA0 : (⟨fs, [], [], []⟩ : BootAcc) = a0
  generalize hA1 : dirsPhase a0 = a1
  generalize hA2 : migratePhase a1 = a2
  generalize hA3 : textFilesPhase a2 = a3
  generalize hA4 : topicsPhase a3 = a4
  generalize hA5 : gitkeepPhase a4 = a5
  generalize hA6 : digestPhase today a5 = a6
  generalize hA7 : schemaPhase a6 = a7
  generalize hA8 : persistPhase now a7 = a8
  have g78 : fsGrows a7.fs a8.fs := by rw [← hA8]; exact fsGrows_persistPhase now a7
  have g67 : fsGrows a6.fs a7.fs := by rw [← hA7]; exact fsGrows_schemaPhase a6
  have g56 : fsGrows a5.fs a6.fs := by rw [← hA6]; exact fsGrows_digestPhase today a5
  have g45 : fsGrows a4.fs a5.fs := by rw [← hA5]; exact fsGrows_gitkeepPhase a4
  have g34 : fsGrows a3.fs a4.fs := by rw [← hA4]; exact fsGrows_topicsPhase a3
  have g23 : fsGrows a2.fs a3.fs := by rw [← hA3]; exact fsGrows_textFilesPhase a2
  have g12 : fsGrows a1.fs a2.fs := by rw [← hA2]; exact fsGrows_migratePhase a1
  have g68 : fsGrows a6.fs a8.fs := fsGrows_trans g67 g78
  have g58 : fsGrows a5.fs a8.fs := fsGrows_trans g56 g68
  have g48 : fsGrows a4.fs a8.fs := fsGrows_trans g45 g58
  have g38 : fsGrows a3.fs a8.fs := fsGrows_trans g34 g48
  have g28 : fsGrows a2.fs a8.fs := fsGrows_trans g23 g38
  have g18 : fsGrows a1.fs a8.fs := fsGrows_trans g12 g28
  have e1 : ∀ d ∈ REQUIRED_DIRECTORIES, ∀ q ∈ pathAncestors d,
      a1.fs.dirs.contains q = true := by
    rw [← hA1]; exact dirsPhase_est a0
  have e3 : ∀ kv ∈ REQUIRED_TEXT_FILES, bExists a3.fs kv.1 = true := by
    rw [← hA3]; exact textFilesPhase_est a2
  have e4r : ∀ t ∈ TOPIC_ORDER, bExists a4.fs ("life/" ++ topicSlug t) = true := by
    rw [← hA4]; exact topicsPhase_root_est a3
  have e4s : ∀ t ∈ TOPIC_ORDER, ∀ kv ∈ topicSeedFiles t,
      bExists a4.fs ("life/" ++ topicSlug t ++ "/" ++ kv.1) = true := by
    rw [← hA4]; exact topicsPhase_seed_est a3
  have e5 : ∀ rel ∈ GITKEEP_FILES, bExists a5.fs rel = true := by
    rw [← hA5]; exact gitkeepPhase_est a4
  have e6 : ∀ kv ∈ digestStarterPaths today, bExists a6.fs kv.1 = true := by
    rw [← hA6]; exact digestPhase_est today a5
  have e7 : a7.fs.dirs.contains ".braindrive" = true ∧
      bGetFile a7.fs ".braindrive/schema-version.json" =
        some (.schemaJson SCHEMA_VERSION) := by
    rw [← hA7]; exact schemaPhase_est a6
  have c3 : ∀ kv ∈ REQUIRED_TEXT_FILES, bExists a8.fs kv.1 = true :=
    fun kv hkv => g38.2 kv.1 (e3 kv hkv)
  have c5 : ∀ t ∈ TOPIC_ORDER, ∀ kv ∈ topicSeedFiles t,
      bExists a8.fs ("life/" ++ topicSlug t ++ "/" ++ kv.1) = true :=
    fun t ht kv hkv => g48.2 _ (e4s t ht kv hkv)
  have c9 : bGetFile a8.fs ".braindrive/schema-version.json" =
      some (.schemaJson SCHEMA_VERSION) := by
    rw [← hA8, persistPhase_fs now a7,
      persist_preserves_other a7.fs _ now _ (by decide)]
    exact e7.2
  have c10 : ∃ V, bGetFile a8.fs onbStatePath = some (.onbJson V) ∧
      OnbNormal V now := by
    rw [← hA8]
    exact persistPhase_est now a7 h1 h2
  refine ⟨fun d hd q hq => g18.1 q (e1 d hd q hq),
    sat_agents_of_files a8.fs c3 c5,
    c3,
    fun t ht => g48.2 _ (e4r t ht),
    c5,
    fun rel hrel => g58.2 rel (e5 rel hrel),
    fun kv hkv => g68.2 kv.1 (e6 kv hkv),
    g78.1 _ e7.1,
    c9,
    c10⟩

theorem bootstrap_id (fs1 : BootFS) (today : PyDate) (now : String)
    (h1 : pyStrip now = now) (h2 : now ≠ "") (hS : BootSat fs1 today now) :
    ensure_scoped_library_structure fs1 today now = (fs1, ⟨[], [], []⟩) := by
  obtain ⟨hS1, hS2, hS3, hS4, hS5, hS6, hS7, hS8, hS9, V, hV1, hV2⟩ := hS
  unfold ensure_scoped_library_structure
  dsimp only []
  rw [dirsPhase_id ⟨fs1, [], [], []⟩ hS1, migratePhase_id ⟨fs1, [], [], []⟩ hS2,
    textFilesPhase_id ⟨fs1, [], [], []⟩ hS3, topicsPhase_id ⟨fs1, [], [], []⟩ hS4 hS5,
    gitkeepPhase_id ⟨fs1, [], [], []⟩ hS6, digestPhase_id today ⟨fs1, [], [], []⟩ hS7,
    schemaPhase_id ⟨fs1, [], [], []⟩ hS8 hS9,
    persistPhase_id ⟨fs1, [], [], []⟩ V now h1 h2 hV1 hS8 hV2]
  rfl

theorem persist_onboarding_state_writes (fs2 : BootFS) (inc : OnbState)
    (now : String) (V : OnbState)
    (hfile : bGetFile fs2 onbStatePath = some (.onbJson V))
    (hdirs : fs2.dirs.contains ".braindrive" = true)
    (hupd : V.updatedAt ≠ now) :
    persist_onboarding_state fs2 inc now =
      (bSetFile fs2 onbStatePath (.onbJson (persistComputed fs2 inc now)),
        some onbStatePath) := by
  unfold persist_onboarding_state
  have hmk : bMkdirParents fs2 ".braindrive" = fs2 := by
    apply bMkdirParents_id
    intro q hq
    rw [show pathAncestors ".braindrive" = [".braindrive"] from by decide] at hq
    simp only [List.mem_singleton] at hq
    subst hq
    exact hdirs
  dsimp only []
  have hne : ¬((match some (FileContent.onbJson V) with
      | some (.onbJson e) => some e
      | _ => none) = some (persistComputed fs2 inc now)) := by
    intro heq
    have heq2 : V = persistComputed fs2 inc now := Option.some.inj heq
    apply hupd
    rw [heq2]
    exact persistFinalize_updatedAt _ now
  rw [hmk, hfile, if_neg hne]

theorem bootstrap_changed_second (fs : BootFS) (today : PyDate) (now1 now2 : String)
    (h11 : pyStrip now1 = now1) (h12 : now1 ≠ "") (hne : now1 ≠ now2) :
    (ensure_scoped_library_structure
      (ensure_scoped_library_structure fs today now1).1 today now2).2.changedPaths =
      [onbStatePath] := by
  have hS := bootstrap_sat fs today now1 h11 h12
  generalize hF : (ensure_scoped_library_structure fs today now1).1 = fs1 at hS ⊢
  obtain ⟨hS1, hS2, hS3, hS4, hS5, hS6, hS7, hS8, hS9, V, hV1, hV2⟩ := hS
  unfold ensure_scoped_library_structure
  dsimp only []
  rw [dirsPhase_id ⟨fs1, [], [], []⟩ hS1, migratePhase_id ⟨fs1, [], [], []⟩ hS2,
    textFilesPhase_id ⟨fs1, [], [], []⟩ hS3, topicsPhase_id ⟨fs1, [], [], []⟩ hS4 hS5,
    gitkeepPhase_id ⟨fs1, [], [], []⟩ hS6, digestPhase_id today ⟨fs1, [], [], []⟩ hS7,
    schemaPhase_id ⟨fs1, [], [], []⟩ hS8 hS9]
  have hupd : V.updatedAt ≠ now2 := by
    rw [hV2.2.2.1]
    exact hne
  unfold persistPhase
  dsimp only []
  rw [persist_onboarding_state_writes fs1 (read_onboarding_state fs1 now2) now2 V
    hV1 hS8 hupd]
  rfl


/-- C4 counterexample: a second bootstrap run does not, in general,
report `changed = false`.  When the second run happens at a later
instant, the closing persist re-stamps `updated_at_utc`, rewrites the
onboarding state file, and reports it as changed. -/
theorem c4_counterexample :
    (ensure_scoped_library_structure
      (ensure_scoped_library_structure ⟨[], []⟩ ⟨2025, 6, 2⟩
        "2025-06-02T10:00:00+00:00").1
      ⟨2025, 6, 2⟩ "2025-06-02T10:00:01+00:00").2.changedPaths ≠ [] := by
  rw [bootstrap_changed_second ⟨[], []⟩ ⟨2025, 6, 2⟩ "2025-06-02T10:00:00+00:00"
    "2025-06-02T10:00:01+00:00" (by decide) (by decide) (by decide)]
  decide

/-- C4 (corrected): the schema bootstrapper is idempotent up to the
persist timestamp: re-running it on its own output at the same call
instant leaves the filesystem unchanged and reports empty changed,
created and migrated path lists.  Across distinct instants the second
run reports the onboarding state file as changed, refuting the
claim's unconditional `changed = false`. -/
theorem c4_bootstrap_idempotent (fs : BootFS) (today : PyDate) (now : String)
    (h1 : pyStrip now = now) (h2 : now ≠ "") :
    ensure_scoped_library_structure
      (ensure_scoped_library_structure fs today now).1 today now =
      ((ensure_scoped_library_structure fs today now).1, ⟨[], [], []⟩) :=
  bootstrap_id _ today now h1 h2 (bootstrap_sat fs today now h1 h2)

/-- Witness for the corrected C4 theorem at a concrete library root,
day and instant. -/
theorem c4_witness :
    pyStrip "2025-06-02T10:00:00+00:00" = "2025-06-02T10:00:00+00:00" ∧
    ensure_scoped_library_structure
      (ensure_scoped_library_structure ⟨[], []⟩ ⟨2025, 6, 2⟩
        "2025-06-02T10:00:00+00:00").1 ⟨2025, 6, 2⟩ "2025-06-02T10:00:00+00:00" =
      ((ensure_scoped_library_structure ⟨[], []⟩ ⟨2025, 6, 2⟩
        "2025-06-02T10:00:00+00:00").1, ⟨[], [], []⟩) :=
  ⟨by decide, c4_bootstrap_idempotent ⟨[], []⟩ ⟨2025, 6, 2⟩
    "2025-06-02T10:00:00+00:00" (by decide) (by decide)⟩

end LibSvc
